import Mathlib

/-!
# rs/obfu: a shallow embedding of `obfu.go`

The package obfuscates a byte sequence as text: a random 32-bit seed is written
with the standard lowercase base32 alphabet (7 symbols), followed by the payload
written with a base32 alphabet permuted by a generator seeded with that seed.

Conventions of the embedding.

* A Go `[]byte` is a `List Nat` whose elements stand for bytes (`< 256`).
* A run-time panic (index or slice bound out of range) is `none`.
* `obfu.go` imports `encoding/base32`, `encoding/binary`, `bytes` and `math/rand`
  from the Go standard library.  The functions of those packages that the
  program calls are embedded here from the library sources (`encoding/base32`
  in its byte-by-byte form, contemporary with the package; later releases
  reorganise `Encode` around 32-bit words and write the same symbols, with the
  same out-of-range writes).
* The seeded pseudo-random generator of `math/rand` is a table-driven additive
  generator; its state is abstracted as a `Gen`, the value each call of `Intn`
  is reduced from.  Every theorem holds for every `Gen`, except the test
  vectors of the package, which are evaluated on `goGen`, the generator of
  `rng.go` with its table `rngCooked`.
-/

namespace Obfu

/-! ## Go slices -/

/-- Assignment `dst[i] = v` on a slice: a panic when `i` is out of range. -/
def setIdx (dst : List Nat) (i v : Nat) : Option (List Nat) :=
  if i < dst.length then some (dst.set i v) else none

/-- Slice expression `s[:n]`: a panic when `n` exceeds the length (the slices
sliced this way by the program have capacity equal to their length). -/
def sliceTo (s : List Nat) (n : Nat) : Option (List Nat) :=
  if n ≤ s.length then some (s.take n) else none

/-- Slice expression `s[n:]`: a panic when `n` exceeds the length. -/
def sliceFrom (s : List Nat) (n : Nat) : Option (List Nat) :=
  if n ≤ s.length then some (s.drop n) else none

/-- Builtin `copy(dst, src)`: the first `min(len(dst), len(src))` elements of
`dst` are overwritten; the result is the new content of `dst`. -/
def copy (dst src : List Nat) : List Nat :=
  src.take dst.length ++ dst.drop src.length

/-- Left shift of a `byte` value: the result is truncated to 8 bits. -/
def shl8 (x k : Nat) : Nat := (x <<< k) % 256

/-- Left shift of a `uint32` value: the result is truncated to 32 bits. -/
def shl32 (x k : Nat) : Nat := (x <<< k) % 4294967296

/-! ## `encoding/binary` and `bytes` -/

/-- Conversion `uint32(seed)` of an `int32`. -/
def toUint32 (seed : Int) : Nat := (seed % 4294967296).toNat

/-- Function `binary.BigEndian.PutUint32(b, v)`: panics when `len(b) < 4`. -/
def PutUint32 (b : List Nat) (v : Nat) : Option (List Nat) := do
  let b ← setIdx b 0 ((v >>> 24) % 256)
  let b ← setIdx b 1 ((v >>> 16) % 256)
  let b ← setIdx b 2 ((v >>> 8) % 256)
  setIdx b 3 (v % 256)

/-- Function `binary.BigEndian.Uint32(b)`: reads `b[0..3]`, panics when
`len(b) < 4`. -/
def Uint32 (b : List Nat) : Option Nat :=
  if b.length < 4 then none
  else some (b.getD 3 0 ||| shl32 (b.getD 2 0) 8 ||| shl32 (b.getD 1 0) 16
    ||| shl32 (b.getD 0 0) 24)

/-- The four bytes `PutUint32` writes for `v`, most significant first. -/
def bigEndian32 (v : Nat) : List Nat :=
  [(v >>> 24) % 256, (v >>> 16) % 256, (v >>> 8) % 256, v % 256]

/-- Function `bytes.TrimRight(s, "=")`: removes every trailing `=` (61). -/
def TrimRight (s : List Nat) : List Nat := s.rdropWhile (fun c => c == 61)

/-! ## `encoding/base32` -/

/-- Constant `base32.StdPadding`, the rune `=`. -/
def StdPadding : Int := 61

/-- Constant `base32.NoPadding`. -/
def NoPadding : Int := -1

/-- Marker of an absent symbol in a decode map. -/
def invalidIndex : Nat := 255

/-- Type `base32.Encoding`: the 32-symbol alphabet, the 256-entry reverse
map and the padding rune. -/
structure Encoding where
  /-- Field `encode [32]byte`. -/
  encode : List Nat
  /-- Field `decodeMap [256]byte`. -/
  decodeMap : List Nat
  /-- Field `padChar rune`. -/
  padChar : Int
deriving DecidableEq, Repr

/-- Conversion `byte(enc.padChar)`. -/
def Encoding.padByte (enc : Encoding) : Nat := (enc.padChar % 256).toNat

/-- Loop of `NewEncoding` filling the reverse map, `decodeMap[encoder[i]] = i`.
Recent releases of the library panic when the alphabet holds a CR or LF or
repeats a symbol; earlier ones do not check.  The checks are kept, so a result
`some` is the map every release builds. -/
def fillDecodeMap : List Nat → Nat → List Nat → Option (List Nat)
  | [], _, m => some m
  | c :: cs, i, m =>
    if c = 10 ∨ c = 13 then none
    else if m.getD c invalidIndex ≠ invalidIndex then none
    else fillDecodeMap cs (i + 1) (m.set c i)

/-- Function `base32.NewEncoding(encoder)`: panics unless the alphabet has
exactly 32 bytes. -/
def NewEncoding (encoder : List Nat) : Option Encoding :=
  if encoder.length ≠ 32 then none
  else (fillDecodeMap encoder 0 (List.replicate 256 invalidIndex)).map
    (fun m => { encode := encoder, decodeMap := m, padChar := StdPadding })

/-- Method `EncodedLen(n)`. -/
def Encoding.EncodedLen (enc : Encoding) (n : Nat) : Nat :=
  if enc.padChar = NoPadding then (n * 8 + 4) / 5 else (n + 4) / 5 * 8

/-- Method `DecodedLen(n)`. -/
def Encoding.DecodedLen (enc : Encoding) (n : Nat) : Nat :=
  if enc.padChar = NoPadding then n * 5 / 8 else n / 8 * 5

/-- Switch arm `case 1` of `Encode`. -/
def unpack1 (b s : List Nat) : List Nat :=
  let b := b.set 1 (b.getD 1 0 ||| (shl8 (s.getD 0 0) 2 &&& 31))
  b.set 0 (s.getD 0 0 >>> 3)

/-- Switch arm `case 2` of `Encode`, falling through to `case 1`. -/
def unpack2 (b s : List Nat) : List Nat :=
  let b := b.set 3 (b.getD 3 0 ||| (shl8 (s.getD 1 0) 4 &&& 31))
  let b := b.set 2 ((s.getD 1 0 >>> 1) &&& 31)
  let b := b.set 1 ((s.getD 1 0 >>> 6) &&& 31)
  unpack1 b s

/-- Switch arm `case 3` of `Encode`, falling through. -/
def unpack3 (b s : List Nat) : List Nat :=
  let b := b.set 4 (b.getD 4 0 ||| (shl8 (s.getD 2 0) 1 &&& 31))
  let b := b.set 3 ((s.getD 2 0 >>> 4) &&& 31)
  unpack2 b s

/-- Switch arm `case 4` of `Encode`, falling through. -/
def unpack4 (b s : List Nat) : List Nat :=
  let b := b.set 6 (b.getD 6 0 ||| (shl8 (s.getD 3 0) 3 &&& 31))
  let b := b.set 5 ((s.getD 3 0 >>> 2) &&& 31)
  let b := b.set 4 (s.getD 3 0 >>> 7)
  unpack3 b s

/-- Switch arm `default` of `Encode` (five bytes or more), falling through. -/
def unpack5 (b s : List Nat) : List Nat :=
  let b := b.set 7 (s.getD 4 0 &&& 31)
  let b := b.set 6 (s.getD 4 0 >>> 5)
  unpack4 b s

/-- The `switch len(src)` of `Encode`: the eight 5-bit values `b` of the
quantum at the head of `src` (called with `len(src) > 0`). -/
def unpack (s : List Nat) : List Nat :=
  let b := List.replicate 8 0
  match s.length with
  | 1 => unpack1 b s
  | 2 => unpack2 b s
  | 3 => unpack3 b s
  | 4 => unpack4 b s
  | _ => unpack5 b s

/-- The symbol writes of `Encode`: `dst[i] = enc.encode[b[i]&31]` for
`i < 8` when `len(dst) >= 8`, else for `i < len(dst)`. -/
def writeSymbols (enc : Encoding) (dst b : List Nat) : List Nat :=
  (List.range (if dst.length ≥ 8 then 8 else dst.length)).foldl
    (fun d i => d.set i (enc.encode.getD (b.getD i 0 &&& 31) 0)) dst

/-- The padding writes of `Encode` for a last quantum of `len` bytes. -/
def padQuantum (pad : Nat) (dst : List Nat) (len : Nat) : Option (List Nat) := do
  let dst ← setIdx dst 7 pad
  if len < 4 then
    let dst ← setIdx dst 6 pad
    let dst ← setIdx dst 5 pad
    if len < 3 then
      let dst ← setIdx dst 4 pad
      if len < 2 then
        let dst ← setIdx dst 3 pad
        setIdx dst 2 pad
      else some dst
    else some dst
  else some dst

/-- Method `(*Encoding).Encode(dst, src)`: the new content of `dst`, or a
panic.  One quantum per round: 5 source bytes give 8 symbols; the last,
shorter quantum is padded. -/
def Encoding.Encode (enc : Encoding) : List Nat → List Nat → Option (List Nat)
  | dst, [] => some dst
  | dst, s0 :: s1 :: s2 :: s3 :: s4 :: rest =>
    let dst1 := writeSymbols enc dst (unpack (s0 :: s1 :: s2 :: s3 :: s4 :: rest))
    -- src = src[5:]; dst = dst[8:]
    if dst1.length < 8 then none
    else (Encoding.Encode enc (dst1.drop 8) rest).map (fun tl => dst1.take 8 ++ tl)
  | dst, s0 :: rest =>
    let dst1 := writeSymbols enc dst (unpack (s0 :: rest))
    if enc.padChar = NoPadding then some dst1
    else padQuantum enc.padByte dst1 (s0 :: rest).length

/-- The symbol `enc.encode[v&31]` of a 5-bit value. -/
def Encoding.sym (enc : Encoding) (v : Nat) : Nat := enc.encode.getD (v &&& 31) 0

/-- Number of symbols that carry the bits of `n` bytes, `ceil(8n/5)`. -/
def symCount (n : Nat) : Nat := (n * 8 + 4) / 5

/-- The padded text of `src`, quantum by quantum: what `Encode` writes into a
destination that is long enough (`Encode_eq_text`). -/
def Encoding.text (enc : Encoding) : List Nat → List Nat
  | [] => []
  | s0 :: s1 :: s2 :: s3 :: s4 :: rest =>
    (unpack [s0, s1, s2, s3, s4]).map enc.sym ++ Encoding.text enc rest
  | s0 :: rest =>
    ((unpack (s0 :: rest)).take (symCount (rest.length + 1))).map enc.sym
      ++ List.replicate (8 - symCount (rest.length + 1)) enc.padByte

/-- Function `stripNewlines`: drops every CR (13) and LF (10). -/
def stripNewlines (src : List Nat) : List Nat :=
  src.filter (fun c => !(c == 13 || c == 10))

/-- Outcome of reading one quantum in `decode`. -/
inductive Quantum
  /-- The read failed with `CorruptInputError(e)`. -/
  | corrupt (e : Nat)
  /-- The quantum `dbuf` of `dlen` values was read; `fin` is the flag `end`
  and `rest` the unread input. -/
  | read (dbuf : List Nat) (dlen : Nat) (fin : Bool) (rest : List Nat)
deriving DecidableEq, Repr

/-- The loop `for k := 0; k < 8-1-j; k++` of `decode`: the first `k` at
which `src[k]` exists and is not the padding byte. -/
def badPadding (pad : Nat) (src : List Nat) (j : Nat) : Option Nat :=
  (List.range (8 - 1 - j)).find? (fun k => decide (k < src.length) && !(src.getD k 0 == pad))

/-- The inner loop `for j := 0; j < 8;` of `decode`, entered at `j` with the
unread input `src`; `olen` is the length of the whole input. -/
def readQuantum (enc : Encoding) (olen : Nat) : Nat → List Nat → List Nat → Quantum
  | j, [], dbuf =>
    if j < 8 then
      if enc.padChar ≠ NoPadding then Quantum.corrupt (olen - 0 - j)
      else Quantum.read dbuf j true []
    else Quantum.read dbuf 8 false []
  | j, c :: src, dbuf =>
    if j < 8 then
      if c = enc.padByte ∧ j ≥ 2 ∧ src.length < 8 then
        if src.length + j < 8 - 1 then Quantum.corrupt olen
        else match badPadding enc.padByte src j with
          | some k => Quantum.corrupt (olen - src.length + k - 1)
          | none =>
            if j = 1 ∨ j = 3 ∨ j = 6 then Quantum.corrupt (olen - src.length - 1)
            else Quantum.read dbuf j true src
      else
        let v := enc.decodeMap.getD c invalidIndex
        if v = 255 then Quantum.corrupt (olen - src.length - 1)
        else readQuantum enc olen (j + 1) src (dbuf.set j v)
    else Quantum.read dbuf 8 false (c :: src)

/-- Switch arm `case 2` of `decode`. -/
def pack2 (dst dbuf : List Nat) (dsti n : Nat) : Option (List Nat × Nat) := do
  let dst ← setIdx dst (dsti + 0) (shl8 (dbuf.getD 0 0) 3 ||| dbuf.getD 1 0 >>> 2)
  some (dst, n + 1)

/-- Switch arm `case 4` of `decode`, falling through. -/
def pack4 (dst dbuf : List Nat) (dsti n : Nat) : Option (List Nat × Nat) := do
  let dst ← setIdx dst (dsti + 1)
    (shl8 (dbuf.getD 1 0) 6 ||| shl8 (dbuf.getD 2 0) 1 ||| dbuf.getD 3 0 >>> 4)
  pack2 dst dbuf dsti (n + 1)

/-- Switch arm `case 5` of `decode`, falling through. -/
def pack5 (dst dbuf : List Nat) (dsti n : Nat) : Option (List Nat × Nat) := do
  let dst ← setIdx dst (dsti + 2) (shl8 (dbuf.getD 3 0) 4 ||| dbuf.getD 4 0 >>> 1)
  pack4 dst dbuf dsti (n + 1)

/-- Switch arm `case 7` of `decode`, falling through. -/
def pack7 (dst dbuf : List Nat) (dsti n : Nat) : Option (List Nat × Nat) := do
  let dst ← setIdx dst (dsti + 3)
    (shl8 (dbuf.getD 4 0) 7 ||| shl8 (dbuf.getD 5 0) 2 ||| dbuf.getD 6 0 >>> 3)
  pack5 dst dbuf dsti (n + 1)

/-- Switch arm `case 8` of `decode`, falling through. -/
def pack8 (dst dbuf : List Nat) (dsti n : Nat) : Option (List Nat × Nat) := do
  let dst ← setIdx dst (dsti + 4) (shl8 (dbuf.getD 6 0) 5 ||| dbuf.getD 7 0)
  pack7 dst dbuf dsti (n + 1)

/-- The `switch dlen` of `decode`: packs the quantum into `dst[dsti..]` and
counts the bytes written. -/
def pack (dst dbuf : List Nat) (dsti dlen n : Nat) : Option (List Nat × Nat) :=
  match dlen with
  | 8 => pack8 dst dbuf dsti n
  | 7 => pack7 dst dbuf dsti n
  | 5 => pack5 dst dbuf dsti n
  | 4 => pack4 dst dbuf dsti n
  | 2 => pack2 dst dbuf dsti n
  | _ => some (dst, n)

/-- Result `(n, end, err)` of `decode`, with the new content of `dst`. -/
structure Decoded where
  /-- New content of the destination. -/
  dst : List Nat
  /-- Number of bytes written. -/
  n : Nat
  /-- Flag `end`. -/
  fin : Bool
  /-- The `CorruptInputError`, if any. -/
  err : Option Nat
deriving DecidableEq, Repr

/-- The outer loop `for len(src) > 0 && !end` of `decode`.  Every round
consumes at least one symbol, so `len(src)` rounds are enough: `fuel` counts
them down (`decodeLoop_fuel`). -/
def decodeLoop (enc : Encoding) (olen : Nat) :
    Nat → List Nat → Nat → Nat → Bool → List Nat → Option Decoded
  | 0, dst, _, n, fin, _ => some ⟨dst, n, fin, none⟩
  | fuel + 1, dst, dsti, n, fin, src =>
    if src.length > 0 ∧ fin = false then
      match readQuantum enc olen 0 src (List.replicate 8 0) with
      | Quantum.corrupt e => some ⟨dst, n, false, some e⟩
      | Quantum.read dbuf dlen fin2 rest =>
        match pack dst dbuf dsti dlen n with
        | none => none
        | some (dst2, n2) => decodeLoop enc olen fuel dst2 (dsti + 5) n2 fin2 rest
    else some ⟨dst, n, fin, none⟩

/-- Method `(*Encoding).decode(dst, src)`. -/
def Encoding.decode (enc : Encoding) (dst src : List Nat) : Option Decoded :=
  decodeLoop enc src.length src.length dst 0 0 false src

/-- Method `(*Encoding).Decode(dst, src)`: new lines are stripped, then
`decode` runs; the result is `(n, err)` with the new content of `dst`. -/
def Encoding.Decode (enc : Encoding) (dst src : List Nat) : Option Decoded :=
  enc.decode dst (stripNewlines src)

/-! ## `math/rand` -/

/-- A seeded generator: `g seed k` is the value from which the `k`-th call of
`Intn` on `rand.New(rand.NewSource(seed))` is reduced. -/
abbrev Gen := Int → Nat → Nat

namespace Rand

/-- Method `Intn(n)`, at the `k`-th call on the generator: a value in
`[0, n)`. -/
def Intn (draw : Nat → Nat) (k n : Nat) : Nat := draw k % n

/-- Method `Perm(n)`: `m[i] = m[j]; m[j] = i` with `j = Intn(i+1)`, for
`i = 0 .. n-1`. -/
def Perm (draw : Nat → Nat) (n : Nat) : List Nat :=
  (List.range n).foldl
    (fun m i => let j := Intn draw i (i + 1); (m.set i (m.getD j 0)).set j i)
    (List.replicate n 0)

end Rand

/-! ## `obfu.go` -/

/-- Constant `stdEncode`, the bytes of "abcdefghijklmnopqrstuvwxyz234567". -/
def stdEncode : List Nat :=
  [97, 98, 99, 100, 101, 102, 103, 104, 105, 106, 107, 108, 109, 110, 111, 112,
   113, 114, 115, 116, 117, 118, 119, 120, 121, 122, 50, 51, 52, 53, 54, 55]

/-- Variable `stdEncoding = base32.NewEncoding(stdEncode)`. -/
def stdEncoding : Option Encoding := NewEncoding stdEncode

/-- Well-formed encodings: the alphabet is a permutation of `stdEncode`, the
padding is `=`, and the reverse map inverts the alphabet and marks every
other byte as absent. -/
structure Encoding.Valid (enc : Encoding) : Prop where
  /-- The alphabet is a permutation of `stdEncode`. -/
  perm : List.Perm enc.encode stdEncode
  /-- The padding rune is `=`. -/
  pad : enc.padChar = StdPadding
  /-- The reverse map inverts the alphabet. -/
  dec : ∀ v, v < 32 → enc.decodeMap.getD (enc.encode.getD v 0) invalidIndex = v
  /-- Bytes outside the alphabet are marked absent. -/
  absent : ∀ c, c ∉ enc.encode → enc.decodeMap.getD c invalidIndex = invalidIndex
  /-- The reverse map has 256 entries. -/
  maplen : enc.decodeMap.length = 256

/-- The loop `for i, v := range perm { encode[i] = stdEncode[v] }`: a panic
when some `v` is not an index of `stdEncode`. -/
def indexAll (tbl : List Nat) : List Nat → Option (List Nat)
  | [] => some []
  | v :: vs => do
    let c ← tbl.get? v
    let cs ← indexAll tbl vs
    some (c :: cs)

/-- Function `newSeedEncoding(seed)`. -/
def newSeedEncoding (g : Gen) (seed : Int) : Option Encoding := do
  let perm := Rand.Perm (g seed) stdEncode.length
  let encode ← indexAll stdEncode perm
  NewEncoding encode

/-- Function `Encode(src)`; `seed` is the value `rand.Int31()` returns. -/
def Encode (g : Gen) (seed : Int) (src : List Nat) : Option (List Nat) := do
  let enc ← newSeedEncoding g seed
  let seedLen := 8
  let encLen := enc.EncodedLen src.length
  let dst := List.replicate (encLen + seedLen - 1) 0
  let seedBytes ← PutUint32 (List.replicate 4 0) (toUint32 seed)
  let std ← stdEncoding
  let dst ← std.Encode dst seedBytes
  let tl ← sliceFrom dst (seedLen - 1)
  let tl ← enc.Encode tl src
  let dst := dst.take (seedLen - 1) ++ tl
  some (TrimRight dst)

/-- Errors of `Decode`. -/
inductive Error
  /-- The error `errors.New("invalid input size")`. -/
  | invalidInputSize
  /-- The error `fmt.Errorf("seed decode error: %v", CorruptInputError(e))`. -/
  | seedDecode (e : Nat)
  /-- The error `fmt.Errorf("payload decode error: %v", CorruptInputError(e))`. -/
  | payloadDecode (e : Nat)
deriving DecidableEq, Repr

/-- Method `CorruptInputError.Error()`. -/
def corruptInputMessage (e : Nat) : String :=
  "illegal base32 data at input byte " ++ toString e

/-- The text of an error. -/
def Error.message : Error → String
  | Error.invalidInputSize => "invalid input size"
  | Error.seedDecode e => "seed decode error: " ++ corruptInputMessage e
  | Error.payloadDecode e => "payload decode error: " ++ corruptInputMessage e

/-- The statement `if pad := 8 - len(src)%8; pad != 8 { ... append '=' }`. -/
def repad (src : List Nat) : List Nat :=
  let pad := 8 - src.length % 8
  if pad ≠ 8 then src ++ List.replicate pad 61 else src

/-- Lines 72 to 81 of `Decode`: the seed read from the first 7 symbols. -/
def decodeSeed (src : List Nat) : Option (Except Error Nat) := do
  let std ← stdEncoding
  let seedEnc := copy (List.replicate 8 0) (src.take 7)
  let seedEnc ← setIdx seedEnc 7 61
  let seedBytes := List.replicate 5 0
  let r ← std.Decode seedBytes seedEnc
  match r.err with
  | some e => some (Except.error (Error.seedDecode e))
  | none => do
    let b ← sliceTo r.dst r.n
    let seed ← Uint32 b
    some (Except.ok seed)

/-- Lines 82 to 94 of `Decode`: the payload decoded with the alphabet of
`seed`. -/
def decodePayload (g : Gen) (seed : Nat) (src : List Nat) :
    Option (Except Error (List Nat)) := do
  let enc ← newSeedEncoding g (seed : Int)
  let src ← sliceFrom src 7
  let src := repad src
  let dst := List.replicate (enc.DecodedLen src.length) 0
  let r ← enc.Decode dst src
  match r.err with
  | some e => some (Except.error (Error.payloadDecode e))
  | none => (sliceTo r.dst r.n).map Except.ok

/-- Function `Decode(src)`. -/
def Decode (g : Gen) (src : List Nat) : Option (Except Error (List Nat)) :=
  if src.length < 7 then some (Except.error Error.invalidInputSize)
  else do
    match ← decodeSeed src with
    | Except.error e => some (Except.error e)
    | Except.ok seed => decodePayload g seed src

deriving instance DecidableEq for Except

/-- Bytes of an ASCII text. -/
def ascii (s : String) : List Nat := s.toList.map Char.toNat

/-- A sample generator, used to run the program on concrete inputs. -/
def sampleGen : Gen := fun seed k => (seed.toNat + 7 * k * k + 3 * k + 1)

namespace Rand

/-- Method `Int63()`: the source's 64-bit output `u` with the top bit masked
off (`rngMask = 1<<63 - 1`). -/
def Int63 (u : Nat) : Nat := u &&& 9223372036854775807

/-- Method `Int31()`: `int32(r.Int63() >> 32)`. -/
def Int31 (u : Nat) : Int := ((Int63 u >>> 32 : Nat) : Int)

end Rand

/-! ## The additive generator of `math/rand` (`rng.go`)

An `int64` of the generator state is held as its 64-bit pattern, a `Nat` below
`2^64`, so that `+` wraps modulo `2^64` and `<<` drops the bits shifted out. -/

/-- Array `rngCooked` of `rng.go`: the state of the generator after 7.8e12
steps from `srand(1)`, as `gen_cooked.go` computes it. -/
def rngCooked : List Nat :=
  [14264951931575795690, 13869761123581321051, 1395769623340756751, 5333664234075297259,
   12099064557210750862, 9033628115061424579, 7143218595135194537, 4812947590706362721,
   7937252194349799378, 5307299880338848416, 8209348851763925077, 11339113636173589852,
   4593015457530856296, 8140875735541888011, 12542801278119864834, 17843187685045096842,
   10950446080338395308, 113108499721038619, 4569519971459345583, 14286205895930090539,
   11610990808113840232, 11939503381211461920, 6559392774825876886, 7650093201692370310,
   7684323884043752161, 9481239872850807198, 15816828556263790972, 271327514973697897,
   12012758484194894092, 1065192797246149621, 3344507881999356393, 13683169978634842441,
   7465081662728599889, 1014950805555097187, 13672812766200766583, 12704481403293278451,
   2418672789110888383, 5796562887576294778, 4484266064449540171, 3738982361971787048,
   13746969221367130231, 10530508058128498, 17857205820137121926, 11848681966483567436,
   8660405965245884302, 10162832508971942, 15764086717816593199, 7031802312784620857,
   6240911277345944669, 831864355460801054, 17227806174396928699, 2116287251661052151,
   2202309800992166967, 9161020366945053561, 4069299552407763864, 4936383537992622449,
   457351505131524928, 9565567082782955162, 12071143719671376317, 11291392152841152326,
   4368649989588021065, 887231587095185257, 14786963543741352304, 16039597237106726104,
   5616972787034086048, 17695181340249612374, 1686575021641186857, 13268856374929037810,
   13467528252056554731, 17071589370638353195, 5632136521049761902, 10056655178912611080,
   18253098545223853001, 12466955171518863100, 13539743138659252895, 18161222016820773788,
   15670312443665209909, 1679342092332374735, 6050638460742422078, 16216892756364357390,
   16864249889369069417, 5881353426285907985, 812786550756860885, 4541845584483343330,
   11948842253131784894, 4980675660146853729, 14434141117458011869, 18117655355845306629,
   15549814841604860090, 1495812843684243920, 16293123615653903827, 7370257291860230865,
   15980301312211718069, 4706794511633873654, 17047892504682674471, 8549875090542453214,
   9257022866333371964, 10552290472606098451, 7297902601803624459, 1011190183918857495,
   11461397073672630752, 5147159997473910359, 10119884128415298790, 2659470849286379941,
   6097729358393448602, 10955098023159529492, 13329627878838588519, 17550527247576311316,
   17700883657540850210, 5803876044675762232, 17658789817714997470, 15212224893505847052,
   13939209333958727718, 16789544008119260922, 505808562678895611, 14293470217549839178,
   10065482703630647321, 572156825025677802, 1791881013492340891, 3393267094866038768,
   13002093887327012317, 2352769483186201278, 10515831620702143266, 18121279080529864227,
   15005181073998939344, 11957330830884268321, 5092019688680754699, 18219496591627302649,
   4234737173186232084, 5027558287275472836, 4635198586344772304, 17910710930121915159,
   5907508150730407386, 10008128292328720260, 972392927514829904, 14645429731662950920,
   14381792679824059699, 18271903715413419033, 2407211146698877100, 16806654253375875377,
   3940796514530962282, 12564546667899982183, 3095313889586102949, 16628693932543014518,
   5832080132947175283, 7890064875145919662, 8184139210799583195, 10373231898264001938,
   10687969280694987110, 13865020044042767681, 3516491885471466898, 10179660558646433500,
   6657089965014657519, 5220884358887979358, 1796677326474620641, 5340761970648932916,
   1147977171614181568, 5066037465548252321, 2574765911837859848, 1085848279845204775,
   12573479566723166167, 6116438694366558490, 2107701075971293812, 11026666102776045075,
   2469478054175558874, 16591615317874741792, 13015280404698453334, 9408419007971232445,
   11480467793368215456, 7217693971077460129, 10132421989934280067, 7196649268545224266,
   14861032382255645407, 13178916982282740991, 8057528650917418961, 13362640477155903451,
   15845298625368343867, 10596733173657457249, 6527366231383600011, 3507654575162700890,
   9202058512774729859, 1954818376891585542, 15863752943984951513, 8299563319178235687,
   13125239392073730181, 7046310742295574065, 16070567428188766040, 10796010137373643861,
   8850422670118399721, 3631909142291992901, 5158881091950831288, 12106330354197897401,
   4763258931815816403, 6280052734341785344, 13467161445059740658, 2043464728020827976,
   15768672502876861273, 4562580375758598164, 5495451168795427352, 10961684898444926903,
   553004618757816492, 6895160632757959823, 17456995959119460979, 7139506338801360852,
   17774263259242767477, 5535668688139305547, 2430933853350256242, 14625313294717976884,
   17383012075962504607, 15380865868455546174, 7632066283658143750, 6308328381617103346,
   3681878764086140361, 3289686137190109749, 6587997200611086848, 244714774258135476,
   13303160414271911908, 8090302575944624335, 2945117363431356361, 10087696432703516853,
   3009039260312620700, 17653399496937309839, 401084700045993341, 16477994483293470729,
   4707864159563588614, 14863620567818269759, 15205879749544773701, 12538470279136985913,
   14727219615626694234, 13165343404029969690, 8118566580304798074, 3839261274019871296,
   7062410411742090847, 9964753039834983476, 6027994129690250817, 11721202031004839738,
   15474762371281004642, 10592302284758294641, 8809096399316380241, 6492004350391900708,
   2462145737463489636, 9628200455775074982, 13376398471086466403, 9485157752110251748,
   14688087421454847165, 9816082441233538825, 6764129236657751224, 17737027755394133257,
   15043715700656690016, 9608670561538565719, 14447507040292975275, 15526503678193577953,
   16373494598164147200, 368107899140673753, 12338558871413087366, 12139008390439056859,
   4782583894627718279, 6718292300699989587, 8387085186914375220, 3387513132024756289,
   4654329375432538231, 18154039598218157410, 14597745473731095081, 7623042350483453954,
   7725442901813263321, 9186225467561587250, 13314399326452279163, 11581003643347355608,
   2530936820058611833, 1636551876240043639, 14788036711189741607, 1452244145334316253,
   11285014417874466637, 10502952303350069844, 9108481583171221009, 15246650723588825617,
   5007630032676973346, 2153168792952589781, 6720334534964750538, 15264918527989569913,
   3433922409283786309, 2285479922797300912, 3110614940896576130, 15589931627577618701,
   14642163456520912317, 7163298419643543757, 4891138053923696990, 580618510277907015,
   1684034065251686769, 4429514767357295841, 9553718615410225813, 10343010032666950483,
   7177515271653460134, 4589042248470800257, 16916660665913780371, 143607045258444228,
   246994305896273627, 10089789361657875095, 6473547110565816071, 3092379936208876896,
   2058427839513754051, 14357156745381643746, 8785882556301281247, 15372704703695943419,
   17809214218309247943, 6137678347805511274, 11293819221291745814, 5708223427705576541,
   15223029929313020312, 4358391411789012426, 325123008708389849, 6837621693887290924,
   4843721905315627004, 15234023259004052223, 14621724235818650460, 4602025990114250980,
   1044646352569048800, 9106614159853161675, 10052628152083369077, 14142656405957772808,
   2681532557646850893, 3681559472488511871, 14531371555812989843, 15557502425297605082,
   11882080269771313412, 10386685901906962095, 581945337509520675, 3648778920718647903,
   13647045283161320222, 10844171820851731551, 220828013409515943, 17373756736854165569,
   4287360518296753003, 13813372221700659651, 5513660857261085186, 16188201137247550083,
   9702363725205551843, 8746140185685648781, 228500091334420247, 1356187007457302238,
   3019253992034194581, 3152601605678500003, 9653524789560778021, 5559581553696971176,
   4916432985369275664, 9886946968589330199, 12644145875782507884, 2868348622579915573,
   11222691170899194328, 12552061555491058531, 2587672709781371173, 10740627350384175141,
   3092343956317362483, 12885624555861839916, 972445599196498113, 16888237472730735175,
   1708913533482282562, 16141189199523644302, 12441001059400088708, 11793415064076482915,
   17963160876398400421, 2488075924621352812, 13917374432242212476, 13783000518653290164,
   2997203966153298104, 1282559373026354493, 240113143146674385, 8665713329246516443,
   628141331766346752, 13795322854041546284, 10696183225007011216, 7596648026010355826,
   15314591454609200551, 7834161864828164065, 7103445518877254909, 4390861237357459201,
   13666025901095347542, 18126854441702107176, 622261699494173647, 15260633287151989056,
   9727776984920484926, 16498587563071888869, 10234548817710777208, 11418122142478236871,
   2623071828615234808, 14380685764928611916, 12961777148821377852, 11763139560931505378,
   11690656433204045150, 5256026990536851868, 7841086888628396109, 6640857538655893162,
   10425459375893093306, 11336887029295491786, 16757722932197707211, 14148656771753260553,
   14368995808332269613, 17448512916989748140, 2719520354384050532, 9132346697815513771,
   4332154495710163773, 16361161630949122724, 6994721091344268833, 15890600611723824742,
   9878812082581453307, 59934747298466858, 15348346064932812213, 18181146817510141226,
   2332206071942466437, 10924428749141145435, 3154897383618636503, 10861138218242383335,
   11683893314622352341, 197309393502684135, 9867049891240043123, 2543179307861934850,
   4350769010207485119, 13978024126265443480, 11238967539496290320, 17222431495831234416,
   4287946071480840813, 8362686366770308971, 6486469209321732151, 12841099882696571834,
   16777725562689078052, 4450022655153542367, 10828567777068311557, 14550386602160284195,
   13849947850405104128, 11915594057452480957, 9464417610572025676, 14321419011481869818,
   17140254332315506072, 10108189127152306387, 5329160409530630596, 7790979528857726136,
   4955070238059373407, 14141909312277450110, 12231448220805180437, 3007769226071157901,
   11693718272472578828, 8928702772696731736, 7856187920214445904, 13698246622246750693,
   7900176660600710914, 11363943164771002480, 11648817094119975779, 11709427190196623638,
   4186670094382025798, 1883939007446035042, 18032038080929643793, 3734134241178479257,
   4065968871360089196, 6953124200385847784, 10529058851593674865, 10861111135869233455,
   12879497697802769017, 13190131671487942828, 3106378204088556331, 15552271859633225618,
   4565385105440252958, 1979884289539493806, 11555165223775641233, 3783206694208922581,
   8464961209802336085, 2843963751609577687, 3030678195484896323, 14017089610950548412,
   4459239494808162889, 402587895800087237, 8057891408711167515, 4541888170938985079,
   1042662272908816815, 14780675093977344766, 2647678726283249984, 2144477441549833761,
   15029724252210162895, 16341143040328679431, 5916597177708541638, 9685969752307097169,
   8833658097025758785, 5970273481425315300, 563813119381731307, 11991721587507472823,
   1598828206250873866, 14429765684258333918, 15458415522564037631, 12375589438869415304,
   8469693267274066490, 125672920241807416, 14534451660878836746, 15887126969165267395,
   17960220331903527524, 13711411811846837686, 5923302823487327109, 9364263827937879044,
   16638314830248350098, 7990420780896957397, 4317817392807076702, 3625184369705367340,
   11964094802142898511, 14966472046557534152, 15221270677363814967, 18077865378207259971,
   14465580072287683609, 9924710936745763006, 7609280429197514109, 3020985755112334161,
   15874694743910288674, 2635195723621160615, 5144520864246028816, 10258458552582605636,
   1567242097116389047, 8172389260191636581, 15561192388284068081, 11386384603851234733,
   11966562939745038489, 11129739670076099235, 6011544915663598137, 5932255307352610768,
   2241128460406315459, 10118876933071471396, 3094483003111372717, 4583857460292963101,
   9079887171656594975, 18062661218785487211, 14986112424097833681, 4225072055348026230,
   11061592635243808871, 3801620336801580414, 18046898656934849664, 10999989642439876143,
   7899055018877642622, 5421679761463003041, 5521102963086275121, 13471651480414141706,
   8735487530905098534, 10983899128428468786, 16365857086512521702, 17446028909781993931,
   14192903601778480131, 12617847979051648288, 6424174453260338141, 359248545074932887,
   12497023319686506406, 16020478236651914404, 3030918217665093212, 9368972871472089844,
   15259947892920402041, 740416251634527158, 16303799672304711390, 6951781370868335478,
   399922722363687927, 9518274351302028993, 17068322973193954331, 10103692895489484850,
   15416027717663451387, 9634976723239486196, 9026808440365124461, 6440783557497587732,
   4615674634722404292, 539897290441580544, 2096238225866883852, 8751955639408182687,
   11130596944907065411, 7381039757301768559, 6157238513393239656, 16973366268768933383,
   8629571604380892756, 5280433031239081479, 7101611890139813254, 2479018537985767835,
   7169176924412769570, 17165438534647979110, 10581131765910333496, 2278447439451174845,
   3625338785743880657, 6477479539006708521, 8976185375579272206, 14734743591566611928,
   1326024180520890843, 7537449876596048829, 5464680203499696154, 3189671183162196045,
   6346751753565857109, 9464532024175406115, 12319165486513457861, 18201704883591085967,
   12126166699127923024, 7208698530190629697, 7276901792339343736, 10955757266169218948,
   4133292154170828382, 2918308698224194548, 10742833434791920266, 14517306749471367572,
   14146200990878228472, 12102583570351201449, 5896236396443472108, 17688415852206528233,
   16552392433726400548, 18138843753869264396, 12168274672532238855, 16275451110348240942,
   8382142935188824023, 9103922860780351547, 4152330101494654406]

/-- Function `seedrand(x)`: `x[n+1] = 48271 * x[n] mod (2**31 - 1)`. -/
def seedrand (x : Int) : Int :=
  let hi := Int.tdiv x 44488
  let lo := Int.tmod x 44488
  let x := 48271 * lo - 3399 * hi
  if x < 0 then x + 2147483647 else x

/-- Type `rngSource`: the two cursors and the 607 words of state. -/
structure rngSource where
  /-- Index `tap`. -/
  tap : Int
  /-- Index `feed`. -/
  feed : Int
  /-- Array `vec`. -/
  vec : List Nat
deriving DecidableEq, Repr

/-- Rounds `i = 0 .. rngLen-1` of the loop of `Seed`: three steps of
`seedrand` and the word `rngCooked[i]` give `vec[i]`; `x` is positive
throughout. -/
def seedVec : Int → List Nat → List Nat
  | _, [] => []
  | x, c :: cooked =>
    let x := seedrand x
    let u := (x.toNat <<< 40) % 2 ^ 64
    let x := seedrand x
    let u := u ^^^ ((x.toNat <<< 20) % 2 ^ 64)
    let x := seedrand x
    let u := u ^^^ x.toNat
    let u := u ^^^ c
    u :: seedVec x cooked

/-- A device for evaluation: `forceInt x k` is `k x` (`forceInt_eq`), written so
that reduction computes the value of `x` before it enters `k`. -/
def forceInt {α : Type} (x : Int) (k : Int → α) : α :=
  match x with
  | Int.ofNat 0 => k 0
  | Int.ofNat (n + 1) => k (Int.ofNat (n + 1))
  | Int.negSucc n => k (Int.negSucc n)

/-- The function `seedVec` with each `x` computed before the next round
(`seedVec_eq_seedVecStrict`); used to evaluate `NewSource` on a concrete seed. -/
def seedVecStrict : Int → List Nat → List Nat
  | _, [] => []
  | x, c :: cooked =>
    forceInt (seedrand x) fun x1 =>
      forceInt (seedrand x1) fun x2 =>
        forceInt (seedrand x2) fun x3 =>
          ((((x1.toNat <<< 40) % 2 ^ 64) ^^^ ((x2.toNat <<< 20) % 2 ^ 64)) ^^^ x3.toNat ^^^ c)
            :: seedVecStrict x3 cooked

/-- Function `NewSource(seed)`, that is method `(*rngSource).Seed(seed)` on a
fresh source; the rounds `i = -20 .. -1` of its loop only step `seedrand`. -/
def NewSource (seed : Int) : rngSource :=
  let seed := Int.tmod seed 2147483647
  let seed := if seed < 0 then seed + 2147483647 else seed
  let seed := if seed = 0 then 89482311 else seed
  let x := Nat.iterate seedrand 20 seed
  ⟨0, 607 - 273, seedVec x rngCooked⟩

/-- Method `(*rngSource).Uint64()`: the output and the new state. -/
def rngSource.Uint64 (rng : rngSource) : Nat × rngSource :=
  let tap := rng.tap - 1
  let tap := if tap < 0 then tap + 607 else tap
  let feed := rng.feed - 1
  let feed := if feed < 0 then feed + 607 else feed
  let x := (rng.vec.getD feed.toNat 0 + rng.vec.getD tap.toNat 0) % 2 ^ 64
  (x, ⟨tap, feed, rng.vec.set feed.toNat x⟩)

namespace Rand

/-- The loop `for v > max` of `Int31n`, whose body is `v = r.Int31()`: at most
`fuel` rounds of it. -/
def retry (max : Int) : Nat → Int → rngSource → Option (Int × rngSource)
  | 0, _, _ => none
  | fuel + 1, v, rng =>
    if v > max then
      let (u, rng) := rng.Uint64
      retry max fuel (Int31 u) rng
    else some (v, rng)

/-- Method `Int31n(n)` up to its last step: the value `v` it reduces and the
new state of the source.  The method returns `v & (n-1)` when `n` is a power
of two and `v % n` otherwise, in both cases the remainder of `v` by `n`. -/
def Int31nValue (fuel : Nat) (rng : rngSource) (n : Nat) : Option (Int × rngSource) :=
  if n &&& (n - 1) = 0 then
    let (u, rng) := rng.Uint64
    some (Int31 u, rng)
  else
    let max : Int := (2 ^ 31 - 1 - 2 ^ 31 % n : Nat)
    let (u, rng) := rng.Uint64
    retry max fuel (Int31 u) rng

/-- The values reduced by the calls `Intn(i+1)`, `Intn(i+2)`, ... that
`Perm` makes, `count` of them. -/
def permValues (fuel : Nat) : Nat → Nat → rngSource → Option (List Nat)
  | 0, _, _ => some []
  | count + 1, i, rng => do
    let (v, rng) ← Int31nValue fuel rng (i + 1)
    let vs ← permValues fuel count (i + 1) rng
    some (v.toNat :: vs)

end Rand

/-- The generator of `math/rand`: the value that the `k`-th call of `Intn` in
`Perm` reduces, on `rand.New(rand.NewSource(seed))`. -/
def goGen : Gen := fun seed k =>
  match Rand.permValues 64 (k + 1) 0 (NewSource seed) with
  | some vs => vs.getD k 0
  | none => 0

/-- The value of `rand.Int31()` right after `rand.Seed(seed)`: the
process-wide source is an `rngSource` seeded like any other. -/
def seededInt31 (seed : Int) : Int := Rand.Int31 (NewSource seed).Uint64.1

/-! ## The permutation drawn by `Perm` -/

theorem set_append_perm (t : List Nat) (j a : Nat) (hj : j < t.length) :
    List.Perm (t.set j a ++ [t.getD j 0]) (t ++ [a]) := by
  induction t generalizing j with
  | nil => simp at hj
  | cons x t ih =>
    cases j with
    | zero =>
      simp only [List.set_cons_zero, List.getD_cons_zero, List.cons_append]
      have h1 : List.Perm (t ++ [x]) (x :: t) := List.perm_append_singleton x t
      have h2 : List.Perm (t ++ [a]) (a :: t) := List.perm_append_singleton a t
      exact ((h1.cons a).trans (List.Perm.swap x a t)).trans (h2.symm.cons x)
    | succ j =>
      simp only [List.set_cons_succ, List.getD_cons_succ, List.cons_append]
      exact (ih j (by simpa using hj)).cons x

theorem permStep_split (t r : List Nat) (x j : Nat) (hj : j ≤ t.length) :
    ∃ t2 : List Nat,
      ((t ++ x :: r).set t.length ((t ++ x :: r).getD j 0)).set j t.length = t2 ++ r ∧
      t2.length = t.length + 1 ∧ List.Perm t2 (t ++ [t.length]) := by
  rcases Nat.eq_or_lt_of_le hj with rfl | hlt
  · refine ⟨t ++ [t.length], ?_, by simp, List.Perm.refl _⟩
    rw [List.set_set, List.set_append_right _ _ (Nat.le_refl _)]
    simp
  · refine ⟨t.set j t.length ++ [t.getD j 0], ?_, by simp, set_append_perm t j _ hlt⟩
    rw [List.set_append_right _ _ (Nat.le_refl _)]
    simp only [Nat.sub_self, List.set_cons_zero]
    rw [List.set_append_left _ _ (by simpa using hlt)]
    simp [List.getElem?_append_left hlt]

theorem perm_fold (draw : Nat → Nat) (k : Nat) (r : List Nat) :
    ∃ t : List Nat,
      (List.range k).foldl
        (fun m i => (m.set i (m.getD (Rand.Intn draw i (i + 1)) 0)).set
          (Rand.Intn draw i (i + 1)) i)
        (List.replicate k 0 ++ r) = t ++ r ∧
      t.length = k ∧ List.Perm t (List.range k) := by
  induction k generalizing r with
  | zero => exact ⟨[], by simp, rfl, List.Perm.refl _⟩
  | succ k ih =>
    obtain ⟨t, h1, h2, h3⟩ := ih (0 :: r)
    have hrep : List.replicate (k + 1) 0 ++ r = List.replicate k 0 ++ 0 :: r := by
      rw [List.replicate_succ']; simp
    have hj : Rand.Intn draw k (k + 1) ≤ t.length := by
      unfold Rand.Intn
      have := Nat.mod_lt (draw k) (Nat.succ_pos k)
      simp only [Nat.succ_eq_add_one] at this
      omega
    obtain ⟨t2, e1, e2, e3⟩ := permStep_split t r 0 _ hj
    refine ⟨t2, ?_, by omega, ?_⟩
    · rw [List.range_succ, List.foldl_append, hrep, h1]
      simp only [List.foldl_cons, List.foldl_nil]
      rw [h2] at e1
      exact e1
    · rw [List.range_succ]
      rw [h2] at e3
      exact e3.trans (h3.append_right _)

/-- The list `Perm(n)` returns is a permutation of `0 .. n-1`. -/
theorem Rand.Perm_perm (draw : Nat → Nat) (n : Nat) :
    List.Perm (Rand.Perm draw n) (List.range n) := by
  obtain ⟨t, h1, _, h3⟩ := perm_fold draw n []
  unfold Rand.Perm
  simp only [List.append_nil] at h1
  rw [h1]
  exact h3

/-! ## Alphabets and reverse maps -/

theorem indexAll_eq (tbl vs : List Nat) (h : ∀ v ∈ vs, v < tbl.length) :
    indexAll tbl vs = some (vs.map (fun v => tbl.getD v 0)) := by
  induction vs with
  | nil => rfl
  | cons v vs ih =>
    have hv : v < tbl.length := h v (List.mem_cons_self _ _)
    have ih2 := ih (fun w hw => h w (List.mem_cons_of_mem _ hw))
    simp [indexAll, ih2, List.getElem?_eq_getElem hv]

theorem stdEncode_map_range :
    (List.range 32).map (fun v => stdEncode.getD v 0) = stdEncode := by decide

theorem fillDecodeMap_spec (cs : List Nat) :
    ∀ (i : Nat) (m : List Nat), cs.Nodup → (∀ c ∈ cs, c ≠ 10 ∧ c ≠ 13 ∧ c < 256) →
      m.length = 256 → (∀ c ∈ cs, m.getD c invalidIndex = invalidIndex) →
      i + cs.length ≤ 255 →
      ∃ m2, fillDecodeMap cs i m = some m2 ∧ m2.length = 256 ∧
        (∀ k, k < cs.length → m2.getD (cs.getD k 0) invalidIndex = i + k) ∧
        (∀ c, c ∉ cs → m2.getD c invalidIndex = m.getD c invalidIndex) := by
  induction cs with
  | nil =>
    intro i m _ _ hm _ _
    exact ⟨m, rfl, hm, by simp, by simp⟩
  | cons c cs ih =>
    intro i m hnd hc hm hfree hi
    have hcc := hc c (List.mem_cons_self _ _)
    have hnd2 := List.nodup_cons.mp hnd
    have hset : ∀ d, d ≠ c → (m.set c i).getD d invalidIndex = m.getD d invalidIndex := by
      intro d hd
      simp [List.getElem?_set, Ne.symm hd]
    obtain ⟨m2, e1, e2, e3, e4⟩ := ih (i + 1) (m.set c i) hnd2.2
      (fun d hd => hc d (List.mem_cons_of_mem _ hd)) (by simpa using hm)
      (fun d hd => by
        rw [hset d (fun h => hnd2.1 (h ▸ hd))]
        exact hfree d (List.mem_cons_of_mem _ hd))
      (by simp at hi; omega)
    refine ⟨m2, ?_, e2, ?_, ?_⟩
    · have h0 := hfree c (List.mem_cons_self _ _)
      simp only [fillDecodeMap]
      rw [if_neg (by omega), if_neg (not_not.mpr h0)]
      exact e1
    · intro k hk
      cases k with
      | zero =>
        simp only [List.getD_cons_zero, Nat.add_zero]
        rw [e4 c hnd2.1]
        have : c < m.length := by omega
        simp [List.getElem?_set, this]
      | succ k =>
        simp only [List.getD_cons_succ]
        rw [e3 k (by simpa using hk)]
        omega
    · intro d hd
      rw [e4 d (fun h => hd (List.mem_cons_of_mem _ h))]
      exact hset d (fun h => hd (h ▸ List.mem_cons_self _ _))

theorem getD_replicate_self (n a c : Nat) : (List.replicate n a).getD c a = a := by
  induction n generalizing c with
  | zero => rfl
  | succ n ih =>
    cases c with
    | zero => rfl
    | succ c => simp [List.replicate_succ]

theorem stdEncode_facts : stdEncode.Nodup ∧ stdEncode.length = 32 ∧
    ∀ c ∈ stdEncode, c ≠ 10 ∧ c ≠ 13 ∧ c ≠ 61 ∧ c < 256 := by decide

/-- An alphabet that is a permutation of `stdEncode` is accepted by
`NewEncoding`, and the encoding is well formed. -/
theorem NewEncoding_valid (a : List Nat) (h : List.Perm a stdEncode) :
    ∃ enc, NewEncoding a = some enc ∧ enc.encode = a ∧ enc.Valid := by
  obtain ⟨hnd, hlen, hmem⟩ := stdEncode_facts
  have hlen2 : a.length = 32 := by rw [h.length_eq, hlen]
  obtain ⟨m2, e1, e2, e3, e4⟩ := fillDecodeMap_spec a 0 (List.replicate 256 invalidIndex)
    (h.nodup_iff.mpr hnd)
    (fun c hc => by
      have := hmem c (h.mem_iff.mp hc)
      exact ⟨this.1, this.2.1, this.2.2.2⟩)
    (List.length_replicate _ _)
    (fun c _ => getD_replicate_self _ _ _)
    (by omega)
  refine ⟨⟨a, m2, StdPadding⟩, ?_, rfl, ?_⟩
  · unfold NewEncoding
    rw [if_neg (not_not.mpr hlen2), e1]
    rfl
  refine ⟨h, rfl, ?_, ?_, e2⟩
  · intro v hv
    have := e3 v (by omega)
    rw [Nat.zero_add] at this
    exact this
  · intro c hc
    rw [e4 c hc]
    exact getD_replicate_self _ _ _

/-- The alphabet `newSeedEncoding` builds, as a pure function of the draws. -/
theorem newSeedEncoding_valid (g : Gen) (seed : Int) :
    ∃ enc, newSeedEncoding g seed = some enc ∧ enc.Valid := by
  have hp := Rand.Perm_perm (g seed) 32
  have hlt : ∀ v ∈ Rand.Perm (g seed) 32, v < stdEncode.length := by
    intro v hv
    have := hp.mem_iff.mp hv
    simpa [stdEncode_facts.2.1] using this
  have hperm : List.Perm ((Rand.Perm (g seed) 32).map (fun v => stdEncode.getD v 0))
      stdEncode := by
    have := hp.map (fun v => stdEncode.getD v 0)
    rwa [stdEncode_map_range] at this
  obtain ⟨enc, e1, _, e3⟩ := NewEncoding_valid _ hperm
  refine ⟨enc, ?_, e3⟩
  have hl : stdEncode.length = 32 := stdEncode_facts.2.1
  simp only [newSeedEncoding, hl]
  rw [indexAll_eq _ _ hlt]
  simpa using e1

theorem stdEncoding_valid : ∃ enc, stdEncoding = some enc ∧ enc.Valid ∧
    enc.encode = stdEncode := by
  obtain ⟨enc, e1, e2, e3⟩ := NewEncoding_valid stdEncode (List.Perm.refl _)
  exact ⟨enc, e1, e3, e2⟩

/-! ## `Encode` of `encoding/base32` -/

theorem foldl_set_range (f : Nat → Nat) (k : Nat) (dst : List Nat) (h : k ≤ dst.length) :
    (List.range k).foldl (fun d i => d.set i (f i)) dst
      = (List.range k).map f ++ dst.drop k := by
  induction k with
  | zero => simp
  | succ k ih =>
    rw [List.range_succ, List.foldl_append, ih (by omega)]
    simp only [List.foldl_cons, List.foldl_nil, List.map_append, List.map_cons, List.map_nil]
    rw [List.set_append_right _ _ (by simp)]
    simp only [List.length_map, List.length_range, Nat.sub_self]
    have hk : k < dst.length := by omega
    have hd : List.drop k dst = dst[k] :: List.drop (k + 1) dst := List.drop_eq_getElem_cons hk
    rw [hd]
    simp only [List.set_cons_zero, List.append_assoc, List.singleton_append]

theorem map_getD_range (f : Nat → Nat) (b : List Nat) :
    (List.range b.length).map (fun i => f (b.getD i 0)) = b.map f := by
  apply List.ext_getElem
  · simp
  · intro n h1 h2
    simp at h1
    simp [List.getElem?_eq_getElem h1]

theorem unpack_length (s : List Nat) : (unpack s).length = 8 := by
  unfold unpack
  split <;> simp [unpack1, unpack2, unpack3, unpack4, unpack5]

theorem writeSymbols_length (enc : Encoding) (dst b : List Nat) :
    (writeSymbols enc dst b).length = dst.length := by
  unfold writeSymbols
  rw [foldl_set_range (fun i => enc.encode.getD (b.getD i 0 &&& 31) 0) _ dst
    (by split <;> omega)]
  simp
  split <;> omega

theorem writeSymbols_eq (enc : Encoding) (dst b : List Nat) (hd : 8 ≤ dst.length)
    (hb : b.length = 8) : writeSymbols enc dst b = b.map enc.sym ++ dst.drop 8 := by
  unfold writeSymbols
  rw [if_pos hd, foldl_set_range (fun i => enc.encode.getD (b.getD i 0 &&& 31) 0) _ dst hd]
  have := map_getD_range enc.sym b
  rw [hb] at this
  rw [← this]
  rfl

theorem short_cases (rest : List Nat)
    (h : ∀ (s1 s2 s3 s4 : Nat) (r : List Nat), rest = s1 :: s2 :: s3 :: s4 :: r → False) :
    rest = [] ∨ (∃ s1, rest = [s1]) ∨ (∃ s1 s2, rest = [s1, s2]) ∨
      (∃ s1 s2 s3, rest = [s1, s2, s3]) := by
  match rest, h with
  | [], _ => exact Or.inl rfl
  | [s1], _ => exact Or.inr (Or.inl ⟨s1, rfl⟩)
  | [s1, s2], _ => exact Or.inr (Or.inr (Or.inl ⟨s1, s2, rfl⟩))
  | [s1, s2, s3], _ => exact Or.inr (Or.inr (Or.inr ⟨s1, s2, s3, rfl⟩))
  | s1 :: s2 :: s3 :: s4 :: r, h => exact (h s1 s2 s3 s4 r rfl).elim

theorem unpack_five (s0 s1 s2 s3 s4 : Nat) (rest : List Nat) :
    unpack (s0 :: s1 :: s2 :: s3 :: s4 :: rest) = unpack [s0, s1, s2, s3, s4] := by
  simp [unpack, unpack1, unpack2, unpack3, unpack4, unpack5]

theorem text_length (enc : Encoding) (src : List Nat) :
    (enc.text src).length = (src.length + 4) / 5 * 8 := by
  induction src using Encoding.text.induct enc with
  | case1 => rfl
  | case2 s0 s1 s2 s3 s4 rest ih =>
    simp only [Encoding.text, List.length_append, List.length_map, unpack_length, ih,
      List.length_cons]
    omega
  | case3 s0 rest hr =>
    rcases short_cases rest hr with rfl | ⟨s1, rfl⟩ | ⟨s1, s2, rfl⟩ | ⟨s1, s2, s3, rfl⟩ <;>
      simp [Encoding.text, symCount, unpack_length]

/-- On a destination with room for the padded text, `Encode` writes the text
at its front and leaves the rest untouched. -/
theorem Encode_eq_text (enc : Encoding) (hpad : enc.padChar = StdPadding) :
    ∀ (dst src : List Nat), (src.length + 4) / 5 * 8 ≤ dst.length →
      enc.Encode dst src = some (enc.text src ++ dst.drop ((src.length + 4) / 5 * 8)) := by
  have hnp : enc.padChar ≠ NoPadding := by rw [hpad]; decide
  intro dst src
  induction dst, src using Encoding.Encode.induct enc with
  | case1 dst => intro _; simp [Encoding.Encode, Encoding.text]
  | case2 dst s0 s1 s2 s3 s4 rest dst1 hlt =>
    intro h
    exfalso
    have : dst1.length = dst.length := writeSymbols_length _ _ _
    simp only [List.length_cons] at h
    omega
  | case3 dst s0 s1 s2 s3 s4 rest dst1 hge ih =>
    intro h
    have hl : dst1.length = dst.length := writeSymbols_length _ _ _
    simp only [List.length_cons] at h
    have h8 : 8 ≤ dst.length := by omega
    have hd1 : dst1 = (unpack [s0, s1, s2, s3, s4]).map enc.sym ++ dst.drop 8 := by
      show writeSymbols enc dst _ = _
      rw [writeSymbols_eq enc dst _ h8 (unpack_length _), unpack_five]
    have hm : ((unpack [s0, s1, s2, s3, s4]).map enc.sym).length = 8 := by
      simp [unpack_length]
    have hdrop : dst1.drop 8 = dst.drop 8 := by
      rw [hd1, List.drop_append_eq_append_drop, hm]; simp [List.drop_of_length_le, hm]
    have htake : dst1.take 8 = (unpack [s0, s1, s2, s3, s4]).map enc.sym := by
      rw [hd1, List.take_append_eq_append_take, hm]; simp [List.take_of_length_le, hm]
    have ih2 := ih (by rw [hdrop, List.length_drop]; omega)
    simp only [Encoding.Encode]
    rw [if_neg hge]
    show Option.map _ (enc.Encode (dst1.drop 8) rest) = _
    rw [ih2, hdrop, htake]
    simp only [Option.map_some', Encoding.text, List.append_assoc, List.drop_drop,
      List.length_cons]
    congr 3
    congr 1
    omega
  | case4 dst s0 rest hr hp => exact absurd hp hnp
  | case5 dst s0 rest hr hp =>
    intro h
    have hpb : enc.padByte = 61 := by simp [Encoding.padByte, hpad, StdPadding]
    rcases short_cases rest hr with rfl | ⟨s1, rfl⟩ | ⟨s1, s2, rfl⟩ | ⟨s1, s2, s3, rfl⟩
    all_goals
      simp only [List.length_cons, List.length_nil] at h
      have h8 : 8 ≤ dst.length := by omega
      simp only [Encoding.Encode]
      rw [if_neg hp, writeSymbols_eq enc dst _ h8 (unpack_length _)]
      simp [unpack, unpack1, unpack2, unpack3, unpack4, unpack5, padQuantum, setIdx,
        Encoding.text, symCount, hpb, List.replicate]

/-! ## Bit arithmetic -/

theorem and31 (x : Nat) : x &&& 31 = x % 32 := Nat.and_pow_two_sub_one_eq_mod x 5

theorem or_hi_lo (k a b : Nat) (ha : a % 2 ^ k = 0) (hb : b < 2 ^ k) : a ||| b = a + b := by
  have h := Nat.mul_add_lt_is_or hb (a / 2 ^ k)
  have e : 2 ^ k * (a / 2 ^ k) = a := by
    have := Nat.div_add_mod a (2 ^ k)
    omega
  rw [e] at h
  exact h.symm

theorem or_lo_hi (k a b : Nat) (ha : a < 2 ^ k) (hb : b % 2 ^ k = 0) : a ||| b = a + b := by
  rw [Nat.lor_comm, or_hi_lo k b a hb ha, Nat.add_comm]

/-! ## `decode` of `encoding/base32` on a padded text -/

theorem setIdx_append (done l : List Nat) (k v : Nat) (h : k < l.length) :
    setIdx (done ++ l) (done.length + k) v = some (done ++ l.set k v) := by
  unfold setIdx
  rw [if_pos (by simp; omega), List.set_append_right _ _ (by omega)]
  simp

theorem pack8_unpack (s0 s1 s2 s3 s4 : Nat) (h0 : s0 < 256) (h1 : s1 < 256) (h2 : s2 < 256)
    (h3 : s3 < 256) (h4 : s4 < 256) (done more : List Nat) (z0 z1 z2 z3 z4 n : Nat) :
    pack8 (done ++ z0 :: z1 :: z2 :: z3 :: z4 :: more)
      ((unpack [s0, s1, s2, s3, s4]).map (fun v => v &&& 31)) done.length n
      = some (done ++ s0 :: s1 :: s2 :: s3 :: s4 :: more, n + 5) := by
  simp only [unpack, unpack1, unpack2, unpack3, unpack4, unpack5, pack8, pack7, pack5, pack4,
    pack2]
  simp [setIdx]
  simp only [shl8, and31, Nat.shiftLeft_eq, Nat.shiftRight_eq_div_pow]
  simp (disch := omega) only [or_hi_lo 2, or_hi_lo 3, or_hi_lo 4, or_hi_lo 5,
    or_hi_lo 6, or_hi_lo 7, or_hi_lo 1,
    or_lo_hi 1, or_lo_hi 2, or_lo_hi 3, or_lo_hi 4, or_lo_hi 5]
  refine ⟨?_, ?_, ?_, ?_, ?_⟩ <;> omega

theorem pack7_unpack (s0 s1 s2 s3 : Nat) (h0 : s0 < 256) (h1 : s1 < 256) (h2 : s2 < 256)
    (h3 : s3 < 256) (done more : List Nat) (z0 z1 z2 z3 n : Nat) :
    pack7 (done ++ z0 :: z1 :: z2 :: z3 :: more)
      (((unpack [s0, s1, s2, s3]).take 7).map (fun v => v &&& 31) ++ [0]) done.length n
      = some (done ++ s0 :: s1 :: s2 :: s3 :: more, n + 4) := by
  simp only [unpack, unpack1, unpack2, unpack3, unpack4, unpack5, pack8, pack7, pack5, pack4,
    pack2]
  simp [setIdx]
  simp only [shl8, and31, Nat.shiftLeft_eq, Nat.shiftRight_eq_div_pow]
  simp (disch := omega) only [or_hi_lo 2, or_hi_lo 3, or_hi_lo 4, or_hi_lo 5,
    or_hi_lo 6, or_hi_lo 7, or_hi_lo 1,
    or_lo_hi 1, or_lo_hi 2, or_lo_hi 3, or_lo_hi 4, or_lo_hi 5]
  refine ⟨?_, ?_, ?_, ?_⟩ <;> omega

theorem pack5_unpack (s0 s1 s2 : Nat) (h0 : s0 < 256) (h1 : s1 < 256) (h2 : s2 < 256)
    (done more : List Nat) (z0 z1 z2 n : Nat) :
    pack5 (done ++ z0 :: z1 :: z2 :: more)
      (((unpack [s0, s1, s2]).take 5).map (fun v => v &&& 31) ++ [0, 0, 0]) done.length n
      = some (done ++ s0 :: s1 :: s2 :: more, n + 3) := by
  simp only [unpack, unpack1, unpack2, unpack3, unpack4, unpack5, pack8, pack7, pack5, pack4,
    pack2]
  simp [setIdx]
  simp only [shl8, and31, Nat.shiftLeft_eq, Nat.shiftRight_eq_div_pow]
  simp (disch := omega) only [or_hi_lo 2, or_hi_lo 3, or_hi_lo 4, or_hi_lo 5,
    or_hi_lo 6, or_hi_lo 7, or_hi_lo 1,
    or_lo_hi 1, or_lo_hi 2, or_lo_hi 3, or_lo_hi 4, or_lo_hi 5]
  refine ⟨?_, ?_, ?_⟩ <;> omega

theorem pack4_unpack (s0 s1 : Nat) (h0 : s0 < 256) (h1 : s1 < 256)
    (done more : List Nat) (z0 z1 n : Nat) :
    pack4 (done ++ z0 :: z1 :: more)
      (((unpack [s0, s1]).take 4).map (fun v => v &&& 31) ++ [0, 0, 0, 0]) done.length n
      = some (done ++ s0 :: s1 :: more, n + 2) := by
  simp only [unpack, unpack1, unpack2, unpack3, unpack4, unpack5, pack8, pack7, pack5, pack4,
    pack2]
  simp [setIdx]
  simp only [shl8, and31, Nat.shiftLeft_eq, Nat.shiftRight_eq_div_pow]
  simp (disch := omega) only [or_hi_lo 2, or_hi_lo 3, or_hi_lo 4, or_hi_lo 5,
    or_hi_lo 6, or_hi_lo 7, or_hi_lo 1,
    or_lo_hi 1, or_lo_hi 2, or_lo_hi 3, or_lo_hi 4, or_lo_hi 5]
  refine ⟨?_, ?_⟩ <;> omega

theorem pack2_unpack (s0 : Nat) (h0 : s0 < 256)
    (done more : List Nat) (z0 n : Nat) :
    pack2 (done ++ z0 :: more)
      (((unpack [s0]).take 2).map (fun v => v &&& 31) ++ [0, 0, 0, 0, 0, 0]) done.length n
      = some (done ++ s0 :: more, n + 1) := by
  simp only [unpack, unpack1, unpack2, unpack3, unpack4, unpack5, pack8, pack7, pack5, pack4,
    pack2]
  simp [setIdx]
  simp only [shl8, and31, Nat.shiftLeft_eq, Nat.shiftRight_eq_div_pow]
  simp (disch := omega) only [or_hi_lo 2, or_hi_lo 3, or_hi_lo 4, or_hi_lo 5,
    or_hi_lo 6, or_hi_lo 7, or_hi_lo 1,
    or_lo_hi 1, or_lo_hi 2, or_lo_hi 3, or_lo_hi 4, or_lo_hi 5]
  omega

theorem Encoding.Valid.padByte {enc : Encoding} (hv : enc.Valid) : enc.padByte = 61 := by
  simp [Encoding.padByte, hv.pad, StdPadding]

theorem Encoding.Valid.noPad {enc : Encoding} (hv : enc.Valid) : enc.padChar ≠ NoPadding := by
  rw [hv.pad]; decide

theorem Encoding.Valid.length {enc : Encoding} (hv : enc.Valid) : enc.encode.length = 32 := by
  rw [hv.perm.length_eq]; rfl

theorem Encoding.Valid.sym_mem {enc : Encoding} (hv : enc.Valid) (v : Nat) :
    enc.sym v ∈ enc.encode := by
  unfold Encoding.sym
  have h : v &&& 31 < enc.encode.length := by
    rw [hv.length, and31]; omega
  rw [List.getD_eq_getElem _ _ h]
  exact List.getElem_mem _

theorem Encoding.Valid.sym_std {enc : Encoding} (hv : enc.Valid) (v : Nat) :
    enc.sym v ∈ stdEncode := hv.perm.mem_iff.mp (hv.sym_mem v)

theorem Encoding.Valid.sym_ne {enc : Encoding} (hv : enc.Valid) (v : Nat) :
    enc.sym v ≠ 61 ∧ enc.sym v ≠ 10 ∧ enc.sym v ≠ 13 := by
  have := stdEncode_facts.2.2 _ (hv.sym_std v)
  exact ⟨this.2.2.1, this.1, this.2.1⟩

theorem Encoding.Valid.sym_dec {enc : Encoding} (hv : enc.Valid) (v : Nat) :
    enc.decodeMap.getD (enc.sym v) invalidIndex = v &&& 31 := by
  unfold Encoding.sym
  exact hv.dec _ (by rw [and31]; omega)

theorem readQuantum_eight (enc : Encoding) (olen : Nat) (tail dbuf : List Nat) :
    readQuantum enc olen 8 tail dbuf = Quantum.read dbuf 8 false tail := by
  cases tail <;> simp [readQuantum]

theorem readQuantum_syms (enc : Encoding) (hv : enc.Valid) (olen : Nat) :
    ∀ (vs pre tail : List Nat), pre.length + vs.length ≤ 8 →
      readQuantum enc olen pre.length (vs.map enc.sym ++ tail)
          (pre ++ List.replicate (8 - pre.length) 0)
        = readQuantum enc olen (pre.length + vs.length) tail
          (pre ++ vs.map (fun v => v &&& 31)
            ++ List.replicate (8 - pre.length - vs.length) 0) := by
  intro vs
  induction vs with
  | nil => intro pre tail _; simp
  | cons v vs ih =>
    intro pre tail h
    simp only [List.length_cons] at h
    have hlt : pre.length < 8 := by omega
    have hne := (hv.sym_ne v).1
    have hd := hv.sym_dec v
    have h255 : v &&& 31 ≠ 255 := by rw [and31]; omega
    simp only [List.map_cons, List.cons_append, readQuantum]
    rw [if_pos hlt, if_neg (by rw [hv.padByte]; exact fun h => hne h.1), hd]
    simp only [h255, if_false]
    have hrep : List.replicate (8 - pre.length) 0 = 0 :: List.replicate (8 - pre.length - 1) 0 := by
      have : 8 - pre.length = (8 - pre.length - 1) + 1 := by omega
      rw [this, List.replicate_succ]
      simp
    rw [hrep, List.set_append_right _ _ (Nat.le_refl _)]
    simp only [Nat.sub_self, List.set_cons_zero]
    have := ih (pre ++ [v &&& 31]) tail (by simp; omega)
    simp only [List.length_append, List.length_singleton, List.append_assoc,
      List.singleton_append] at this
    have e3 : pre.length + 1 + vs.length = pre.length + (v :: vs).length := by
      simp only [List.length_cons]; omega
    have e2 : 8 - pre.length - 1 - vs.length = 8 - pre.length - (v :: vs).length := by
      simp only [List.length_cons]; omega
    have e1 : 8 - (pre.length + 1) = 8 - pre.length - 1 := by omega
    rw [e3, e1, e2] at this
    simpa using this

theorem readQuantum_pad (enc : Encoding) (hv : enc.Valid) (olen j : Nat) (dbuf : List Nat)
    (hj : j = 2 ∨ j = 4 ∨ j = 5 ∨ j = 7) :
    readQuantum enc olen j (List.replicate (8 - j) 61) dbuf
      = Quantum.read dbuf j true (List.replicate (7 - j) 61) := by
  have hpb := hv.padByte
  have hnp := hv.noPad
  rcases hj with rfl | rfl | rfl | rfl <;>
    simp [readQuantum, hpb, badPadding, List.replicate, List.range, List.range.loop]

theorem readQuantum_full (enc : Encoding) (hv : enc.Valid) (olen : Nat)
    (vs tail : List Nat) (h : vs.length = 8) :
    readQuantum enc olen 0 (vs.map enc.sym ++ tail) (List.replicate 8 0)
      = Quantum.read (vs.map (fun v => v &&& 31)) 8 false tail := by
  have := readQuantum_syms enc hv olen vs [] tail (by simp [h])
  simp only [List.length_nil, List.nil_append, Nat.sub_zero, Nat.zero_add, h, Nat.sub_self,
    List.replicate_zero, List.append_nil] at this
  rw [this, readQuantum_eight]

theorem readQuantum_last (enc : Encoding) (hv : enc.Valid) (olen : Nat)
    (vs : List Nat) (hj : vs.length = 2 ∨ vs.length = 4 ∨ vs.length = 5 ∨ vs.length = 7) :
    readQuantum enc olen 0 (vs.map enc.sym ++ List.replicate (8 - vs.length) 61)
        (List.replicate 8 0)
      = Quantum.read (vs.map (fun v => v &&& 31) ++ List.replicate (8 - vs.length) 0)
          vs.length true (List.replicate (7 - vs.length) 61) := by
  have := readQuantum_syms enc hv olen vs [] (List.replicate (8 - vs.length) 61) (by simp; omega)
  simp only [List.length_nil, List.nil_append, Nat.sub_zero, Nat.zero_add] at this
  rw [this, readQuantum_pad enc hv olen _ _ hj]

theorem decodeLoop_done (enc : Encoding) (olen fuel : Nat) (dst : List Nat) (dsti n : Nat)
    (src : List Nat) : decodeLoop enc olen fuel dst dsti n true src
      = some ⟨dst, n, true, none⟩ := by
  cases fuel <;> simp [decodeLoop]

theorem decodeLoop_nil (enc : Encoding) (olen fuel : Nat) (dst : List Nat) (dsti n : Nat)
    (fin : Bool) : decodeLoop enc olen fuel dst dsti n fin [] = some ⟨dst, n, fin, none⟩ := by
  cases fuel <;> simp [decodeLoop]

theorem replicate_five (q : Nat) :
    List.replicate (5 * (q + 1)) 0 = 0 :: 0 :: 0 :: 0 :: 0 :: List.replicate (5 * q) 0 := by
  have : 5 * (q + 1) = 5 * q + 1 + 1 + 1 + 1 + 1 := by omega
  rw [this]
  simp [List.replicate_succ]

/-- The loop of `decode` on the padded text of `src` writes `src` back. -/
theorem decodeLoop_text (enc : Encoding) (hv : enc.Valid) (olen : Nat) :
    ∀ (src : List Nat), (∀ b ∈ src, b < 256) → ∀ (fuel : Nat) (done : List Nat) (n0 : Nat),
      (src.length + 4) / 5 ≤ fuel →
      ∃ fin, decodeLoop enc olen fuel (done ++ List.replicate (5 * ((src.length + 4) / 5)) 0)
          done.length n0 false (enc.text src)
        = some ⟨done ++ src ++ List.replicate (5 * ((src.length + 4) / 5) - src.length) 0,
            n0 + src.length, fin, none⟩ := by
  intro src
  induction src using Encoding.text.induct enc with
  | case1 =>
    intro _ fuel done n0 _
    exact ⟨false, by simp [Encoding.text, decodeLoop_nil]⟩
  | case2 s0 s1 s2 s3 s4 rest ih =>
    intro hb fuel done n0 hf
    simp only [List.length_cons] at hf ⊢
    have hq : (rest.length + 1 + 1 + 1 + 1 + 1 + 4) / 5 = (rest.length + 4) / 5 + 1 := by omega
    rw [hq] at hf ⊢
    obtain ⟨f, rfl⟩ : ∃ f, fuel = f + 1 := ⟨fuel - 1, by omega⟩
    have h0 : s0 < 256 := hb s0 (by simp)
    have h1 : s1 < 256 := hb s1 (by simp)
    have h2 : s2 < 256 := hb s2 (by simp)
    have h3 : s3 < 256 := hb s3 (by simp)
    have h4 : s4 < 256 := hb s4 (by simp)
    obtain ⟨fin, hih⟩ := ih (fun b hb2 => hb b (by simp [hb2])) f
      (done ++ [s0, s1, s2, s3, s4]) (n0 + 5) (by omega)
    refine ⟨fin, ?_⟩
    have hlen : 0 < ((unpack [s0, s1, s2, s3, s4]).map enc.sym ++ enc.text rest).length := by
      simp [unpack_length]
    simp only [Encoding.text, decodeLoop]
    rw [if_pos (by simpa using hlen), readQuantum_full enc hv olen _ _ (unpack_length _)]
    simp only [pack]
    rw [replicate_five, pack8_unpack s0 s1 s2 s3 s4 h0 h1 h2 h3 h4]
    simp only
    simp only [List.length_append, List.length_cons, List.length_nil, List.append_assoc,
      List.cons_append, List.nil_append, Nat.zero_add] at hih
    rw [hih]
    have e : 5 * ((rest.length + 4) / 5 + 1) - (rest.length + 1 + 1 + 1 + 1 + 1)
        = 5 * ((rest.length + 4) / 5) - rest.length := by omega
    rw [e]
    simp only [List.append_assoc, List.cons_append, List.nil_append]
    have e2 : n0 + 5 + rest.length = n0 + (rest.length + 1 + 1 + 1 + 1 + 1) := by omega
    rw [e2]
  | case3 s0 rest hr =>
    intro hb fuel done n0 hf
    obtain ⟨f, rfl⟩ : ∃ f, fuel = f + 1 := ⟨fuel - 1, by simp at hf; omega⟩
    refine ⟨true, ?_⟩
    rcases short_cases rest hr with rfl | ⟨s1, rfl⟩ | ⟨s1, s2, rfl⟩ | ⟨s1, s2, s3, rfl⟩
    · have h0 : s0 < 256 := hb s0 (by simp)
      have hl : ((unpack [s0]).take 2).length = 2 := by simp [unpack_length]
      have hq := readQuantum_last enc hv olen ((unpack [s0]).take 2) (Or.inl hl)
      rw [hl] at hq
      have e5 : 5 * (([s0].length + 4) / 5) = 5 := by simp
      simp only [Encoding.text, decodeLoop, symCount, List.length_nil, List.length_cons,
        hv.padByte, e5]
      rw [if_pos (by simp), hq]
      simp only [pack]
      have := pack2_unpack s0 h0 done (List.replicate 4 0) 0 n0
      simp only [List.replicate] at this ⊢
      rw [this]
      simp [decodeLoop_done]
    · have h0 : s0 < 256 := hb s0 (by simp)
      have h1 : s1 < 256 := hb s1 (by simp)
      have hl : ((unpack [s0, s1]).take 4).length = 4 := by simp [unpack_length]
      have hq := readQuantum_last enc hv olen ((unpack [s0, s1]).take 4) (Or.inr (Or.inl hl))
      rw [hl] at hq
      have e5 : 5 * (([s0, s1].length + 4) / 5) = 5 := by simp
      simp only [Encoding.text, decodeLoop, symCount, List.length_nil, List.length_cons,
        hv.padByte, e5]
      rw [if_pos (by simp), hq]
      simp only [pack]
      have := pack4_unpack s0 s1 h0 h1 done (List.replicate 3 0) 0 0 n0
      simp only [List.replicate] at this ⊢
      rw [this]
      simp [decodeLoop_done]
    · have h0 : s0 < 256 := hb s0 (by simp)
      have h1 : s1 < 256 := hb s1 (by simp)
      have h2 : s2 < 256 := hb s2 (by simp)
      have hl : ((unpack [s0, s1, s2]).take 5).length = 5 := by simp [unpack_length]
      have hq := readQuantum_last enc hv olen ((unpack [s0, s1, s2]).take 5) (Or.inr (Or.inr (Or.inl hl)))
      rw [hl] at hq
      have e5 : 5 * (([s0, s1, s2].length + 4) / 5) = 5 := by simp
      simp only [Encoding.text, decodeLoop, symCount, List.length_nil, List.length_cons,
        hv.padByte, e5]
      rw [if_pos (by simp), hq]
      simp only [pack]
      have := pack5_unpack s0 s1 s2 h0 h1 h2 done (List.replicate 2 0) 0 0 0 n0
      simp only [List.replicate] at this ⊢
      rw [this]
      simp [decodeLoop_done]
    · have h0 : s0 < 256 := hb s0 (by simp)
      have h1 : s1 < 256 := hb s1 (by simp)
      have h2 : s2 < 256 := hb s2 (by simp)
      have h3 : s3 < 256 := hb s3 (by simp)
      have hl : ((unpack [s0, s1, s2, s3]).take 7).length = 7 := by simp [unpack_length]
      have hq := readQuantum_last enc hv olen ((unpack [s0, s1, s2, s3]).take 7) (Or.inr (Or.inr (Or.inr hl)))
      rw [hl] at hq
      have e5 : 5 * (([s0, s1, s2, s3].length + 4) / 5) = 5 := by simp
      simp only [Encoding.text, decodeLoop, symCount, List.length_nil, List.length_cons,
        hv.padByte, e5]
      rw [if_pos (by simp), hq]
      simp only [pack]
      have := pack7_unpack s0 s1 s2 s3 h0 h1 h2 h3 done (List.replicate 1 0) 0 0 0 0 n0
      simp only [List.replicate] at this ⊢
      rw [this]
      simp [decodeLoop_done]

/-! ## Shape of the padded text -/

theorem text_body (enc : Encoding) (hv : enc.Valid) (src : List Nat) :
    ∃ body, enc.text src = body ++ List.replicate ((src.length + 4) / 5 * 8 - symCount src.length) 61
      ∧ body.length = symCount src.length ∧ ∀ c ∈ body, c ∈ enc.encode := by
  induction src using Encoding.text.induct enc with
  | case1 => exact ⟨[], by simp [Encoding.text, symCount], rfl, by simp⟩
  | case2 s0 s1 s2 s3 s4 rest ih =>
    obtain ⟨body, e1, e2, e3⟩ := ih
    have hq : (rest.length + 1 + 1 + 1 + 1 + 1 + 4) / 5 = (rest.length + 4) / 5 + 1 := by omega
    have hs : symCount (rest.length + 1 + 1 + 1 + 1 + 1) = symCount rest.length + 8 := by
      unfold symCount; omega
    refine ⟨(unpack [s0, s1, s2, s3, s4]).map enc.sym ++ body, ?_, ?_, ?_⟩
    · simp only [Encoding.text, e1, List.append_assoc, List.length_cons, hq, hs]
      congr 3
      omega
    · simp only [List.length_append, List.length_map, unpack_length, e2, List.length_cons, hs]
      omega
    · intro c hc
      rcases List.mem_append.mp hc with h | h
      · obtain ⟨v, _, rfl⟩ := List.mem_map.mp h
        exact hv.sym_mem v
      · exact e3 c h
  | case3 s0 rest hr =>
    refine ⟨((unpack (s0 :: rest)).take (symCount (rest.length + 1))).map enc.sym, ?_, ?_, ?_⟩
    · rcases short_cases rest hr with rfl | ⟨s1, rfl⟩ | ⟨s1, s2, rfl⟩ | ⟨s1, s2, s3, rfl⟩ <;>
        simp [Encoding.text, symCount, hv.padByte]
    · rcases short_cases rest hr with rfl | ⟨s1, rfl⟩ | ⟨s1, s2, rfl⟩ | ⟨s1, s2, s3, rfl⟩ <;>
        simp [symCount, unpack_length]
    · intro c hc
      obtain ⟨v, _, rfl⟩ := List.mem_map.mp hc
      exact hv.sym_mem v

theorem Encoding.Valid.mem_std {enc : Encoding} (hv : enc.Valid) {c : Nat}
    (h : c ∈ enc.encode) : c ≠ 10 ∧ c ≠ 13 ∧ c ≠ 61 ∧ c < 256 :=
  stdEncode_facts.2.2 c (hv.perm.mem_iff.mp h)

theorem stripNewlines_eq (l : List Nat) (h : ∀ c ∈ l, c ≠ 10 ∧ c ≠ 13) :
    stripNewlines l = l := by
  unfold stripNewlines
  rw [List.filter_eq_self]
  intro c hc
  have := h c hc
  simp [this.1, this.2]

theorem text_no_newline (enc : Encoding) (hv : enc.Valid) (src : List Nat) :
    ∀ c ∈ enc.text src, c ≠ 10 ∧ c ≠ 13 := by
  obtain ⟨body, e1, _, e3⟩ := text_body enc hv src
  intro c hc
  rw [e1] at hc
  rcases List.mem_append.mp hc with h | h
  · have := hv.mem_std (e3 c h)
    exact ⟨this.1, this.2.1⟩
  · have := (List.mem_replicate.mp h).2
    omega

/-- The library `Decode` inverts the padded text. -/
theorem Decode_text (enc : Encoding) (hv : enc.Valid) (src : List Nat)
    (hb : ∀ b ∈ src, b < 256) :
    ∃ fin, enc.Decode (List.replicate (5 * ((src.length + 4) / 5)) 0) (enc.text src)
      = some ⟨src ++ List.replicate (5 * ((src.length + 4) / 5) - src.length) 0,
          src.length, fin, none⟩ := by
  unfold Encoding.Decode Encoding.decode
  rw [stripNewlines_eq _ (text_no_newline enc hv src)]
  obtain ⟨fin, h⟩ := decodeLoop_text enc hv (enc.text src).length src hb (enc.text src).length
    [] 0 (by rw [text_length]; omega)
  exact ⟨fin, by simpa using h⟩

theorem TrimRight_pad (l : List Nat) (p : Nat) :
    TrimRight (l ++ List.replicate p 61) = TrimRight l := by
  induction p with
  | zero => simp
  | succ p ih =>
    rw [List.replicate_succ', ← List.append_assoc]
    unfold TrimRight at ih ⊢
    rw [List.rdropWhile_concat_pos _ _ _ (by simp), ih]

theorem TrimRight_self (l : List Nat) (h : ∀ c ∈ l, c ≠ 61) : TrimRight l = l := by
  unfold TrimRight
  rw [List.rdropWhile_eq_self_iff]
  intro hne
  have := h _ (List.getLast_mem hne)
  simpa using this

theorem repad_body (body : List Nat) (n : Nat) (h : body.length = symCount n) :
    repad body = body ++ List.replicate ((n + 4) / 5 * 8 - symCount n) 61 := by
  unfold repad
  simp only [h]
  unfold symCount
  split
  · congr 2
    omega
  · have : (n + 4) / 5 * 8 - (n * 8 + 4) / 5 = 0 := by omega
    rw [this]
    simp

/-! ## `Encode` and `Decode` of the package -/

theorem PutUint32_eq (v : Nat) : PutUint32 (List.replicate 4 0) v = some (bigEndian32 v) := by
  simp [PutUint32, setIdx, bigEndian32, List.replicate]

theorem bigEndian32_lt (v : Nat) : ∀ b ∈ bigEndian32 v, b < 256 := by
  intro b hb
  simp only [bigEndian32, List.mem_cons, List.mem_singleton, List.not_mem_nil, or_false] at hb
  rcases hb with rfl | rfl | rfl | rfl <;> exact Nat.mod_lt _ (by decide)

theorem Uint32_bigEndian32 (v : Nat) (h : v < 4294967296) :
    Uint32 (bigEndian32 v) = some v := by
  simp only [Uint32, bigEndian32, shl32]
  simp only [List.length_cons, List.length_nil, List.getD_cons_succ, List.getD_cons_zero,
    Nat.shiftLeft_eq, Nat.shiftRight_eq_div_pow]
  rw [if_neg (by decide)]
  simp (disch := omega) only [or_lo_hi 8, or_lo_hi 16, or_lo_hi 24]
  congr 1
  omega

theorem toUint32_lt (seed : Int) : toUint32 seed < 4294967296 := by
  unfold toUint32
  omega

theorem toUint32_cast (seed : Int) (h0 : 0 ≤ seed) (h1 : seed < 4294967296) :
    ((toUint32 seed : Nat) : Int) = seed := by
  unfold toUint32
  omega

theorem text_four (enc : Encoding) (hv : enc.Valid) (b0 b1 b2 b3 : Nat) :
    enc.text [b0, b1, b2, b3] = ((unpack [b0, b1, b2, b3]).take 7).map enc.sym ++ [61] := by
  simp [Encoding.text, symCount, hv.padByte]

theorem EncodedLen_eq (enc : Encoding) (hv : enc.Valid) (n : Nat) :
    enc.EncodedLen n = (n + 4) / 5 * 8 := by
  unfold Encoding.EncodedLen
  rw [if_neg hv.noPad]

theorem DecodedLen_eq (enc : Encoding) (hv : enc.Valid) (n : Nat) :
    enc.DecodedLen n = n / 8 * 5 := by
  unfold Encoding.DecodedLen
  rw [if_neg hv.noPad]

/-- The seed block: seven symbols of the alphabet and one `=`. -/
theorem seed_block (std : Encoding) (hvs : std.Valid) (v : Nat) :
    ∃ sbody, std.text (bigEndian32 v) = sbody ++ [61] ∧ sbody.length = 7 ∧
      ∀ c ∈ sbody, c ∈ std.encode := by
  obtain ⟨sbody, e1, e2, e3⟩ := text_body std hvs (bigEndian32 v)
  have h1 : ((bigEndian32 v).length + 4) / 5 * 8 - symCount (bigEndian32 v).length = 1 := by
    simp [bigEndian32, symCount]
  have h2 : symCount (bigEndian32 v).length = 7 := by simp [bigEndian32, symCount]
  rw [h1] at e1
  rw [h2] at e2
  exact ⟨sbody, e1, e2, e3⟩

/-- For a non-empty input `Encode` returns the first seven symbols of the
seed block followed by the unpadded text of the payload. -/
theorem Encode_eq (g : Gen) (seed : Int) (src : List Nat) (hne : src ≠ [])
    (enc std : Encoding) (henc : newSeedEncoding g seed = some enc) (hv : enc.Valid)
    (hstd : stdEncoding = some std) (hvs : std.Valid) :
    ∃ body, Encode g seed src
        = some ((std.text (bigEndian32 (toUint32 seed))).take 7 ++ body) ∧
      enc.text src = body ++ List.replicate ((src.length + 4) / 5 * 8 - symCount src.length) 61 ∧
      body.length = symCount src.length ∧ ∀ c ∈ body, c ∈ enc.encode := by
  obtain ⟨body, e1, e2, e3⟩ := text_body enc hv src
  refine ⟨body, ?_, e1, e2, e3⟩
  have hpos : 0 < src.length := List.length_pos.mpr hne
  have hq : 1 ≤ (src.length + 4) / 5 := by omega
  obtain ⟨sbody, s1, s2, s3⟩ := seed_block std hvs (toUint32 seed)
  have hB4 : ((bigEndian32 (toUint32 seed)).length + 4) / 5 * 8 = 8 := by simp [bigEndian32]
  have hstdE := Encode_eq_text std hvs.pad
    (List.replicate ((src.length + 4) / 5 * 8 + 8 - 1) 0) (bigEndian32 (toUint32 seed))
    (by rw [hB4, List.length_replicate]; omega)
  have hsub : (src.length + 4) / 5 * 8 + 8 - 1 - 8 = (src.length + 4) / 5 * 8 - 1 := by omega
  rw [hB4, s1, List.drop_replicate, hsub, List.append_assoc] at hstdE
  have hencE := Encode_eq_text enc hv.pad
    ([61] ++ List.replicate ((src.length + 4) / 5 * 8 - 1) 0) src (by simp; omega)
  have hdrop2 : List.drop ((src.length + 4) / 5 * 8)
      ([61] ++ List.replicate ((src.length + 4) / 5 * 8 - 1) 0) = [] := by
    apply List.drop_of_length_le; simp; omega
  rw [hdrop2, List.append_nil] at hencE
  have hlen7 : 8 - 1 ≤ (sbody ++ ([61] ++ List.replicate ((src.length + 4) / 5 * 8 - 1) 0)).length := by
    simp; omega
  have hall : ∀ c ∈ sbody ++ body, c ≠ 61 := by
    intro c hc
    rcases List.mem_append.mp hc with h | h
    · exact (hvs.mem_std (s3 c h)).2.2.1
    · exact (hv.mem_std (e3 c h)).2.2.1
  simp only [Encode, henc, hstd, Option.bind_eq_bind, Option.some_bind, PutUint32_eq,
    EncodedLen_eq enc hv, hstdE, sliceFrom]
  rw [if_pos hlen7]
  simp only [Option.some_bind]
  rw [show (8 : Nat) - 1 = 7 from rfl, List.drop_left' s2, List.take_left' s2, hencE]
  simp only [Option.some_bind]
  rw [s1, List.take_left' s2, e1, ← List.append_assoc, TrimRight_pad, TrimRight_self _ hall]

/-- The seed step of `Decode` on a text that starts with the seven symbols of
the seed block of `v` recovers `v`. -/
theorem decodeSeed_block (std : Encoding) (hstd : stdEncoding = some std) (hvs : std.Valid)
    (v : Nat) (hv : v < 4294967296) (sbody rest : List Nat)
    (s1 : std.text (bigEndian32 v) = sbody ++ [61]) (s2 : sbody.length = 7) :
    decodeSeed (sbody ++ rest) = some (Except.ok v) := by
  obtain ⟨fin, hd⟩ := Decode_text std hvs (bigEndian32 v) (bigEndian32_lt v)
  have h5 : 5 * (((bigEndian32 v).length + 4) / 5) = 5 := by simp [bigEndian32]
  have h4 : (bigEndian32 v).length = 4 := rfl
  rw [h5, h4, s1] at hd
  have hcopy : copy (List.replicate 8 0) (List.take 7 (sbody ++ rest)) = sbody ++ [0] := by
    rw [List.take_left' s2]
    unfold copy
    rw [List.length_replicate, List.take_of_length_le (by omega), s2]
    rfl
  have hset : setIdx (sbody ++ [0]) 7 61 = some (sbody ++ [61]) := by
    unfold setIdx
    rw [if_pos (by simp; omega), List.set_append_right _ _ (by omega), s2]
    rfl
  simp only [decodeSeed, hstd, Option.bind_eq_bind, Option.some_bind, hcopy, hset, hd, sliceTo]
  rw [if_pos (by simp [bigEndian32])]
  simp only [Option.some_bind]
  rw [List.take_left' h4, Uint32_bigEndian32 v hv]
  rfl

/-- The payload step of `Decode` on the unpadded text of `src` returns `src`. -/
theorem decodePayload_body (g : Gen) (v : Nat) (enc : Encoding)
    (henc : newSeedEncoding g (v : Int) = some enc) (hv : enc.Valid)
    (src : List Nat) (hb : ∀ b ∈ src, b < 256) (sbody body : List Nat) (s2 : sbody.length = 7)
    (e1 : enc.text src = body ++ List.replicate ((src.length + 4) / 5 * 8 - symCount src.length) 61)
    (e2 : body.length = symCount src.length) :
    decodePayload g v (sbody ++ body) = some (Except.ok src) := by
  obtain ⟨fin, hd⟩ := Decode_text enc hv src hb
  have hrep : repad body = enc.text src := by rw [repad_body body src.length e2, e1]
  have hlen : (enc.text src).length / 8 * 5 = 5 * ((src.length + 4) / 5) := by
    rw [text_length]; omega
  simp only [decodePayload, henc, Option.bind_eq_bind, Option.some_bind, sliceFrom]
  rw [if_pos (by simp; omega)]
  simp only [Option.some_bind]
  rw [List.drop_left' s2, hrep, DecodedLen_eq enc hv, hlen, hd]
  simp only [Option.some_bind, sliceTo]
  rw [if_pos (by simp), List.take_left' rfl]
  rfl

/-! ## The three ways through `Decode` -/

theorem Decode_of_seed (g : Gen) (src : List Nat) (v : Nat) (hlen : 7 ≤ src.length)
    (hs : decodeSeed src = some (Except.ok v)) : Decode g src = decodePayload g v src := by
  unfold Decode
  have h7 : ¬ src.length < 7 := by omega
  rw [if_neg h7]
  simp only [hs, Option.bind_eq_bind, Option.some_bind]

theorem Decode_of_seed_error (g : Gen) (src : List Nat) (e : Error) (hlen : 7 ≤ src.length)
    (hs : decodeSeed src = some (Except.error e)) : Decode g src = some (Except.error e) := by
  unfold Decode
  have h7 : ¬ src.length < 7 := by omega
  rw [if_neg h7]
  simp only [hs, Option.bind_eq_bind, Option.some_bind]

theorem Decode_of_seed_panic (g : Gen) (src : List Nat) (hlen : 7 ≤ src.length)
    (hs : decodeSeed src = none) : Decode g src = none := by
  unfold Decode
  have h7 : ¬ src.length < 7 := by omega
  rw [if_neg h7]
  simp only [hs, Option.bind_eq_bind, Option.none_bind]

theorem Decode_short (g : Gen) (src : List Nat) (hlen : src.length < 7) :
    Decode g src = some (Except.error Error.invalidInputSize) := by
  unfold Decode
  rw [if_pos hlen]

/-! ## Evaluation at concrete inputs -/

theorem ascii_eval : ascii "ab=====" = [97, 98, 61, 61, 61, 61, 61] ∧
    ascii "abcd===" = [97, 98, 99, 100, 61, 61, 61] ∧
    ascii "pd6c76q" = [112, 100, 54, 99, 55, 54, 113] ∧
    ascii "abcdefghijklmnopqrstuvwxyz234567" = stdEncode := by decide

theorem seed_text_eval : stdEncoding.map (fun e => e.text (bigEndian32 2029793274))
    = some [112, 100, 54, 99, 55, 54, 113, 61] := by decide

/-- With an empty input the seed block no longer fits the destination: the
write of its eighth symbol is out of range. -/
theorem Encode_nil (g : Gen) (seed : Int) : Encode g seed [] = none := by
  obtain ⟨enc, henc, hv⟩ := newSeedEncoding_valid g seed
  obtain ⟨std, hstd, hvs, _⟩ := stdEncoding_valid
  simp only [Encode, henc, hstd, Option.bind_eq_bind, Option.some_bind, PutUint32_eq,
    EncodedLen_eq enc hv, List.length_nil, bigEndian32, Encoding.Encode]
  rw [if_neg hvs.noPad]
  simp [padQuantum, setIdx, writeSymbols_length]

/-! ## The claims -/

/-- C1. Round trip: for every non-empty byte sequence `b` and every seed the
encoder can draw (`0 ≤ seed < 2^31`), `Encode` returns a text, and `Decode`
applied to that text returns exactly `b` and no error. -/
theorem C1_round_trip (g : Gen) (seed : Int) (b : List Nat) (hne : b ≠ [])
    (hb : ∀ x ∈ b, x < 256) (h0 : 0 ≤ seed) (h1 : seed < 2147483648) :
    ∃ text, Encode g seed b = some text ∧ Decode g text = some (Except.ok b) := by
  obtain ⟨enc, henc, hv⟩ := newSeedEncoding_valid g seed
  obtain ⟨std, hstd, hvs, _⟩ := stdEncoding_valid
  obtain ⟨body, hE, e1, e2, _⟩ := Encode_eq g seed b hne enc std henc hv hstd hvs
  obtain ⟨sbody, s1, s2, _⟩ := seed_block std hvs (toUint32 seed)
  rw [s1, List.take_left' s2] at hE
  refine ⟨sbody ++ body, hE, ?_⟩
  have hcast := toUint32_cast seed h0 (by omega)
  have hseed := decodeSeed_block std hstd hvs (toUint32 seed) (toUint32_lt seed) sbody body s1 s2
  have hpay := decodePayload_body g (toUint32 seed) enc (by rw [hcast]; exact henc) hv b hb
    sbody body s2 e1 e2
  rw [Decode_of_seed g _ _ (by rw [List.length_append, s2]; omega) hseed]
  exact hpay

/-- Witness of C1 at the seed `0x78FC2FFA` and the two bytes of "hi". -/
theorem C1_round_trip_witness :
    Encode sampleGen 2029793274 [104, 105]
        = some [112, 100, 54, 99, 55, 54, 113, 103, 98, 52, 119] ∧
      ∃ text, Encode sampleGen 2029793274 [104, 105] = some text ∧
        Decode sampleGen text = some (Except.ok [104, 105]) :=
  ⟨by decide, C1_round_trip sampleGen 2029793274 [104, 105] (by decide) (by decide)
    (by decide) (by decide)⟩

/-- C2, evaluated on the code: for the empty input `Encode` does not return.
The destination has `EncodedLen(0) + 7 = 7` symbols and the write of the
eighth symbol of the seed block (`dst[7]`) panics, for every seed. -/
theorem C2_encode_empty_panics (g : Gen) (seed : Int) :
    (∃ enc, newSeedEncoding g seed = some enc ∧ enc.EncodedLen 0 + 8 - 1 = 7) ∧
      (∃ std, stdEncoding = some std ∧
        std.Encode (List.replicate 7 0) (bigEndian32 (toUint32 seed)) = none) ∧
      Encode g seed [] = none := by
  obtain ⟨enc, henc, hv⟩ := newSeedEncoding_valid g seed
  obtain ⟨std, hstd, hvs, _⟩ := stdEncoding_valid
  refine ⟨⟨enc, henc, by rw [EncodedLen_eq enc hv]⟩, ⟨std, hstd, ?_⟩, Encode_nil g seed⟩
  simp only [bigEndian32, Encoding.Encode]
  rw [if_neg hvs.noPad]
  simp [padQuantum, setIdx, writeSymbols_length]

/-- C7. Alphabet validity: for every generator and seed, every draw `j` of
step `i` satisfies `j ≤ i`, `Perm` returns a permutation of `0 .. 31`, and
`newSeedEncoding` builds an alphabet that is a permutation of the Base
Alphabet: exactly 32 symbols, every Base Alphabet symbol exactly once, no
repetition, and never the padding symbol `=`. -/
theorem C7_alphabet_is_permutation (g : Gen) (seed : Int) :
    (∀ i, Rand.Intn (g seed) i (i + 1) ≤ i) ∧
      List.Perm (Rand.Perm (g seed) 32) (List.range 32) ∧
      ∃ enc, newSeedEncoding g seed = some enc ∧ List.Perm enc.encode stdEncode ∧
        enc.encode.length = 32 ∧ (∀ c ∈ stdEncode, enc.encode.count c = 1) ∧
        enc.encode.Nodup ∧ (∀ c ∈ enc.encode, c ∈ stdEncode) ∧ 61 ∉ enc.encode := by
  obtain ⟨enc, henc, hv⟩ := newSeedEncoding_valid g seed
  refine ⟨?_, Rand.Perm_perm (g seed) 32, enc, henc, hv.perm, hv.length, ?_, ?_, ?_, ?_⟩
  · intro i
    unfold Rand.Intn
    have := Nat.mod_lt (g seed i) (Nat.succ_pos i)
    simp only [Nat.succ_eq_add_one] at this
    omega
  · intro c hc
    rw [hv.perm.count_eq]
    exact List.count_eq_one_of_mem stdEncode_facts.1 hc
  · exact hv.perm.nodup_iff.mpr stdEncode_facts.1
  · intro c hc
    exact hv.perm.mem_iff.mp hc
  · intro h
    exact (hv.mem_std h).2.2.1 rfl

/-- C8. Output character set: every symbol of a text `Encode` returns is one
of the 32 symbols of `stdEncode` (a-z, 2-7), so none is the padding symbol
`=`; and for every non-empty input and every seed `Encode` returns a text. -/
theorem C8_output_charset (g : Gen) (seed : Int) (src : List Nat) :
    (∀ out, Encode g seed src = some out → ∀ c ∈ out, c ∈ stdEncode ∧ c ≠ 61) ∧
      (src ≠ [] → ∃ out, Encode g seed src = some out) := by
  obtain ⟨enc, henc, hv⟩ := newSeedEncoding_valid g seed
  obtain ⟨std, hstd, hvs, _⟩ := stdEncoding_valid
  by_cases hne : src = []
  · subst hne
    refine ⟨?_, fun h => absurd rfl h⟩
    intro out h
    rw [Encode_nil] at h
    cases h
  · obtain ⟨body, hE, _, _, e3⟩ := Encode_eq g seed src hne enc std henc hv hstd hvs
    obtain ⟨sbody, s1, s2, s3⟩ := seed_block std hvs (toUint32 seed)
    rw [s1, List.take_left' s2] at hE
    refine ⟨?_, fun _ => ⟨_, hE⟩⟩
    intro out h c hc
    rw [hE] at h
    cases h
    rcases List.mem_append.mp hc with h | h
    · exact ⟨hvs.perm.mem_iff.mp (s3 c h), (hvs.mem_std (s3 c h)).2.2.1⟩
    · exact ⟨hv.perm.mem_iff.mp (e3 c h), (hv.mem_std (e3 c h)).2.2.1⟩

/-- C10. Output length: for every non-empty input of `n` bytes and every
seed, `Encode` returns a text of exactly `7 + ceil(8n/5)` symbols. -/
theorem C10_output_length (g : Gen) (seed : Int) (src : List Nat) (hne : src ≠ []) :
    ∃ out, Encode g seed src = some out ∧ out.length = 7 + (8 * src.length + 4) / 5 := by
  obtain ⟨enc, henc, hv⟩ := newSeedEncoding_valid g seed
  obtain ⟨std, hstd, hvs, _⟩ := stdEncoding_valid
  obtain ⟨body, hE, _, e2, _⟩ := Encode_eq g seed src hne enc std henc hv hstd hvs
  obtain ⟨sbody, s1, s2, _⟩ := seed_block std hvs (toUint32 seed)
  rw [s1, List.take_left' s2] at hE
  refine ⟨_, hE, ?_⟩
  rw [List.length_append, s2, e2]
  unfold symCount
  omega

/-- Witness of C10: 4 bytes give 14 symbols and 16 bytes give 33. -/
theorem C10_output_length_witness :
    (∃ out, Encode sampleGen 2029793274 [254, 123, 231, 213] = some out ∧
        out.length = 7 + (8 * [254, 123, 231, 213].length + 4) / 5) ∧
      7 + (8 * 4 + 4) / 5 = 14 ∧ 7 + (8 * 16 + 4) / 5 = 33 ∧
      (Encode sampleGen 2029793274 [254, 123, 231, 213]).map List.length = some 14 ∧
      (Encode sampleGen 1 (List.replicate 16 7)).map List.length = some 33 :=
  ⟨C10_output_length sampleGen 2029793274 [254, 123, 231, 213] (by decide),
    by decide, by decide, by decide, by decide⟩

/-- C9. Seed framing and recovery: for every seed `0 ≤ s < 2^31` and every
non-empty payload, the first 7 symbols of the text `Encode` returns are the
first 7 symbols of the block that the Base Alphabet encoding writes for the
four big-endian bytes of `s` (a block that does not depend on the payload and
ends with `=`); the seed step of `Decode` recovers exactly `s`, so `Decode`
derives the alphabet `Encode` used.  For `s = 0x78FC2FFA` the seven symbols
are "pd6c76q". -/
theorem C9_seed_framing (g : Gen) (s : Int) (src : List Nat) (hne : src ≠ [])
    (h0 : 0 ≤ s) (h1 : s < 2147483648) :
    ∃ std block out, stdEncoding = some std ∧
      std.Encode (List.replicate 8 0) (bigEndian32 (toUint32 s)) = some block ∧
      block = block.take 7 ++ [61] ∧
      Encode g s src = some out ∧ out.take 7 = block.take 7 ∧
      decodeSeed out = some (Except.ok s.toNat) ∧
      newSeedEncoding g ((s.toNat : Nat) : Int) = newSeedEncoding g s ∧
      (s = 2029793274 → out.take 7 = ascii "pd6c76q") := by
  obtain ⟨enc, henc, hv⟩ := newSeedEncoding_valid g s
  obtain ⟨std, hstd, hvs, _⟩ := stdEncoding_valid
  obtain ⟨body, hE, e1, e2, _⟩ := Encode_eq g s src hne enc std henc hv hstd hvs
  obtain ⟨sbody, s1, s2, _⟩ := seed_block std hvs (toUint32 s)
  have hcast := toUint32_cast s h0 (by omega)
  have hnat : s.toNat = toUint32 s := by omega
  have hblock := Encode_eq_text std hvs.pad (List.replicate 8 0) (bigEndian32 (toUint32 s))
    (by simp [bigEndian32])
  have hd : List.drop (((bigEndian32 (toUint32 s)).length + 4) / 5 * 8) (List.replicate 8 0)
      = [] := by simp [bigEndian32]
  rw [hd, List.append_nil, s1] at hblock
  rw [s1, List.take_left' s2] at hE
  refine ⟨std, sbody ++ [61], sbody ++ body, hstd, hblock, ?_, hE, ?_, ?_, ?_, ?_⟩
  · rw [List.take_left' s2]
  · rw [List.take_left' s2, List.take_left' s2]
  · rw [hnat]
    exact decodeSeed_block std hstd hvs (toUint32 s) (toUint32_lt s) sbody body s1 s2
  · rw [hnat, hcast]
  · intro hs
    subst hs
    have hev := seed_text_eval
    rw [hstd] at hev
    simp only [Option.map_some', Option.some.injEq] at hev
    have h2 : toUint32 2029793274 = 2029793274 := by decide
    rw [h2, hev] at s1
    have h3 : sbody = [112, 100, 54, 99, 55, 54, 113] := by
      have := congrArg (List.take 7) s1
      rw [List.take_left' s2] at this
      rw [← this]
      rfl
    rw [List.take_left' s2, h3, ascii_eval.2.2.1]

/-- Witness of C9 at the seed `0x78FC2FFA` and a one-byte payload. -/
theorem C9_seed_framing_witness :
    ∃ std block out, stdEncoding = some std ∧
      std.Encode (List.replicate 8 0) (bigEndian32 (toUint32 2029793274)) = some block ∧
      block = block.take 7 ++ [61] ∧
      Encode sampleGen 2029793274 [0] = some out ∧ out.take 7 = block.take 7 ∧
      decodeSeed out = some (Except.ok (2029793274 : Int).toNat) ∧
      newSeedEncoding sampleGen (((2029793274 : Int).toNat : Nat) : Int)
        = newSeedEncoding sampleGen 2029793274 ∧
      ((2029793274 : Int) = 2029793274 → out.take 7 = ascii "pd6c76q") :=
  C9_seed_framing sampleGen 2029793274 [0] (by decide) (by decide) (by decide)

/-! ## `decode` on arbitrary input: no panic, and what a result without error tells -/

theorem setIdx_some (dst : List Nat) (i v : Nat) (h : i < dst.length) :
    setIdx dst i v = some (dst.set i v) := by
  unfold setIdx
  rw [if_pos h]

theorem pack2_some (dst dbuf : List Nat) (dsti n : Nat) (h : dsti + 5 ≤ dst.length) :
    ∃ dst2, pack2 dst dbuf dsti n = some (dst2, n + 1) ∧ dst2.length = dst.length := by
  unfold pack2
  rw [setIdx_some _ _ _ (by omega)]
  exact ⟨_, rfl, List.length_set _ _ _⟩

theorem pack4_some (dst dbuf : List Nat) (dsti n : Nat) (h : dsti + 5 ≤ dst.length) :
    ∃ dst2, pack4 dst dbuf dsti n = some (dst2, n + 2) ∧ dst2.length = dst.length := by
  unfold pack4
  rw [setIdx_some _ _ _ (by omega)]
  obtain ⟨d, e1, e2⟩ := pack2_some (dst.set (dsti + 1)
    (shl8 (dbuf.getD 1 0) 6 ||| shl8 (dbuf.getD 2 0) 1 ||| dbuf.getD 3 0 >>> 4)) dbuf dsti (n + 1)
    (by rw [List.length_set]; exact h)
  exact ⟨d, e1, by rw [e2, List.length_set]⟩

theorem pack5_some (dst dbuf : List Nat) (dsti n : Nat) (h : dsti + 5 ≤ dst.length) :
    ∃ dst2, pack5 dst dbuf dsti n = some (dst2, n + 3) ∧ dst2.length = dst.length := by
  unfold pack5
  rw [setIdx_some _ _ _ (by omega)]
  obtain ⟨d, e1, e2⟩ := pack4_some (dst.set (dsti + 2)
    (shl8 (dbuf.getD 3 0) 4 ||| dbuf.getD 4 0 >>> 1)) dbuf dsti (n + 1)
    (by rw [List.length_set]; exact h)
  exact ⟨d, e1, by rw [e2, List.length_set]⟩

theorem pack7_some (dst dbuf : List Nat) (dsti n : Nat) (h : dsti + 5 ≤ dst.length) :
    ∃ dst2, pack7 dst dbuf dsti n = some (dst2, n + 4) ∧ dst2.length = dst.length := by
  unfold pack7
  rw [setIdx_some _ _ _ (by omega)]
  obtain ⟨d, e1, e2⟩ := pack5_some (dst.set (dsti + 3)
    (shl8 (dbuf.getD 4 0) 7 ||| shl8 (dbuf.getD 5 0) 2 ||| dbuf.getD 6 0 >>> 3)) dbuf dsti (n + 1)
    (by rw [List.length_set]; exact h)
  exact ⟨d, e1, by rw [e2, List.length_set]⟩

theorem pack8_some (dst dbuf : List Nat) (dsti n : Nat) (h : dsti + 5 ≤ dst.length) :
    ∃ dst2, pack8 dst dbuf dsti n = some (dst2, n + 5) ∧ dst2.length = dst.length := by
  unfold pack8
  rw [setIdx_some _ _ _ (by omega)]
  obtain ⟨d, e1, e2⟩ := pack7_some (dst.set (dsti + 4)
    (shl8 (dbuf.getD 6 0) 5 ||| dbuf.getD 7 0)) dbuf dsti (n + 1)
    (by rw [List.length_set]; exact h)
  exact ⟨d, e1, by rw [e2, List.length_set]⟩

/-- With five free places at `dsti` the `switch dlen` writes in range; it
keeps the length of `dst` and counts the bytes of the quantum. -/
theorem pack_some (dst dbuf : List Nat) (dsti dlen n : Nat) (h : dsti + 5 ≤ dst.length) :
    ∃ dst2 n2, pack dst dbuf dsti dlen n = some (dst2, n2) ∧ dst2.length = dst.length ∧
      n2 ≤ n + 5 ∧ (dlen = 7 → n2 = n + 4) ∧ (dlen = 8 → n2 = n + 5) := by
  unfold pack
  split
  · obtain ⟨d, e1, e2⟩ := pack8_some dst dbuf dsti n h
    exact ⟨d, _, e1, e2, by omega, by omega, by omega⟩
  · obtain ⟨d, e1, e2⟩ := pack7_some dst dbuf dsti n h
    exact ⟨d, _, e1, e2, by omega, by omega, by omega⟩
  · obtain ⟨d, e1, e2⟩ := pack5_some dst dbuf dsti n h
    exact ⟨d, _, e1, e2, by omega, by omega, by omega⟩
  · obtain ⟨d, e1, e2⟩ := pack4_some dst dbuf dsti n h
    exact ⟨d, _, e1, e2, by omega, by omega, by omega⟩
  · obtain ⟨d, e1, e2⟩ := pack2_some dst dbuf dsti n h
    exact ⟨d, _, e1, e2, by omega, by omega, by omega⟩
  · rename_i h8 h7 _ _ _
    exact ⟨dst, n, rfl, rfl, by omega, fun e => absurd e (by simpa using h7),
      fun e => absurd e (by simpa using h8)⟩

theorem badPadding_none (pad : Nat) (src : List Nat) (j : Nat)
    (h : badPadding pad src j = none) : ∀ c ∈ src.take (7 - j), c = pad := by
  unfold badPadding at h
  rw [List.find?_eq_none] at h
  intro c hc
  obtain ⟨k, hk, rfl⟩ := List.mem_iff_getElem.mp hc
  rw [List.length_take] at hk
  have hk1 : k < 8 - 1 - j := by omega
  have hk2 : k < src.length := by omega
  have := h k (List.mem_range.mpr hk1)
  rw [List.getElem_take]
  simpa [hk2, List.getD_eq_getElem _ _ hk2] using this

/-- What a quantum read without error has consumed: valid symbols only, and
either eight of them, or 2, 4, 5 or 7 of them and then padding to the end. -/
theorem readQuantum_read (enc : Encoding) (hnp : enc.padChar ≠ NoPadding) (olen : Nat) :
    ∀ (src : List Nat) (j : Nat) (dbuf d : List Nat) (l : Nat) (fin : Bool) (rest : List Nat),
      j ≤ 8 → readQuantum enc olen j src dbuf = Quantum.read d l fin rest →
      ∃ syms, (∀ c ∈ syms, enc.decodeMap.getD c invalidIndex ≠ 255) ∧ l = j + syms.length ∧
        ((fin = false ∧ src = syms ++ rest ∧ l = 8) ∨
          (fin = true ∧ src = syms ++ enc.padByte :: rest ∧
            (l = 2 ∨ l = 4 ∨ l = 5 ∨ l = 7) ∧ rest.length < 8 ∧ 7 ≤ rest.length + l ∧
            ∀ c ∈ rest.take (7 - l), c = enc.padByte)) := by
  intro src
  induction src with
  | nil =>
    intro j dbuf d l fin rest hj h
    simp only [readQuantum] at h
    split at h
    · cases h
    · cases h
      exact ⟨[], by simp, by simp; omega, Or.inl ⟨rfl, rfl, rfl⟩⟩
  | cons c src ih =>
    intro j dbuf d l fin rest hj h
    simp only [readQuantum] at h
    split at h
    · rename_i hj8
      split at h
      · rename_i hpad
        split at h
        · cases h
        · rename_i hlen
          split at h
          · cases h
          · rename_i hbad
            split at h
            · cases h
            · rename_i hj136
              cases h
              refine ⟨[], by simp, by simp, Or.inr ⟨rfl, by simp [hpad.1], by omega, hpad.2.2,
                by omega, badPadding_none _ _ _ hbad⟩⟩
      · split at h
        · cases h
        · rename_i hv
          obtain ⟨syms, a1, a2, a3⟩ := ih (j + 1) _ d l fin rest (by omega) h
          refine ⟨c :: syms, ?_, by simp; omega, ?_⟩
          · intro x hx
            rcases List.mem_cons.mp hx with rfl | hx
            · exact hv
            · exact a1 x hx
          · rcases a3 with ⟨b1, b2, b3⟩ | ⟨b1, b2, b3⟩
            · exact Or.inl ⟨b1, by rw [b2]; rfl, b3⟩
            · exact Or.inr ⟨b1, by rw [b2]; rfl, b3⟩
    · cases h
      exact ⟨[], by simp, by simp; omega, Or.inl ⟨rfl, rfl, rfl⟩⟩

theorem readQuantum_shorter (enc : Encoding) (hnp : enc.padChar ≠ NoPadding) (olen : Nat)
    (src dbuf d : List Nat) (l : Nat) (fin : Bool) (rest : List Nat)
    (h : readQuantum enc olen 0 src dbuf = Quantum.read d l fin rest) :
    8 ≤ src.length ∧ rest.length + 8 ≤ src.length + rest.length % 8 ∧
      rest.length < src.length ∧ (fin = false → rest.length + 8 = src.length) := by
  obtain ⟨syms, _, a2, a3⟩ := readQuantum_read enc hnp olen src 0 dbuf d l fin rest
    (by omega) h
  rcases a3 with ⟨b1, b2, b3⟩ | ⟨b1, b2, b3, b4, b5, _⟩
  · have := congrArg List.length b2
    rw [List.length_append] at this
    refine ⟨by omega, by omega, by omega, fun _ => by omega⟩
  · have := congrArg List.length b2
    rw [List.length_append, List.length_cons] at this
    have hm : rest.length % 8 = rest.length := Nat.mod_eq_of_lt b4
    refine ⟨by omega, by omega, by omega, fun e => ?_⟩
    rw [b1] at e
    cases e

/-- The loop of `decode` never writes out of range when the destination has
five places for every eight symbols of the input. -/
theorem decodeLoop_some (enc : Encoding) (hnp : enc.padChar ≠ NoPadding) (olen : Nat) :
    ∀ (fuel : Nat) (dst : List Nat) (dsti n : Nat) (fin : Bool) (src : List Nat),
      n ≤ dsti → dsti + 5 * (src.length / 8) ≤ dst.length →
      ∃ r, decodeLoop enc olen fuel dst dsti n fin src = some r ∧
        r.dst.length = dst.length ∧ r.n ≤ dst.length := by
  intro fuel
  induction fuel with
  | zero =>
    intro dst dsti n fin src h1 h2
    exact ⟨_, rfl, rfl, by simp only; omega⟩
  | succ fuel ih =>
    intro dst dsti n fin src h1 h2
    simp only [decodeLoop]
    split
    · cases hq : readQuantum enc olen 0 src (List.replicate 8 0) with
      | corrupt e => exact ⟨_, rfl, rfl, by simp only; omega⟩
      | read d l fin2 rest =>
        obtain ⟨q1, q2, _, _⟩ := readQuantum_shorter enc hnp olen src _ d l fin2 rest hq
        obtain ⟨dst2, n2, p1, p2, p3, _⟩ := pack_some dst d dsti l n (by omega)
        simp only [p1]
        obtain ⟨r, r1, r2, r3⟩ := ih dst2 (dsti + 5) n2 fin2 rest (by omega)
          (by rw [p2]; omega)
        exact ⟨r, r1, by rw [r2, p2], by rw [← p2]; exact r3⟩
    · exact ⟨_, rfl, rfl, by simp only; omega⟩

/-- The fuel of `decodeLoop` is enough: any two amounts of at least
`len(src)` give the same result. -/
theorem decodeLoop_fuel (enc : Encoding) (hnp : enc.padChar ≠ NoPadding) (olen : Nat) :
    ∀ (f1 f2 : Nat) (dst : List Nat) (dsti n : Nat) (fin : Bool) (src : List Nat),
      src.length ≤ f1 → src.length ≤ f2 →
      decodeLoop enc olen f1 dst dsti n fin src = decodeLoop enc olen f2 dst dsti n fin src := by
  intro f1
  induction f1 with
  | zero =>
    intro f2 dst dsti n fin src h1 _
    have : src = [] := List.length_eq_zero.mp (by omega)
    subst this
    rw [decodeLoop_nil, decodeLoop_nil]
  | succ f1 ih =>
    intro f2 dst dsti n fin src h1 h2
    cases f2 with
    | zero =>
      have : src = [] := List.length_eq_zero.mp (by omega)
      subst this
      rw [decodeLoop_nil, decodeLoop_nil]
    | succ f2 =>
      simp only [decodeLoop]
      split
      · cases hq : readQuantum enc olen 0 src (List.replicate 8 0) with
        | corrupt e => rfl
        | read d l fin2 rest =>
          obtain ⟨_, _, q3, _⟩ := readQuantum_shorter enc hnp olen src _ d l fin2 rest hq
          simp only
          cases pack dst d dsti l n with
          | none => rfl
          | some p => exact ih f2 p.1 (dsti + 5) p.2 fin2 rest (by omega) (by omega)
      · rfl

/-- When the loop of `decode` ends without error on an input whose length is a
multiple of 8, every symbol of the input is the padding or in the alphabet. -/
theorem decodeLoop_valid (enc : Encoding) (hnp : enc.padChar ≠ NoPadding) (olen : Nat) :
    ∀ (fuel : Nat) (dst : List Nat) (dsti n : Nat) (src : List Nat) (r : Decoded),
      src.length ≤ fuel → src.length % 8 = 0 →
      decodeLoop enc olen fuel dst dsti n false src = some r → r.err = none →
      ∀ c ∈ src, c = enc.padByte ∨ enc.decodeMap.getD c invalidIndex ≠ 255 := by
  intro fuel
  induction fuel with
  | zero =>
    intro dst dsti n src r h1 _ _ _ c hc
    have : src = [] := List.length_eq_zero.mp (by omega)
    subst this
    cases hc
  | succ fuel ih =>
    intro dst dsti n src r h1 h8 hr he c hc
    simp only [decodeLoop] at hr
    split at hr
    · cases hq : readQuantum enc olen 0 src (List.replicate 8 0) with
      | corrupt e =>
        rw [hq] at hr
        simp only [Option.some.injEq] at hr
        subst hr
        cases he
      | read d l fin2 rest =>
        rw [hq] at hr
        simp only at hr
        obtain ⟨syms, a1, a2, a3⟩ := readQuantum_read enc hnp olen src 0 _ d l fin2 rest
          (by omega) hq
        rcases a3 with ⟨b1, b2, b3⟩ | ⟨b1, b2, b3, b4, b5, b6⟩
        · subst b1
          have hl := congrArg List.length b2
          rw [List.length_append] at hl
          rw [b2] at hc
          rcases List.mem_append.mp hc with h | h
          · exact Or.inr (a1 c h)
          · cases hp : pack dst d dsti l n with
            | none => rw [hp] at hr; cases hr
            | some p =>
              rw [hp] at hr
              exact ih p.1 (dsti + 5) p.2 rest r (by omega) (by omega) hr he c h
        · have hl := congrArg List.length b2
          rw [List.length_append, List.length_cons] at hl
          have hrl : rest.length = 7 - l := by omega
          rw [← hrl, List.take_length] at b6
          rw [b2] at hc
          rcases List.mem_append.mp hc with h | h
          · exact Or.inr (a1 c h)
          · rcases List.mem_cons.mp h with h | h
            · exact Or.inl h
            · exact Or.inl (b6 c h)
    · rename_i hcond
      have : src = [] := by
        by_contra hne
        exact hcond ⟨List.length_pos.mpr hne, trivial⟩
      subst this
      cases hc

theorem stripNewlines_length (src : List Nat) : (stripNewlines src).length ≤ src.length := by
  unfold stripNewlines
  exact List.length_filter_le _ _

/-- The library `Decode` does not panic on a destination of `DecodedLen`
bytes, whatever the input. -/
theorem Decode_some (enc : Encoding) (hnp : enc.padChar ≠ NoPadding) (dst src : List Nat)
    (h : src.length / 8 * 5 ≤ dst.length) :
    ∃ r, enc.Decode dst src = some r ∧ r.dst.length = dst.length ∧ r.n ≤ dst.length := by
  unfold Encoding.Decode Encoding.decode
  have := stripNewlines_length src
  have h2 : (stripNewlines src).length / 8 ≤ src.length / 8 := Nat.div_le_div_right this
  exact decodeLoop_some enc hnp _ _ dst 0 0 false _ (Nat.le_refl _) (by omega)

theorem Encoding.Valid.sym_of_mem {enc : Encoding} (hv : enc.Valid) {c : Nat}
    (h : c ∈ enc.encode) : ∃ v, c = enc.sym v := by
  obtain ⟨i, hi, rfl⟩ := List.mem_iff_getElem.mp h
  refine ⟨i, ?_⟩
  unfold Encoding.sym
  have h32 : i < 32 := by rw [← hv.length]; exact hi
  have : i &&& 31 = i := by rw [and31]; omega
  rw [this, List.getD_eq_getElem _ _ hi]

theorem Encoding.Valid.syms_of_mem {enc : Encoding} (hv : enc.Valid) (l : List Nat)
    (h : ∀ c ∈ l, c ∈ enc.encode) : ∃ vs : List Nat, l = vs.map enc.sym := by
  induction l with
  | nil => exact ⟨[], rfl⟩
  | cons c l ih =>
    obtain ⟨v, hv1⟩ := hv.sym_of_mem (h c (List.mem_cons_self _ _))
    obtain ⟨vs, hvs⟩ := ih (fun x hx => h x (List.mem_cons_of_mem _ hx))
    exact ⟨v :: vs, by rw [hv1, hvs]; rfl⟩

theorem decodeLoop_read (enc : Encoding) (olen fuel : Nat) (dst : List Nat) (dsti n : Nat)
    (src d : List Nat) (l : Nat) (fin2 : Bool) (rest dst2 : List Nat) (n2 : Nat)
    (h0 : 0 < src.length)
    (hq : readQuantum enc olen 0 src (List.replicate 8 0) = Quantum.read d l fin2 rest)
    (hp : pack dst d dsti l n = some (dst2, n2)) :
    decodeLoop enc olen (fuel + 1) dst dsti n false src
      = decodeLoop enc olen fuel dst2 (dsti + 5) n2 fin2 rest := by
  rw [decodeLoop, if_pos ⟨h0, rfl⟩, hq]
  simp only [hp]

/-- Seven Base Alphabet symbols always decode to a seed. -/
theorem decodeSeed_valid (src : List Nat) (hlen : 7 ≤ src.length)
    (h : ∀ c ∈ src.take 7, c ∈ stdEncode) : ∃ v, decodeSeed src = some (Except.ok v) := by
  obtain ⟨std, hstd, hvs, henc⟩ := stdEncoding_valid
  obtain ⟨vs, hvs7⟩ := hvs.syms_of_mem (src.take 7) (fun c hc => by rw [henc]; exact h c hc)
  have hl7 : (src.take 7).length = 7 := by rw [List.length_take]; omega
  have hvl : vs.length = 7 := by
    have := congrArg List.length hvs7
    rw [hl7, List.length_map] at this
    omega
  have hcopy : copy (List.replicate 8 0) (List.take 7 src) = src.take 7 ++ [0] := by
    unfold copy
    rw [List.length_replicate, List.take_of_length_le (by omega), hl7]
    rfl
  have hset : setIdx (src.take 7 ++ [0]) 7 61 = some (src.take 7 ++ [61]) := by
    unfold setIdx
    rw [if_pos (by simp; omega), List.set_append_right _ _ (by omega), hl7]
    rfl
  have hnl : ∀ c ∈ src.take 7 ++ [61], c ≠ 10 ∧ c ≠ 13 := by
    intro c hc
    rcases List.mem_append.mp hc with hc | hc
    · have := stdEncode_facts.2.2 c (h c hc)
      exact ⟨this.1, this.2.1⟩
    · simp at hc
      omega
  have hq := readQuantum_last std hvs (src.take 7 ++ [61]).length vs (Or.inr (Or.inr (Or.inr hvl)))
  rw [hvl, ← hvs7] at hq
  obtain ⟨d, p1, p2⟩ := pack7_some (List.replicate 5 0)
    (vs.map (fun v => v &&& 31) ++ List.replicate (8 - 7) 0) 0 0 (by simp)
  have hdec : std.Decode (List.replicate 5 0) (src.take 7 ++ [61])
      = some ⟨d, 4, true, none⟩ := by
    unfold Encoding.Decode Encoding.decode
    rw [stripNewlines_eq _ hnl]
    have hlen8 : (src.take 7 ++ [61]).length = 7 + 1 := by
      rw [List.length_append, hl7]; rfl
    rw [hlen8] at hq ⊢
    have hrep : List.replicate (8 - 7) 61 = [61] := rfl
    rw [hrep] at hq
    have hp : pack (List.replicate 5 0) (vs.map (fun v => v &&& 31) ++ List.replicate (8 - 7) 0)
        0 7 0 = some (d, 0 + 4) := p1
    rw [decodeLoop_read std _ 7 _ 0 0 _ _ 7 true _ d (0 + 4)
      (by rw [List.length_append, hl7]; decide) hq hp, decodeLoop_done]
  simp only [decodeSeed, hstd, Option.bind_eq_bind, Option.some_bind, hcopy, hset, hdec,
    sliceTo]
  rw [if_pos (by rw [p2]; simp)]
  simp only [Option.some_bind, Uint32]
  rw [if_neg (by rw [List.length_take, p2]; simp)]
  exact ⟨_, rfl⟩

theorem decodeSeed_error_kind (src : List Nat) (e : Error)
    (h : decodeSeed src = some (Except.error e)) : ∃ k, e = Error.seedDecode k := by
  unfold decodeSeed at h
  simp only [Option.bind_eq_bind, Option.bind_eq_some] at h
  obtain ⟨std, _, seedEnc, _, r, _, h⟩ := h
  split at h
  · rename_i k _
    simp only [Option.some.injEq, Except.error.injEq] at h
    exact ⟨k, h.symm⟩
  · simp only [Option.bind_eq_some] at h
    obtain ⟨_, _, _, _, h⟩ := h
    cases h

theorem decodePayload_error_kind (g : Gen) (v : Nat) (src : List Nat) (e : Error)
    (h : decodePayload g v src = some (Except.error e)) : ∃ k, e = Error.payloadDecode k := by
  unfold decodePayload at h
  simp only [Option.bind_eq_bind, Option.bind_eq_some] at h
  obtain ⟨enc, _, p, _, r, _, h⟩ := h
  split at h
  · rename_i k _
    simp only [Option.some.injEq, Except.error.injEq] at h
    exact ⟨k, h.symm⟩
  · simp only [Option.map_eq_some'] at h
    obtain ⟨_, _, h⟩ := h
    cases h

theorem repad_length (p : List Nat) : (repad p).length % 8 = 0 := by
  unfold repad
  simp only
  split
  · rw [List.length_append, List.length_replicate]
    omega
  · omega

theorem repad_mem (p : List Nat) : ∀ c ∈ p, c ∈ repad p := by
  intro c hc
  unfold repad
  simp only
  split
  · exact List.mem_append_left _ hc
  · exact hc

theorem repad_no_newline (p : List Nat) (h : ∀ c ∈ p, c ≠ 10 ∧ c ≠ 13) :
    ∀ c ∈ repad p, c ≠ 10 ∧ c ≠ 13 := by
  intro c hc
  unfold repad at hc
  simp only at hc
  split at hc
  · rcases List.mem_append.mp hc with hc | hc
    · exact h c hc
    · have := (List.mem_replicate.mp hc).2
      omega
  · exact h c hc

theorem message_ne (k : Nat) :
    (Error.seedDecode k).message ≠ "invalid input size" ∧
      (Error.payloadDecode k).message ≠ "invalid input size" := by
  constructor
  · intro h
    have := congrArg (fun s => s.data.head?) h
    simp [Error.message, String.data_append] at this
  · intro h
    have := congrArg (fun s => s.data.head?) h
    simp [Error.message, String.data_append] at this

/-- C3, evaluated on the code: the input "ab=====" has seven symbols of which
five are not Base Alphabet symbols, and `Decode` neither returns the seed
decode error nor any other result.  The library accepts the reconstructed
block "ab======" as one padded byte, and the 32-bit read of `seedBytes[:1]`
panics. -/
theorem C3_padded_seed_panics (g : Gen) :
    7 ≤ (ascii "ab=====").length ∧ (∃ c ∈ (ascii "ab=====").take 7, c ∉ stdEncode) ∧
      (∃ std r, stdEncoding = some std ∧
        std.Decode (List.replicate 5 0) (ascii "ab======") = some r ∧ r.err = none ∧ r.n = 1) ∧
      decodeSeed (ascii "ab=====") = none ∧ Decode g (ascii "ab=====") = none := by
  have hs : decodeSeed (ascii "ab=====") = none := by decide
  refine ⟨by decide, ⟨61, by decide, by decide⟩, ?_, hs,
    Decode_of_seed_panic g _ (by decide) hs⟩
  obtain ⟨std, hstd, _, _⟩ := stdEncoding_valid
  have : stdEncoding.bind (fun e => e.Decode (List.replicate 5 0) (ascii "ab======"))
      = some ⟨[0, 0, 0, 0, 0], 1, true, none⟩ := by decide
  rw [hstd] at this
  exact ⟨std, _, hstd, this, rfl, rfl⟩

/-- C6, evaluated on the code: `Decode` is not total.  On "abcd===" the
decoding of the reconstructed seed block succeeds and yields 2 bytes, not 4,
and the 32-bit big-endian read of `seedBytes[:2]` is out of range: `Decode`
panics instead of returning bytes or one of its three errors. -/
theorem C6_decode_panics (g : Gen) :
    (∃ std r, stdEncoding = some std ∧
        std.Decode (List.replicate 5 0) (ascii "abcd====") = some r ∧ r.err = none ∧
        r.n = 2 ∧ Uint32 (r.dst.take r.n) = none) ∧
      Decode g (ascii "abcd===") = none ∧ Decode g (ascii "abcde==") = none := by
  have hs : decodeSeed (ascii "abcd===") = none := by decide
  have hs2 : decodeSeed (ascii "abcde==") = none := by decide
  refine ⟨?_, Decode_of_seed_panic g _ (by decide) hs, Decode_of_seed_panic g _ (by decide) hs2⟩
  obtain ⟨std, hstd, _, _⟩ := stdEncoding_valid
  have : stdEncoding.bind (fun e => e.Decode (List.replicate 5 0) (ascii "abcd===="))
      = some ⟨[0, 68, 0, 0, 0], 2, true, none⟩ := by decide
  rw [hstd] at this
  exact ⟨std, _, hstd, this, rfl, rfl, by decide⟩

/-- C5. Minimum size rejection: for every input of fewer than 7 symbols,
whatever the symbols, `Decode` fails with the error "invalid input size" and
returns no bytes; for every input of 7 symbols or more that error is never
returned (an error of such an input is a seed or payload decode error, with
another text). -/
theorem C5_minimum_size (g : Gen) (src : List Nat) :
    (src.length < 7 → Decode g src = some (Except.error Error.invalidInputSize)) ∧
      Error.invalidInputSize.message = "invalid input size" ∧
      (7 ≤ src.length → ∀ e, Decode g src = some (Except.error e) →
        e ≠ Error.invalidInputSize ∧ e.message ≠ "invalid input size" ∧
          ∃ k, e = Error.seedDecode k ∨ e = Error.payloadDecode k) := by
  refine ⟨Decode_short g src, rfl, ?_⟩
  intro hlen e he
  have hkind : ∃ k, e = Error.seedDecode k ∨ e = Error.payloadDecode k := by
    cases hs : decodeSeed src with
    | none =>
      rw [Decode_of_seed_panic g src hlen hs] at he
      cases he
    | some x =>
      cases x with
      | error e2 =>
        rw [Decode_of_seed_error g src e2 hlen hs] at he
        simp only [Option.some.injEq, Except.error.injEq] at he
        subst he
        obtain ⟨k, hk⟩ := decodeSeed_error_kind src e2 hs
        exact ⟨k, Or.inl hk⟩
      | ok v =>
        rw [Decode_of_seed g src v hlen hs] at he
        obtain ⟨k, hk⟩ := decodePayload_error_kind g v src e he
        exact ⟨k, Or.inr hk⟩
  obtain ⟨k, hk | hk⟩ := hkind
  · subst hk
    exact ⟨(fun h => by cases h), (message_ne k).1, k, Or.inl rfl⟩
  · subst hk
    exact ⟨(fun h => by cases h), (message_ne k).2, k, Or.inr rfl⟩

/-- The payload step of `Decode` never panics; without CR and LF in the
payload it fails as soon as one payload symbol is neither `=` nor in the
alphabet. -/
theorem decodePayload_bad_symbol (g : Gen) (v : Nat) (enc : Encoding)
    (henc : newSeedEncoding g (v : Int) = some enc) (hv : enc.Valid) (src : List Nat)
    (hlen : 7 ≤ src.length) (hnl : ∀ c ∈ src.drop 7, c ≠ 10 ∧ c ≠ 13)
    (c : Nat) (hc : c ∈ src.drop 7) (h61 : c ≠ 61) (habs : c ∉ enc.encode) :
    ∃ e, decodePayload g v src = some (Except.error (Error.payloadDecode e)) := by
  have hnp := hv.noPad
  obtain ⟨r, hr, _, _⟩ := Decode_some enc hnp
    (List.replicate (enc.DecodedLen (repad (src.drop 7)).length) 0) (repad (src.drop 7))
    (by rw [List.length_replicate, DecodedLen_eq enc hv])
  have herr : r.err ≠ none := by
    intro he
    unfold Encoding.Decode Encoding.decode at hr
    rw [stripNewlines_eq _ (repad_no_newline _ hnl)] at hr
    have := decodeLoop_valid enc hnp _ _ _ 0 0 _ r (Nat.le_refl _) (repad_length _) hr he c
      (repad_mem _ c hc)
    rcases this with h | h
    · rw [hv.padByte] at h
      exact h61 h
    · exact h (hv.absent c habs)
  simp only [decodePayload, henc, Option.bind_eq_bind, Option.some_bind, sliceFrom]
  rw [if_pos hlen]
  simp only [Option.some_bind, hr]
  cases he : r.err with
  | none => exact absurd he herr
  | some e => exact ⟨e, rfl⟩

/-- C4, amended. Payload corruption rejection: for every input whose first 7
symbols are Base Alphabet symbols, whose payload holds no CR and no LF, and
whose payload contains a symbol other than `=` that is absent from the
alphabet derived from the recovered seed, `Decode` fails with the payload
decode error (text prefixed "payload decode error: ") and returns no bytes. -/
theorem C4_payload_corruption (g : Gen) (src : List Nat) (hlen : 7 ≤ src.length)
    (hseed : ∀ c ∈ src.take 7, c ∈ stdEncode)
    (hnl : ∀ c ∈ src.drop 7, c ≠ 10 ∧ c ≠ 13)
    (hbad : ∃ c ∈ src.drop 7, c ≠ 61 ∧ ∀ v enc, decodeSeed src = some (Except.ok v) →
      newSeedEncoding g (v : Int) = some enc → c ∉ enc.encode) :
    ∃ e, Decode g src = some (Except.error (Error.payloadDecode e)) ∧
      (Error.payloadDecode e).message = "payload decode error: " ++ corruptInputMessage e := by
  obtain ⟨v, hs⟩ := decodeSeed_valid src hlen hseed
  obtain ⟨enc, henc, hv⟩ := newSeedEncoding_valid g (v : Int)
  obtain ⟨c, hc, h61, habs⟩ := hbad
  obtain ⟨e, he⟩ := decodePayload_bad_symbol g v enc henc hv src hlen hnl c hc h61
    (habs v enc hs henc)
  exact ⟨e, by rw [Decode_of_seed g src v hlen hs, he], rfl⟩

/-- An alphabet `newSeedEncoding` returns holds Base Alphabet symbols only. -/
theorem newSeedEncoding_mem (g : Gen) (seed : Int) (enc : Encoding)
    (h : newSeedEncoding g seed = some enc) : ∀ c ∈ enc.encode, c ∈ stdEncode := by
  obtain ⟨enc2, h2, hv⟩ := newSeedEncoding_valid g seed
  rw [h] at h2
  cases h2
  intro c hc
  exact hv.perm.mem_iff.mp hc

/-- Witness of C4 on the text "pd6c76q9" of the test suite. -/
theorem C4_payload_corruption_witness :
    Decode sampleGen (ascii "pd6c76q9") = some (Except.error (Error.payloadDecode 0)) ∧
      ∃ e, Decode sampleGen (ascii "pd6c76q9") = some (Except.error (Error.payloadDecode e)) ∧
        (Error.payloadDecode e).message = "payload decode error: " ++ corruptInputMessage e :=
  ⟨by decide, C4_payload_corruption sampleGen (ascii "pd6c76q9") (by decide) (by decide)
    (by decide)
    ⟨57, by decide, by decide, fun v enc _ henc hc =>
      absurd (newSeedEncoding_mem sampleGen v enc henc 57 hc) (by decide)⟩⟩

/-- C4 as stated fails: the payload of "aaaaaaa" followed by eight LF holds a
symbol (LF) that is not `=` and is absent from every derived alphabet, yet for
every generator `Decode` returns the empty byte sequence and no error, because
the library drops CR and LF before decoding.  With CR or LF in the payload
even an ordinary foreign symbol can pass: "aaaaaaa", seven LF, "ab======9"
decodes without error. -/
theorem C4_counterexample :
    7 ≤ [97, 97, 97, 97, 97, 97, 97, 10, 10, 10, 10, 10, 10, 10, 10].length ∧
      (∀ c ∈ [97, 97, 97, 97, 97, 97, 97, 10, 10, 10, 10, 10, 10, 10, 10].take 7,
        c ∈ stdEncode) ∧
      (10 ∈ [97, 97, 97, 97, 97, 97, 97, 10, 10, 10, 10, 10, 10, 10, 10].drop 7 ∧ 10 ≠ 61) ∧
      (∀ (g : Gen) (v : Int) (enc : Encoding), newSeedEncoding g v = some enc →
        10 ∉ enc.encode) ∧
      (∀ g : Gen, Decode g [97, 97, 97, 97, 97, 97, 97, 10, 10, 10, 10, 10, 10, 10, 10]
        = some (Except.ok [])) ∧
      Decode sampleGen (ascii "aaaaaaa\n\n\n\n\n\n\nab======9") = some (Except.ok [32]) := by
  refine ⟨by decide, by decide, by decide, ?_, ?_, by decide⟩
  · intro g v enc henc hc
    exact absurd (newSeedEncoding_mem g v enc henc 10 hc) (by decide)
  · intro g
    have hs : decodeSeed [97, 97, 97, 97, 97, 97, 97, 10, 10, 10, 10, 10, 10, 10, 10]
        = some (Except.ok 0) := by decide
    obtain ⟨enc, henc, hv⟩ := newSeedEncoding_valid g ((0 : Nat) : Int)
    rw [Decode_of_seed g _ 0 (by decide) hs]
    simp only [decodePayload, henc, Option.bind_eq_bind, Option.some_bind, sliceFrom]
    rw [if_pos (by decide)]
    simp only [Option.some_bind]
    have h1 : repad (List.drop 7 [97, 97, 97, 97, 97, 97, 97, 10, 10, 10, 10, 10, 10, 10, 10])
        = [10, 10, 10, 10, 10, 10, 10, 10] := by decide
    rw [h1, DecodedLen_eq enc hv]
    have h2 : stripNewlines [10, 10, 10, 10, 10, 10, 10, 10] = [] := by decide
    simp only [Encoding.Decode, Encoding.decode, h2, List.length_nil, decodeLoop,
      Option.some_bind, sliceTo]
    rfl

/-! ## Seed prefix, seed block and seed-only inputs -/

/-- For a non-empty input and a seed `0 ≤ s < 2^31`, `Encode` returns a text
whose first seven symbols alone give `s` back to the seed step of `Decode`. -/
theorem Encode_seed (g : Gen) (s : Int) (src : List Nat) (hne : src ≠ [])
    (h0 : 0 ≤ s) (h1 : s < 2147483648) :
    ∃ out, Encode g s src = some out ∧ 7 ≤ out.length ∧
      decodeSeed out = some (Except.ok s.toNat) ∧
      decodeSeed (out.take 7) = some (Except.ok s.toNat) := by
  obtain ⟨enc, henc, hv⟩ := newSeedEncoding_valid g s
  obtain ⟨std, hstd, hvs, _⟩ := stdEncoding_valid
  obtain ⟨body, hE, _, _, _⟩ := Encode_eq g s src hne enc std henc hv hstd hvs
  obtain ⟨sbody, s1, s2, _⟩ := seed_block std hvs (toUint32 s)
  rw [s1, List.take_left' s2] at hE
  have hnat : s.toNat = toUint32 s := by unfold toUint32; omega
  refine ⟨sbody ++ body, hE, by rw [List.length_append, s2]; omega, ?_, ?_⟩
  · rw [hnat]
    exact decodeSeed_block std hstd hvs (toUint32 s) (toUint32_lt s) sbody body s1 s2
  · rw [hnat, List.take_left' s2]
    have := decodeSeed_block std hstd hvs (toUint32 s) (toUint32_lt s) sbody [] s1 s2
    rwa [List.append_nil] at this

/-- C11. Outputs collide only when seeds collide: for every non-empty input
`b` and every two seeds `0 ≤ s1, s2 < 2^31`, `Encode` of `b` with `s1` equals
`Encode` of `b` with `s2` if and only if `s1 = s2`; already the 7-symbol
prefixes of the two texts are equal only when the seeds are. -/
theorem C11_collide_iff_seeds_equal (g : Gen) (b : List Nat) (hne : b ≠ []) (s1 s2 : Int)
    (h1 : 0 ≤ s1 ∧ s1 < 2147483648) (h2 : 0 ≤ s2 ∧ s2 < 2147483648) :
    (Encode g s1 b = Encode g s2 b ↔ s1 = s2) ∧
      ((Encode g s1 b).map (List.take 7) = (Encode g s2 b).map (List.take 7) ↔ s1 = s2) := by
  obtain ⟨o1, e1, _, _, d1⟩ := Encode_seed g s1 b hne h1.1 h1.2
  obtain ⟨o2, e2, _, _, d2⟩ := Encode_seed g s2 b hne h2.1 h2.2
  have key : o1.take 7 = o2.take 7 → s1 = s2 := by
    intro h
    rw [h, d2] at d1
    simp only [Option.some.injEq, Except.ok.injEq] at d1
    omega
  constructor
  · constructor
    · intro h
      rw [e1, e2] at h
      simp only [Option.some.injEq] at h
      exact key (by rw [h])
    · intro h
      rw [h]
  · constructor
    · intro h
      rw [e1, e2] at h
      simp only [Option.map_some', Option.some.injEq] at h
      exact key h
    · intro h
      rw [h]

/-- Witness of C11 at the seeds 1 and 2 and a one-byte input. -/
theorem C11_collide_iff_seeds_equal_witness :
    Encode sampleGen 1 [7] ≠ Encode sampleGen 2 [7] ∧
      ((Encode sampleGen 1 [7] = Encode sampleGen 2 [7] ↔ (1 : Int) = 2) ∧
        ((Encode sampleGen 1 [7]).map (List.take 7)
          = (Encode sampleGen 2 [7]).map (List.take 7) ↔ (1 : Int) = 2)) :=
  ⟨by decide, C11_collide_iff_seeds_equal sampleGen [7] (by decide) 1 2 (by decide) (by decide)⟩

/-- C19. Seed-only input: for every input of exactly 7 symbols that are all
Base Alphabet symbols, the seed step succeeds (with whatever 32-bit value the
symbols spell, also one of `2^31` or more), no padding is appended to the
empty payload, and `Decode` returns the empty byte sequence and no error. -/
theorem C19_seed_only_input (g : Gen) (src : List Nat) (hlen : src.length = 7)
    (h : ∀ c ∈ src, c ∈ stdEncode) :
    (∃ v, decodeSeed src = some (Except.ok v)) ∧ repad (src.drop 7) = [] ∧
      Decode g src = some (Except.ok []) := by
  obtain ⟨v, hs⟩ := decodeSeed_valid src (by omega)
    (fun c hc => h c (List.mem_of_mem_take hc))
  obtain ⟨enc, henc, hv⟩ := newSeedEncoding_valid g (v : Int)
  have hd : src.drop 7 = [] := List.drop_of_length_le (by omega)
  refine ⟨⟨v, hs⟩, by rw [hd]; rfl, ?_⟩
  rw [Decode_of_seed g src v (by omega) hs]
  simp only [decodePayload, henc, Option.bind_eq_bind, Option.some_bind, sliceFrom]
  rw [if_pos (by omega), hd]
  have hr : repad [] = [] := rfl
  simp only [Option.some_bind, hr, List.length_nil, DecodedLen_eq enc hv, Encoding.Decode,
    Encoding.decode]
  have hst : stripNewlines [] = [] := rfl
  rw [hst]
  simp only [List.length_nil, decodeLoop, Option.some_bind, sliceTo]
  rfl

/-- Witness of C19 on "7777777", whose seed is `2^32 - 1`. -/
theorem C19_seed_only_input_witness :
    decodeSeed (ascii "7777777") = some (Except.ok 4294967295) ∧
      ((∃ v, decodeSeed (ascii "7777777") = some (Except.ok v)) ∧
        repad ((ascii "7777777").drop 7) = [] ∧
        Decode sampleGen (ascii "7777777") = some (Except.ok [])) :=
  ⟨by decide, C19_seed_only_input sampleGen (ascii "7777777") (by decide) (by decide)⟩

/-! ## The seed block of four bytes -/

/-- The block of four bytes under a well-formed encoding: seven symbols of the
alphabet and one `=`. -/
theorem four_block (enc : Encoding) (hv : enc.Valid) (bs : List Nat) (h : bs.length = 4) :
    ∃ sbody, enc.text bs = sbody ++ [61] ∧ sbody.length = 7 ∧
      (∀ c ∈ sbody, c ∈ enc.encode) ∧
      sbody = ((unpack bs).take 7).map enc.sym := by
  obtain ⟨b0, b1, b2, b3, rfl⟩ : ∃ b0 b1 b2 b3, bs = [b0, b1, b2, b3] := by
    match bs, h with
    | [b0, b1, b2, b3], _ => exact ⟨b0, b1, b2, b3, rfl⟩
  refine ⟨((unpack [b0, b1, b2, b3]).take 7).map enc.sym, text_four enc hv b0 b1 b2 b3,
    by simp [unpack_length], ?_, rfl⟩
  intro c hc
  obtain ⟨v, _, rfl⟩ := List.mem_map.mp hc
  exact hv.sym_mem v

theorem Int31_range (u : Nat) : 0 ≤ Rand.Int31 u ∧ Rand.Int31 u < 2147483648 := by
  unfold Rand.Int31 Rand.Int63
  have h : u &&& 9223372036854775807 = u % 9223372036854775808 :=
    Nat.and_pow_two_sub_one_eq_mod u 63
  rw [h, Nat.shiftRight_eq_div_pow]
  constructor
  · exact Int.ofNat_nonneg _
  · have : u % 9223372036854775808 / 2 ^ 32 < 2147483648 := by omega
    exact_mod_cast this

theorem first_symbol_low (x : Nat) (h : x < 128) :
    stdEncode.getD ((x >>> 3) &&& 31) 0 ∈ stdEncode.take 16 := by
  have hr : (x >>> 3) &&& 31 = x / 8 := by
    rw [and31, Nat.shiftRight_eq_div_pow]; omega
  have hall : ∀ i, i < 16 → stdEncode.getD i 0 ∈ stdEncode.take 16 := by decide
  rw [hr]
  exact hall _ (by omega)

theorem seventh_symbol_class (x : Nat) :
    stdEncode.getD ((shl8 x 3 &&& 31) &&& 31) 0 ∈ [97, 105, 113, 121] := by
  have hr : (shl8 x 3 &&& 31) &&& 31 = x % 4 * 8 := by
    simp only [shl8, and31, Nat.shiftLeft_eq]; omega
  have hall : ∀ r, r < 4 → stdEncode.getD (r * 8) 0 ∈ [97, 105, 113, 121] := by decide
  rw [hr]
  exact hall _ (Nat.mod_lt _ (by decide))

/-- C13. The dropped eighth seed symbol is always padding: for every 4-byte
input the Base Alphabet encoding is a block of 8 symbols, written alike at the
front of any longer destination, whose first 7 symbols are alphabet symbols and
whose eighth is `=`; the 7 symbols with `=` appended decode back to the 4
bytes, so keeping 7 symbols loses no information; and the text `Encode`
returns for a seed with these 4 bytes starts with the 7 symbols, the payload
written at offset 7 having replaced the `=` only. -/
theorem C13_eighth_symbol_is_padding (b0 b1 b2 b3 : Nat) (h0 : b0 < 256) (h1 : b1 < 256)
    (h2 : b2 < 256) (h3 : b3 < 256) :
    ∃ std block, stdEncoding = some std ∧
      std.Encode (List.replicate 8 0) [b0, b1, b2, b3] = some block ∧
      (∀ dst : List Nat, 8 ≤ dst.length →
        std.Encode dst [b0, b1, b2, b3] = some (block ++ dst.drop 8)) ∧
      block.length = 8 ∧ (∀ c ∈ block.take 7, c ∈ stdEncode) ∧ block.drop 7 = [61] ∧
      block = block.take 7 ++ [61] ∧
      (∃ fin, std.Decode (List.replicate 5 0) (block.take 7 ++ [61])
        = some ⟨[b0, b1, b2, b3, 0], 4, fin, none⟩) ∧
      ∀ (g : Gen) (seed : Int) (src : List Nat), src ≠ [] →
        bigEndian32 (toUint32 seed) = [b0, b1, b2, b3] →
        ∃ body, Encode g seed src = some (block.take 7 ++ body) := by
  obtain ⟨std, hstd, hvs, henc⟩ := stdEncoding_valid
  obtain ⟨sbody, s1, s2, s3, _⟩ := four_block std hvs [b0, b1, b2, b3] rfl
  have hE : ∀ dst : List Nat, 8 ≤ dst.length →
      std.Encode dst [b0, b1, b2, b3] = some ((sbody ++ [61]) ++ dst.drop 8) := by
    intro dst hd
    have hl : [b0, b1, b2, b3].length = 4 := rfl
    have := Encode_eq_text std hvs.pad dst [b0, b1, b2, b3] (by rw [hl]; exact hd)
    rw [s1, hl] at this
    exact this
  have hb : ∀ b ∈ [b0, b1, b2, b3], b < 256 := by
    intro b hb
    simp only [List.mem_cons, List.mem_singleton, List.not_mem_nil, or_false] at hb
    rcases hb with rfl | rfl | rfl | rfl <;> assumption
  have hl : [b0, b1, b2, b3].length = 4 := rfl
  obtain ⟨fin, hd⟩ := Decode_text std hvs [b0, b1, b2, b3] hb
  rw [s1, hl] at hd
  refine ⟨std, sbody ++ [61], hstd, ?_, hE, by simp [s2], ?_, ?_, ?_, ⟨fin, ?_⟩, ?_⟩
  · have := hE (List.replicate 8 0) (by simp)
    simpa using this
  · intro c hc
    rw [List.take_left' s2] at hc
    rw [← henc]
    exact s3 c hc
  · rw [List.drop_left' s2]
  · rw [List.take_left' s2]
  · rw [List.take_left' s2]
    exact hd
  · intro g seed src hne hbe
    obtain ⟨enc, hg, hv⟩ := newSeedEncoding_valid g seed
    obtain ⟨body, hb, _⟩ := Encode_eq g seed src hne enc std hg hv hstd hvs
    rw [hbe, s1] at hb
    exact ⟨body, hb⟩

/-- Witness of C13 on the bytes `78 FC 2F FA`, whose block is "pd6c76q=". -/
theorem C13_eighth_symbol_is_padding_witness :
    stdEncoding.bind (fun e => e.Encode (List.replicate 8 0) [120, 252, 47, 250])
        = some (ascii "pd6c76q=") ∧
      ∃ std block, stdEncoding = some std ∧
        std.Encode (List.replicate 8 0) [120, 252, 47, 250] = some block ∧
        (∀ dst : List Nat, 8 ≤ dst.length →
          std.Encode dst [120, 252, 47, 250] = some (block ++ dst.drop 8)) ∧
        block.length = 8 ∧ (∀ c ∈ block.take 7, c ∈ stdEncode) ∧ block.drop 7 = [61] ∧
        block = block.take 7 ++ [61] ∧
        (∃ fin, std.Decode (List.replicate 5 0) (block.take 7 ++ [61])
          = some ⟨[120, 252, 47, 250, 0], 4, fin, none⟩) ∧
        ∀ (g : Gen) (seed : Int) (src : List Nat), src ≠ [] →
          bigEndian32 (toUint32 seed) = [120, 252, 47, 250] →
          ∃ body, Encode g seed src = some (block.take 7 ++ body) :=
  ⟨by decide, C13_eighth_symbol_is_padding 120 252 47 250 (by decide) (by decide) (by decide)
    (by decide)⟩

/-- C18. The embedded seed is never negative: the value `Int31` returns lies
in `[0, 2^31)`; for such a seed the top bit of the first seed byte is zero,
the sign-extended seed `Encode` passes to `newSeedEncoding` equals the
zero-extended seed `Decode` passes, and for every input the text `Encode`
returns has one of the first 16 Base Alphabet symbols (`a` to `p`) in first
place and one of `a`, `i`, `q`, `y` in seventh place, and gives the seed back
to `Decode`; for a non-empty input `Encode` does return a text. -/
theorem C18_seed_not_negative (g : Gen) (seed : Int) (src : List Nat)
    (h0 : 0 ≤ seed) (h1 : seed < 2147483648) :
    (∀ u : Nat, 0 ≤ Rand.Int31 u ∧ Rand.Int31 u < 2147483648) ∧
      (bigEndian32 (toUint32 seed)).getD 0 0 < 128 ∧
      ((toUint32 seed : Nat) : Int) = seed ∧
      (∀ out, Encode g seed src = some out → out.getD 0 0 ∈ stdEncode.take 16 ∧
        out.getD 6 0 ∈ [97, 105, 113, 121] ∧
        decodeSeed out = some (Except.ok (toUint32 seed))) ∧
      (src ≠ [] → ∃ out, Encode g seed src = some out) := by
  have hlt : toUint32 seed < 2147483648 := by unfold toUint32; omega
  have hb0 : (toUint32 seed >>> 24) % 256 < 128 := by
    rw [Nat.shiftRight_eq_div_pow]; omega
  refine ⟨Int31_range, hb0, toUint32_cast seed h0 (by omega), ?_, ?_⟩
  · intro out hout
    by_cases hne : src = []
    · rw [hne, Encode_nil] at hout
      cases hout
    · obtain ⟨enc, henc, hv⟩ := newSeedEncoding_valid g seed
      obtain ⟨std, hstd, hvs, hse⟩ := stdEncoding_valid
      obtain ⟨body, hE, _, _, _⟩ := Encode_eq g seed src hne enc std henc hv hstd hvs
      obtain ⟨sbody, s1, s2, _, s4⟩ := four_block std hvs (bigEndian32 (toUint32 seed)) rfl
      rw [s1, List.take_left' s2, hout] at hE
      simp only [Option.some.injEq] at hE
      subst hE
      refine ⟨?_, ?_, ?_⟩
      · have h7 : 0 < sbody.length := by omega
        have e0 : (sbody ++ body).getD 0 0 = sbody.getD 0 0 := by
          simp [List.getD_eq_getElem?_getD, List.getElem?_append_left h7]
        rw [e0, s4]
        have := first_symbol_low _ hb0
        simpa [bigEndian32, unpack, unpack1, unpack2, unpack3, unpack4, unpack5, Encoding.sym,
          hse] using this
      · have h7 : 6 < sbody.length := by omega
        have e0 : (sbody ++ body).getD 6 0 = sbody.getD 6 0 := by
          simp [List.getD_eq_getElem?_getD, List.getElem?_append_left h7]
        rw [e0, s4]
        have := seventh_symbol_class (toUint32 seed % 256)
        simpa [bigEndian32, unpack, unpack1, unpack2, unpack3, unpack4, unpack5, Encoding.sym,
          hse] using this
      · exact decodeSeed_block std hstd hvs (toUint32 seed) (toUint32_lt seed) sbody body s1 s2
  · intro hne
    obtain ⟨enc, henc, hv⟩ := newSeedEncoding_valid g seed
    obtain ⟨std, hstd, hvs, _⟩ := stdEncoding_valid
    obtain ⟨body, hE, _⟩ := Encode_eq g seed src hne enc std henc hv hstd hvs
    exact ⟨_, hE⟩

/-- Witness of C18 at the seed `0x78FC2FFA`, whose text starts with `p` and
has `q` in seventh place. -/
theorem C18_seed_not_negative_witness :
    (Encode sampleGen 2029793274 [1]).map (List.take 7) = some (ascii "pd6c76q") ∧
      ((∀ u : Nat, 0 ≤ Rand.Int31 u ∧ Rand.Int31 u < 2147483648) ∧
        (bigEndian32 (toUint32 2029793274)).getD 0 0 < 128 ∧
        ((toUint32 2029793274 : Nat) : Int) = 2029793274 ∧
        (∀ out, Encode sampleGen 2029793274 [1] = some out →
          out.getD 0 0 ∈ stdEncode.take 16 ∧ out.getD 6 0 ∈ [97, 105, 113, 121] ∧
          decodeSeed out = some (Except.ok (toUint32 2029793274))) ∧
        (([1] : List Nat) ≠ [] → ∃ out, Encode sampleGen 2029793274 [1] = some out)) :=
  ⟨by decide, C18_seed_not_negative sampleGen 2029793274 [1] (by decide) (by decide)⟩

/-! ## Quanta of alphabet symbols and foreign symbols -/

/-! ## `decode` on a run of alphabet symbols -/

theorem pack_count (dst dbuf : List Nat) (dsti dlen n : Nat) (dst2 : List Nat) (n2 : Nat)
    (h : pack dst dbuf dsti dlen n = some (dst2, n2))
    (hl : dlen = 2 ∨ dlen = 4 ∨ dlen = 5 ∨ dlen = 7 ∨ dlen = 8) (hd : dsti + 5 ≤ dst.length) :
    n2 = n + 5 * dlen / 8 ∧ dst2.length = dst.length := by
  rcases hl with rfl | rfl | rfl | rfl | rfl
  · obtain ⟨d, e1, e2⟩ := pack2_some dst dbuf dsti n hd
    have : pack dst dbuf dsti 2 n = some (d, n + 1) := e1
    rw [this] at h
    cases h
    exact ⟨rfl, e2⟩
  · obtain ⟨d, e1, e2⟩ := pack4_some dst dbuf dsti n hd
    have : pack dst dbuf dsti 4 n = some (d, n + 2) := e1
    rw [this] at h
    cases h
    exact ⟨rfl, e2⟩
  · obtain ⟨d, e1, e2⟩ := pack5_some dst dbuf dsti n hd
    have : pack dst dbuf dsti 5 n = some (d, n + 3) := e1
    rw [this] at h
    cases h
    exact ⟨rfl, e2⟩
  · obtain ⟨d, e1, e2⟩ := pack7_some dst dbuf dsti n hd
    have : pack dst dbuf dsti 7 n = some (d, n + 4) := e1
    rw [this] at h
    cases h
    exact ⟨rfl, e2⟩
  · obtain ⟨d, e1, e2⟩ := pack8_some dst dbuf dsti n hd
    have : pack dst dbuf dsti 8 n = some (d, n + 5) := e1
    rw [this] at h
    cases h
    exact ⟨rfl, e2⟩

/-- Full quanta of alphabet symbols are decoded five bytes at a time. -/
theorem decodeLoop_full_quanta (enc : Encoding) (hv : enc.Valid) (olen : Nat) :
    ∀ (q : Nat) (vs tail : List Nat) (f : Nat) (dst : List Nat) (dsti n : Nat),
      vs.length = 8 * q → dsti + 5 * q ≤ dst.length →
      ∃ dst2, dst2.length = dst.length ∧
        decodeLoop enc olen (q + f) dst dsti n false (vs.map enc.sym ++ tail)
          = decodeLoop enc olen f dst2 (dsti + 5 * q) (n + 5 * q) false tail := by
  intro q
  induction q with
  | zero =>
    intro vs tail f dst dsti n hl _
    have : vs = [] := List.length_eq_zero.mp (by omega)
    subst this
    exact ⟨dst, rfl, by simp⟩
  | succ q ih =>
    intro vs tail f dst dsti n hl hd
    have h8 : (vs.take 8).length = 8 := by rw [List.length_take]; omega
    have hrest : (vs.drop 8).length = 8 * q := by rw [List.length_drop]; omega
    have hsplit : vs.map enc.sym ++ tail
        = (vs.take 8).map enc.sym ++ ((vs.drop 8).map enc.sym ++ tail) := by
      rw [← List.append_assoc, ← List.map_append, List.take_append_drop]
    obtain ⟨d, p1, p2⟩ := pack8_some dst ((vs.take 8).map (fun v => v &&& 31)) dsti n
      (by omega)
    have hp : pack dst ((vs.take 8).map (fun v => v &&& 31)) dsti 8 n = some (d, n + 5) := p1
    obtain ⟨dst2, e1, e2⟩ := ih (vs.drop 8) tail f d (dsti + 5) (n + 5) hrest
      (by rw [p2]; omega)
    refine ⟨dst2, by rw [e1, p2], ?_⟩
    have hf : q + 1 + f = (q + f) + 1 := by omega
    rw [hf, hsplit, decodeLoop_read enc olen (q + f) dst dsti n _ _ 8 false _ d (n + 5)
      (by rw [List.length_append, List.length_map, h8]; omega)
      (readQuantum_full enc hv olen _ _ h8) hp, e2]
    congr 1 <;> omega

theorem readQuantum_pad_short (enc : Encoding) (hv : enc.Valid) (olen j : Nat) (dbuf : List Nat)
    (hj : j = 1 ∨ j = 3 ∨ j = 6) :
    readQuantum enc olen j (List.replicate (8 - j) 61) dbuf
      = Quantum.corrupt (olen - (7 - j) - 1) := by
  have hpb := hv.padByte
  have hnp := hv.noPad
  have h61 : enc.decodeMap.getD 61 invalidIndex = 255 := by
    apply hv.absent
    intro h
    exact (hv.mem_std h).2.2.1 rfl
  have h61b : enc.decodeMap[61]?.getD invalidIndex = 255 := by
    rw [← List.getD_eq_getElem?_getD]; exact h61
  rcases hj with rfl | rfl | rfl <;>
    simp [readQuantum, hpb, badPadding, List.replicate, List.range, List.range.loop, h61b]

/-- A last quantum of 1, 3 or 6 alphabet symbols is rejected. -/
theorem readQuantum_last_short (enc : Encoding) (hv : enc.Valid) (olen : Nat)
    (vs : List Nat) (hj : vs.length = 1 ∨ vs.length = 3 ∨ vs.length = 6) :
    readQuantum enc olen 0 (vs.map enc.sym ++ List.replicate (8 - vs.length) 61)
        (List.replicate 8 0)
      = Quantum.corrupt (olen - (7 - vs.length) - 1) := by
  have := readQuantum_syms enc hv olen vs [] (List.replicate (8 - vs.length) 61) (by simp; omega)
  simp only [List.length_nil, List.nil_append, Nat.sub_zero, Nat.zero_add] at this
  rw [this, readQuantum_pad_short enc hv olen _ _ hj]

/-- A symbol that is neither in the alphabet nor `=` stops the quantum at its
own index. -/
theorem readQuantum_bad (enc : Encoding) (hv : enc.Valid) (olen : Nat)
    (vs : List Nat) (c : Nat) (rest : List Nat) (hl : vs.length < 8)
    (hc : c ∉ enc.encode) (h61 : c ≠ 61) :
    readQuantum enc olen 0 (vs.map enc.sym ++ c :: rest) (List.replicate 8 0)
      = Quantum.corrupt (olen - rest.length - 1) := by
  have := readQuantum_syms enc hv olen vs [] (c :: rest) (by simp; omega)
  simp only [List.length_nil, List.nil_append, Nat.sub_zero, Nat.zero_add] at this
  rw [this]
  simp only [readQuantum]
  rw [if_pos hl, if_neg (by rw [hv.padByte]; exact fun h => h61 h.1), hv.absent c hc]
  simp [invalidIndex]

theorem decodeLoop_corrupt (enc : Encoding) (olen fuel : Nat) (dst : List Nat) (dsti n : Nat)
    (src : List Nat) (e : Nat) (h0 : 0 < src.length)
    (hq : readQuantum enc olen 0 src (List.replicate 8 0) = Quantum.corrupt e) :
    decodeLoop enc olen (fuel + 1) dst dsti n false src = some ⟨dst, n, false, some e⟩ := by
  rw [decodeLoop, if_pos ⟨h0, rfl⟩, hq]

theorem stripNewlines_syms (enc : Encoding) (hv : enc.Valid) (vs rest : List Nat) :
    stripNewlines (vs.map enc.sym ++ rest) = vs.map enc.sym ++ stripNewlines rest := by
  unfold stripNewlines
  rw [List.filter_append]
  congr 1
  rw [List.filter_eq_self]
  intro c hc
  obtain ⟨v, _, rfl⟩ := List.mem_map.mp hc
  have := hv.sym_ne v
  simp [this.2.1, this.2.2]

theorem stripNewlines_cons (c : Nat) (rest : List Nat) (h10 : c ≠ 10) (h13 : c ≠ 13) :
    stripNewlines (c :: rest) = c :: stripNewlines rest := by
  unfold stripNewlines
  rw [List.filter_cons_of_pos]
  simp [h10, h13]

/-- The library `Decode` reports the index of the first symbol that is neither
in the alphabet nor `=`, CR or LF, when only alphabet symbols precede it. -/
theorem Decode_first_bad (enc : Encoding) (hv : enc.Valid) (vs : List Nat) (c : Nat)
    (rest dst : List Nat) (hc : c ∉ enc.encode) (h61 : c ≠ 61) (h10 : c ≠ 10) (h13 : c ≠ 13)
    (hroom : (vs.map enc.sym ++ c :: rest).length / 8 * 5 ≤ dst.length) :
    ∃ r, enc.Decode dst (vs.map enc.sym ++ c :: rest) = some r ∧ r.err = some vs.length := by
  unfold Encoding.Decode Encoding.decode
  rw [stripNewlines_syms enc hv, stripNewlines_cons c rest h10 h13]
  generalize stripNewlines rest = rest2
  have hsplit : vs = vs.take (8 * (vs.length / 8)) ++ vs.drop (8 * (vs.length / 8)) :=
    (List.take_append_drop _ _).symm
  have hl1 : (vs.take (8 * (vs.length / 8))).length = 8 * (vs.length / 8) := by
    rw [List.length_take]; omega
  have hl2 : (vs.drop (8 * (vs.length / 8))).length < 8 := by
    rw [List.length_drop]; omega
  have hlen : (vs.map enc.sym ++ c :: rest2).length = vs.length + 1 + rest2.length := by
    simp; omega
  have hlen0 : (vs.map enc.sym ++ c :: rest).length = vs.length + 1 + rest.length := by
    simp; omega
  rw [hlen0] at hroom
  have hq8 : vs.length / 8 ≤ (vs.length + 1 + rest.length) / 8 :=
    Nat.div_le_div_right (by omega)
  obtain ⟨f, hf⟩ : ∃ f, vs.length + 1 + rest2.length = vs.length / 8 + (f + 1) :=
    ⟨vs.length + 1 + rest2.length - vs.length / 8 - 1, by omega⟩
  obtain ⟨dst2, e1, e2⟩ := decodeLoop_full_quanta enc hv (vs.length / 8 + (f + 1))
    (vs.length / 8) (vs.take (8 * (vs.length / 8)))
    ((vs.drop (8 * (vs.length / 8))).map enc.sym ++ c :: rest2) (f + 1) dst 0 0 hl1 (by omega)
  rw [← List.append_assoc, ← List.map_append, ← hsplit] at e2
  rw [hlen, hf, e2]
  rw [decodeLoop_corrupt enc _ f dst2 _ _ _ _ (by simp)
    (readQuantum_bad enc hv _ _ c rest2 hl2 hc h61)]
  refine ⟨_, rfl, ?_⟩
  simp only [Option.some.injEq]
  omega

/-- The library `Decode` on a run of `L` alphabet symbols, padded to a multiple
of 8: `5L/8` bytes when `L mod 8` is 0, 2, 4, 5 or 7, an error otherwise. -/
theorem Decode_symbols (enc : Encoding) (hv : enc.Valid) (vs : List Nat) :
    (vs.length % 8 = 0 ∨ vs.length % 8 = 2 ∨ vs.length % 8 = 4 ∨ vs.length % 8 = 5 ∨
        vs.length % 8 = 7 →
      ∃ dst2 fin, enc.Decode (List.replicate (enc.DecodedLen (repad (vs.map enc.sym)).length) 0)
          (repad (vs.map enc.sym)) = some ⟨dst2, 5 * vs.length / 8, fin, none⟩ ∧
        5 * vs.length / 8 ≤ dst2.length) ∧
      (vs.length % 8 = 1 ∨ vs.length % 8 = 3 ∨ vs.length % 8 = 6 →
        ∃ r e, enc.Decode (List.replicate (enc.DecodedLen (repad (vs.map enc.sym)).length) 0)
          (repad (vs.map enc.sym)) = some r ∧ r.err = some e) := by
  have hsplit : vs = vs.take (8 * (vs.length / 8)) ++ vs.drop (8 * (vs.length / 8)) :=
    (List.take_append_drop _ _).symm
  have hl1 : (vs.take (8 * (vs.length / 8))).length = 8 * (vs.length / 8) := by
    rw [List.length_take]; omega
  have hl2 : (vs.drop (8 * (vs.length / 8))).length = vs.length % 8 := by
    rw [List.length_drop]; omega
  have hnl : ∀ c ∈ repad (vs.map enc.sym), c ≠ 10 ∧ c ≠ 13 := by
    apply repad_no_newline
    intro c hc
    obtain ⟨v, _, rfl⟩ := List.mem_map.mp hc
    exact ⟨(hv.sym_ne v).2.1, (hv.sym_ne v).2.2⟩
  have hrep : repad (vs.map enc.sym) = (vs.take (8 * (vs.length / 8))).map enc.sym
      ++ ((vs.drop (8 * (vs.length / 8))).map enc.sym
        ++ (if vs.length % 8 = 0 then [] else List.replicate (8 - vs.length % 8) 61)) := by
    rw [← List.append_assoc, ← List.map_append, ← hsplit]
    unfold repad
    simp only [List.length_map]
    by_cases h0 : vs.length % 8 = 0
    · rw [if_pos h0, if_neg (by omega)]; simp
    · rw [if_neg h0, if_pos (by omega)]
  have hlenr : (repad (vs.map enc.sym)).length
      = 8 * (vs.length / 8) + (if vs.length % 8 = 0 then 0 else 8) := by
    rw [hrep]
    simp only [List.length_append, List.length_map, hl1, hl2]
    split
    · simp; omega
    · simp; omega
  have hdl : enc.DecodedLen (repad (vs.map enc.sym)).length
      = 5 * (vs.length / 8) + (if vs.length % 8 = 0 then 0 else 5) := by
    rw [DecodedLen_eq enc hv, hlenr]
    split <;> omega
  unfold Encoding.Decode Encoding.decode
  rw [stripNewlines_eq _ hnl, hdl]
  obtain ⟨f, hf⟩ : ∃ f, (repad (vs.map enc.sym)).length = vs.length / 8 + f :=
    ⟨(repad (vs.map enc.sym)).length - vs.length / 8, by rw [hlenr]; omega⟩
  obtain ⟨dst2, e1, e2⟩ := decodeLoop_full_quanta enc hv (vs.length / 8 + f)
    (vs.length / 8) (vs.take (8 * (vs.length / 8)))
    ((vs.drop (8 * (vs.length / 8))).map enc.sym
        ++ (if vs.length % 8 = 0 then [] else List.replicate (8 - vs.length % 8) 61)) f
    (List.replicate (5 * (vs.length / 8) + (if vs.length % 8 = 0 then 0 else 5)) 0) 0 0 hl1
    (by rw [List.length_replicate]; omega)
  rw [List.length_replicate] at e1
  rw [← hrep] at e2
  have hfuel : (repad (vs.map enc.sym)).length = vs.length / 8 + f := hf
  constructor
  · intro hcase
    by_cases h0 : vs.length % 8 = 0
    · have hnil : vs.drop (8 * (vs.length / 8)) = [] := List.length_eq_zero.mp (by omega)
      rw [hfuel, e2, hnil, if_pos h0]
      simp only [List.map_nil, List.append_nil, decodeLoop_nil]
      refine ⟨dst2, false, ?_, by omega⟩
      congr 2
      omega
    · have hcase2 : (vs.drop (8 * (vs.length / 8))).length = 2 ∨
          (vs.drop (8 * (vs.length / 8))).length = 4 ∨
          (vs.drop (8 * (vs.length / 8))).length = 5 ∨
          (vs.drop (8 * (vs.length / 8))).length = 7 := by
        rw [hl2]; omega
      obtain ⟨f2, hf2⟩ : ∃ f2, f = f2 + 1 := ⟨f - 1, by rw [hlenr, if_neg h0] at hf; omega⟩
      subst hf2
      have hq := readQuantum_last enc hv (vs.length / 8 + (f2 + 1))
        (vs.drop (8 * (vs.length / 8))) hcase2
      rw [hl2] at hq
      obtain ⟨d3, n3, p1, p2, _⟩ := pack_some dst2
        ((vs.drop (8 * (vs.length / 8))).map (fun v => v &&& 31)
          ++ List.replicate (8 - vs.length % 8) 0) (0 + 5 * (vs.length / 8)) (vs.length % 8)
        (0 + 5 * (vs.length / 8)) (by rw [e1, if_neg h0]; omega)
      have hcnt := pack_count _ _ _ _ _ _ _ p1 (by omega) (by rw [e1, if_neg h0]; omega)
      rw [hfuel, e2, if_neg h0,
        decodeLoop_read enc _ f2 dst2 _ _ _ _ _ true _ d3 n3 (by simp; omega) hq p1,
        decodeLoop_done]
      refine ⟨d3, true, ?_, by rw [p2, e1, if_neg h0]; omega⟩
      congr 2
      rw [hcnt.1]
      omega
  · intro hcase
    have h0 : ¬ vs.length % 8 = 0 := by omega
    have hcase2 : (vs.drop (8 * (vs.length / 8))).length = 1 ∨
        (vs.drop (8 * (vs.length / 8))).length = 3 ∨
        (vs.drop (8 * (vs.length / 8))).length = 6 := by
      rw [hl2]; omega
    obtain ⟨f2, hf2⟩ : ∃ f2, f = f2 + 1 := ⟨f - 1, by rw [hlenr, if_neg h0] at hf; omega⟩
    subst hf2
    have hq := readQuantum_last_short enc hv (vs.length / 8 + (f2 + 1))
      (vs.drop (8 * (vs.length / 8))) hcase2
    rw [hl2] at hq
    rw [hfuel, e2, if_neg h0, decodeLoop_corrupt enc _ f2 dst2 _ _ _ _ (by simp; omega) hq]
    exact ⟨_, _, rfl, rfl⟩

theorem newSeedEncoding_mem_std (g : Gen) (seed : Int) (enc : Encoding)
    (h : newSeedEncoding g seed = some enc) : ∀ c ∈ stdEncode, c ∈ enc.encode := by
  obtain ⟨enc2, h2, hv⟩ := newSeedEncoding_valid g seed
  rw [h] at h2
  cases h2
  intro c hc
  exact hv.perm.mem_iff.mpr hc

theorem newSeedEncoding_is_valid (g : Gen) (seed : Int) (enc : Encoding)
    (h : newSeedEncoding g seed = some enc) : enc.Valid := by
  obtain ⟨enc2, h2, hv⟩ := newSeedEncoding_valid g seed
  rw [h] at h2
  cases h2
  exact hv

/-- The seed block handed to the Base decoder: the first 7 symbols and `=`. -/
theorem seedEnc_eq (src : List Nat) (hlen : 7 ≤ src.length) :
    setIdx (copy (List.replicate 8 0) (src.take 7)) 7 61 = some (src.take 7 ++ [61]) := by
  have hl7 : (src.take 7).length = 7 := by rw [List.length_take]; omega
  have hcopy : copy (List.replicate 8 0) (List.take 7 src) = src.take 7 ++ [0] := by
    unfold copy
    rw [List.length_replicate, List.take_of_length_le (by omega), hl7]
    rfl
  rw [hcopy]
  unfold setIdx
  rw [if_pos (by simp; omega), List.set_append_right _ _ (by omega), hl7]
  rfl

/-- The payload of an input made of alphabet symbols only: `5L/8` bytes when
`L mod 8` is 0, 2, 4, 5 or 7, the payload decode error otherwise. -/
theorem decodePayload_symbols (g : Gen) (v : Nat) (enc : Encoding)
    (henc : newSeedEncoding g (v : Int) = some enc) (hv : enc.Valid) (src : List Nat)
    (hlen : 7 ≤ src.length) (vs : List Nat) (hvs : src.drop 7 = vs.map enc.sym) :
    (vs.length % 8 = 0 ∨ vs.length % 8 = 2 ∨ vs.length % 8 = 4 ∨ vs.length % 8 = 5 ∨
        vs.length % 8 = 7 →
      ∃ out, decodePayload g v src = some (Except.ok out) ∧ out.length = 5 * vs.length / 8) ∧
      (vs.length % 8 = 1 ∨ vs.length % 8 = 3 ∨ vs.length % 8 = 6 →
        ∃ e, decodePayload g v src = some (Except.error (Error.payloadDecode e))) := by
  have hsym := Decode_symbols enc hv vs
  simp only [decodePayload, henc, Option.bind_eq_bind, Option.some_bind, sliceFrom]
  rw [if_pos hlen]
  simp only [Option.some_bind, hvs]
  constructor
  · intro hcase
    obtain ⟨dst2, fin, hd, hle⟩ := hsym.1 hcase
    rw [hd]
    simp only [Option.some_bind, sliceTo]
    rw [if_pos hle]
    refine ⟨_, rfl, ?_⟩
    rw [List.length_take]
    omega
  · intro hcase
    obtain ⟨r, e, hd, he⟩ := hsym.2 hcase
    rw [hd]
    simp only [Option.some_bind, he]
    exact ⟨e, rfl⟩

/-- The payload decoder reports the payload index of the first ordinary symbol
outside the derived alphabet. -/
theorem decodePayload_first_bad (g : Gen) (v : Nat) (enc : Encoding)
    (henc : newSeedEncoding g (v : Int) = some enc) (hv : enc.Valid) (src : List Nat)
    (hlen : 7 ≤ src.length) (vs : List Nat) (c : Nat) (rest : List Nat)
    (hsrc : src.drop 7 = vs.map enc.sym ++ c :: rest)
    (hc : c ∉ enc.encode) (h61 : c ≠ 61) (h10 : c ≠ 10) (h13 : c ≠ 13) :
    decodePayload g v src = some (Except.error (Error.payloadDecode vs.length)) := by
  obtain ⟨rest2, hrep⟩ : ∃ rest2, repad (vs.map enc.sym ++ c :: rest)
      = vs.map enc.sym ++ c :: rest2 := by
    unfold repad
    simp only
    split
    · exact ⟨rest ++ List.replicate (8 - (vs.map enc.sym ++ c :: rest).length % 8) 61, by simp⟩
    · exact ⟨rest, rfl⟩
  simp only [decodePayload, henc, Option.bind_eq_bind, Option.some_bind, sliceFrom]
  rw [if_pos hlen]
  simp only [Option.some_bind, hsrc, hrep]
  obtain ⟨r, hd, he⟩ := Decode_first_bad enc hv vs c rest2
    (List.replicate (enc.DecodedLen (vs.map enc.sym ++ c :: rest2).length) 0) hc h61 h10 h13
    (by rw [List.length_replicate, DecodedLen_eq enc hv])
  rw [hd]
  simp only [Option.some_bind, he]

/-- The seed decoder reports the index of the first ordinary symbol outside
the Base Alphabet among the first 7 symbols. -/
theorem decodeSeed_first_bad (pre post : List Nat) (c : Nat)
    (hlen : 7 ≤ (pre ++ c :: post).length) (hk : pre.length < 7)
    (hpre : ∀ x ∈ pre, x ∈ stdEncode) (hc : c ∉ stdEncode)
    (h61 : c ≠ 61) (h10 : c ≠ 10) (h13 : c ≠ 13) :
    decodeSeed (pre ++ c :: post) = some (Except.error (Error.seedDecode pre.length)) := by
  obtain ⟨std, hstd, hvs, henc⟩ := stdEncoding_valid
  obtain ⟨vs, hvs7⟩ := hvs.syms_of_mem pre (fun x hx => by rw [henc]; exact hpre x hx)
  have hvl : vs.length = pre.length := by
    have := congrArg List.length hvs7
    rw [List.length_map] at this
    omega
  obtain ⟨m, hm⟩ : ∃ m, 7 - pre.length = m + 1 := ⟨6 - pre.length, by omega⟩
  have htake : (pre ++ c :: post).take 7 ++ [61]
      = vs.map std.sym ++ c :: (post.take m ++ [61]) := by
    rw [List.take_append_eq_append_take, List.take_of_length_le (by omega), hm,
      List.take_succ_cons, ← hvs7]
    simp
  obtain ⟨r, hd, he⟩ := Decode_first_bad std hvs vs c (post.take m ++ [61])
    (List.replicate 5 0) (by rw [henc]; exact hc) h61 h10 h13
    (by
      have h8 : (vs.map std.sym ++ c :: (post.take m ++ [61])).length = 8 := by
        rw [← htake, List.length_append, List.length_take]
        simp only [List.length_singleton]
        omega
      rw [h8]
      decide)
  simp only [decodeSeed, hstd, Option.bind_eq_bind, Option.some_bind, seedEnc_eq _ hlen, htake,
    hd, he, hvl]

theorem Decode_accepts (g : Gen) (src out : List Nat)
    (h : Decode g src = some (Except.ok out)) :
    7 ≤ src.length ∧ ∃ v, decodeSeed src = some (Except.ok v) ∧
      decodePayload g v src = some (Except.ok out) := by
  have h7 : 7 ≤ src.length := by
    by_contra hlt
    have : Decode g src = some (Except.error Error.invalidInputSize) := by
      unfold Decode
      rw [if_pos (by omega)]
    rw [this] at h
    cases h
  refine ⟨h7, ?_⟩
  cases hs : decodeSeed src with
  | none =>
    rw [Decode_of_seed_panic g src h7 hs] at h
    cases h
  | some r =>
    cases r with
    | error e =>
      rw [Decode_of_seed_error g src e h7 hs] at h
      cases h
    | ok v =>
      rw [Decode_of_seed g src v h7 hs] at h
      exact ⟨v, rfl, h⟩

theorem message_seed (k : Nat) : (Error.seedDecode k).message
    = "seed decode error: illegal base32 data at input byte " ++ toString k := by
  show "seed decode error: " ++ ("illegal base32 data at input byte " ++ toString k) = _
  rw [← String.append_assoc]
  rfl

theorem message_payload (p : Nat) : (Error.payloadDecode p).message
    = "payload decode error: illegal base32 data at input byte " ++ toString p := by
  show "payload decode error: " ++ ("illegal base32 data at input byte " ++ toString p) = _
  rw [← String.append_assoc]
  rfl

/-! ## Payload length and error offsets -/

/-- C14. Decoded length is exact: for every input that `Decode` accepts and
whose payload (the symbols after the first 7) consists of `L` symbols of the
alphabet derived from the recovered seed, the returned byte sequence has
exactly `5 * L / 8` bytes (integer division); when `L` is not a multiple of 8
this is less than the `DecodedLen` buffer the payload was decoded into. -/
theorem C14_decoded_length_exact (g : Gen) (src out : List Nat)
    (hacc : Decode g src = some (Except.ok out))
    (hpay : ∀ v enc, decodeSeed src = some (Except.ok v) →
      newSeedEncoding g (v : Int) = some enc → ∀ c ∈ src.drop 7, c ∈ enc.encode) :
    out.length = 5 * (src.length - 7) / 8 ∧
      ∀ v enc, decodeSeed src = some (Except.ok v) → newSeedEncoding g (v : Int) = some enc →
        (src.length - 7) % 8 ≠ 0 →
        out.length < enc.DecodedLen (repad (src.drop 7)).length := by
  obtain ⟨h7, v, hs, hp⟩ := Decode_accepts g src out hacc
  obtain ⟨enc, henc, hv⟩ := newSeedEncoding_valid g (v : Int)
  obtain ⟨vs, hvs⟩ := hv.syms_of_mem (src.drop 7) (hpay v enc hs henc)
  have hL : vs.length = src.length - 7 := by
    have := congrArg List.length hvs
    rw [List.length_drop, List.length_map] at this
    omega
  have hsym := decodePayload_symbols g v enc henc hv src h7 vs hvs
  have hgood : vs.length % 8 = 0 ∨ vs.length % 8 = 2 ∨ vs.length % 8 = 4 ∨ vs.length % 8 = 5 ∨
      vs.length % 8 = 7 := by
    by_contra hb
    obtain ⟨e, he⟩ := hsym.2 (by omega)
    rw [hp] at he
    cases he
  obtain ⟨out2, ho, hlen2⟩ := hsym.1 hgood
  rw [hp] at ho
  cases ho
  rw [hL] at hlen2
  refine ⟨hlen2, ?_⟩
  intro v2 enc2 hs2 henc2 hne
  rw [DecodedLen_eq enc2 (newSeedEncoding_is_valid g _ enc2 henc2), hlen2]
  have hr : (repad (src.drop 7)).length % 8 = 0 := repad_length _
  have hr2 : (src.drop 7).length ≤ (repad (src.drop 7)).length := by
    unfold repad
    simp only
    split
    · rw [List.length_append]; omega
    · exact Nat.le_refl _
  rw [List.length_drop] at hr2
  omega

/-- Witness of C14 on the text "pd6c76qiiiiiii" of the test suite: 7 payload
symbols, 4 bytes. -/
theorem C14_decoded_length_exact_witness :
    (∃ out, Decode sampleGen (ascii "pd6c76qiiiiiii") = some (Except.ok out) ∧
      out.length = 4) ∧
      ∀ out, Decode sampleGen (ascii "pd6c76qiiiiiii") = some (Except.ok out) →
        out.length = 5 * ((ascii "pd6c76qiiiiiii").length - 7) / 8 ∧
        ∀ v enc, decodeSeed (ascii "pd6c76qiiiiiii") = some (Except.ok v) →
          newSeedEncoding sampleGen (v : Int) = some enc →
          ((ascii "pd6c76qiiiiiii").length - 7) % 8 ≠ 0 →
          out.length < enc.DecodedLen (repad ((ascii "pd6c76qiiiiiii").drop 7)).length :=
  ⟨⟨[231, 57, 206, 115], by decide, rfl⟩, fun out h =>
    C14_decoded_length_exact sampleGen (ascii "pd6c76qiiiiiii") out h
    (fun v enc _ henc c hc => newSeedEncoding_mem_std sampleGen v enc henc c
      ((by decide : ∀ c ∈ (ascii "pd6c76qiiiiiii").drop 7, c ∈ stdEncode) c hc))⟩

/-- C15. Reported error offset is relative to the segment.  Let `c` be an
ordinary character (not `=`, CR or LF).  If `c` stands at index `k < 7` of an
input of at least 7 symbols, is outside the Base Alphabet and only Base
Alphabet symbols precede it, `Decode` returns the seed decode error with text
"seed decode error: illegal base32 data at input byte k".  If the 7 prefix
symbols are Base Alphabet symbols, the seed they encode is recovered and its
alphabet derived; if then `c` stands at payload index `p`, is outside the
derived alphabet and only symbols of the derived alphabet precede it in the
payload, `Decode` returns the payload decode error with text
"payload decode error: illegal base32 data at input byte p". -/
theorem C15_error_offset_in_segment (g : Gen) (pre post : List Nat) (c : Nat)
    (h61 : c ≠ 61) (h10 : c ≠ 10) (h13 : c ≠ 13) :
    (7 ≤ (pre ++ c :: post).length → pre.length < 7 → (∀ x ∈ pre, x ∈ stdEncode) →
      c ∉ stdEncode →
      Decode g (pre ++ c :: post) = some (Except.error (Error.seedDecode pre.length)) ∧
      (Error.seedDecode pre.length).message
        = "seed decode error: illegal base32 data at input byte " ++ toString pre.length) ∧
    (∀ sd : List Nat, sd.length = 7 → (∀ x ∈ sd, x ∈ stdEncode) →
      ∃ v enc, decodeSeed (sd ++ (pre ++ c :: post)) = some (Except.ok v) ∧
        newSeedEncoding g (v : Int) = some enc ∧
        ((∀ x ∈ pre, x ∈ enc.encode) → c ∉ enc.encode →
          Decode g (sd ++ (pre ++ c :: post))
            = some (Except.error (Error.payloadDecode pre.length)) ∧
          (Error.payloadDecode pre.length).message
            = "payload decode error: illegal base32 data at input byte "
              ++ toString pre.length)) := by
  constructor
  · intro hlen hk hpre hc
    refine ⟨?_, message_seed _⟩
    rw [Decode_of_seed_error g _ _ hlen
      (decodeSeed_first_bad pre post c hlen hk hpre hc h61 h10 h13)]
  · intro sd hsd hstd
    have hlen : 7 ≤ (sd ++ (pre ++ c :: post)).length := by
      rw [List.length_append]; omega
    obtain ⟨v, hs⟩ := decodeSeed_valid (sd ++ (pre ++ c :: post)) hlen (by
      rw [List.take_append_of_le_length (by omega), List.take_of_length_le (by omega)]
      exact hstd)
    obtain ⟨enc, henc, hv⟩ := newSeedEncoding_valid g (v : Int)
    refine ⟨v, enc, hs, henc, ?_⟩
    intro hpre hc
    obtain ⟨vs, hvs⟩ := hv.syms_of_mem pre hpre
    have hvl : vs.length = pre.length := by
      have := congrArg List.length hvs
      rw [List.length_map] at this
      omega
    refine ⟨?_, message_payload _⟩
    rw [Decode_of_seed g _ v hlen hs, ← hvl]
    apply decodePayload_first_bad g v enc henc hv _ hlen vs c post _ hc h61 h10 h13
    rw [List.drop_append_of_le_length (by omega), ← hsd, List.drop_length, hvs]
    rfl

/-- Witness of C15: "pd9c76q9" (the foreign symbol `9` at index 2 of the prefix)
reports seed byte 2, and "pd6c76q9" of the test suite reports payload byte 0,
not byte 7. -/
theorem C15_error_offset_in_segment_witness :
    (Decode sampleGen (ascii "pd9c76q9") = some (Except.error (Error.seedDecode 2)) ∧
      (Error.seedDecode 2).message = "seed decode error: illegal base32 data at input byte 2") ∧
    (Decode sampleGen (ascii "pd6c76q9") = some (Except.error (Error.payloadDecode 0)) ∧
      (Error.payloadDecode 0).message
        = "payload decode error: illegal base32 data at input byte 0") :=
  ⟨(C15_error_offset_in_segment sampleGen (ascii "pd") (ascii "c76q9") 57
      (by decide) (by decide) (by decide)).1 (by decide) (by decide) (by decide) (by decide),
    match (C15_error_offset_in_segment sampleGen [] [] 57
      (by decide) (by decide) (by decide)).2 (ascii "pd6c76q") (by decide) (by decide) with
    | ⟨v, enc, _, henc, h⟩ => h (fun x hx => by cases hx)
        (fun hc => absurd (newSeedEncoding_mem sampleGen v enc henc 57 hc) (by decide))⟩

/-- C16. Impossible payload lengths are rejected: for every input whose first
7 symbols are Base Alphabet symbols and whose payload consists only of symbols
of the alphabet derived from the recovered seed, `Decode` fails with the
payload decode error (text prefixed "payload decode error: ") when the payload
length `L` has `L mod 8` equal to 1, 3 or 6, and returns bytes without error
when `L mod 8` is 0, 2, 4, 5 or 7. -/
theorem C16_impossible_payload_lengths (g : Gen) (src : List Nat) (hlen : 7 ≤ src.length)
    (hseed : ∀ c ∈ src.take 7, c ∈ stdEncode)
    (hpay : ∀ v enc, decodeSeed src = some (Except.ok v) →
      newSeedEncoding g (v : Int) = some enc → ∀ c ∈ src.drop 7, c ∈ enc.encode) :
    ((src.length - 7) % 8 = 1 ∨ (src.length - 7) % 8 = 3 ∨ (src.length - 7) % 8 = 6 →
      ∃ e, Decode g src = some (Except.error (Error.payloadDecode e)) ∧
        (Error.payloadDecode e).message = "payload decode error: " ++ corruptInputMessage e) ∧
    ((src.length - 7) % 8 = 0 ∨ (src.length - 7) % 8 = 2 ∨ (src.length - 7) % 8 = 4 ∨
        (src.length - 7) % 8 = 5 ∨ (src.length - 7) % 8 = 7 →
      ∃ out, Decode g src = some (Except.ok out)) := by
  obtain ⟨v, hs⟩ := decodeSeed_valid src hlen hseed
  obtain ⟨enc, henc, hv⟩ := newSeedEncoding_valid g (v : Int)
  obtain ⟨vs, hvs⟩ := hv.syms_of_mem (src.drop 7) (hpay v enc hs henc)
  have hL : vs.length = src.length - 7 := by
    have := congrArg List.length hvs
    rw [List.length_drop, List.length_map] at this
    omega
  have hsym := decodePayload_symbols g v enc henc hv src hlen vs hvs
  rw [hL] at hsym
  rw [Decode_of_seed g src v hlen hs]
  constructor
  · intro hcase
    obtain ⟨e, he⟩ := hsym.2 hcase
    exact ⟨e, he, rfl⟩
  · intro hcase
    obtain ⟨out, ho, _⟩ := hsym.1 hcase
    exact ⟨out, ho⟩

/-- Witness of C16: "pd6c76qi" (one payload symbol) is rejected, and
"pd6c76qii" (two payload symbols) is accepted. -/
theorem C16_impossible_payload_lengths_witness :
    (∃ e, Decode sampleGen (ascii "pd6c76qi") = some (Except.error (Error.payloadDecode e)) ∧
      (Error.payloadDecode e).message = "payload decode error: " ++ corruptInputMessage e) ∧
    ∃ out, Decode sampleGen (ascii "pd6c76qii") = some (Except.ok out) :=
  ⟨(C16_impossible_payload_lengths sampleGen (ascii "pd6c76qi") (by decide) (by decide)
      (fun v enc _ henc c hc => newSeedEncoding_mem_std sampleGen v enc henc c
        ((by decide : ∀ c ∈ (ascii "pd6c76qi").drop 7, c ∈ stdEncode) c hc))).1 (by decide),
    ⟨[231], by decide⟩⟩

/-! ## The seventh symbol of the prefix -/

theorem badPadding_congr (pad : Nat) (s t : List Nat) (j : Nat) (hl : s.length = t.length)
    (h : ∀ k, (s.getD k 0 == pad) = (t.getD k 0 == pad)) :
    badPadding pad s j = badPadding pad t j := by
  unfold badPadding
  congr 1
  funext k
  rw [hl, h k]

theorem getD_append_cons_pad (a tail : List Nat) (x y pad : Nat) (hx : x ≠ pad) (hy : y ≠ pad)
    (k : Nat) : ((a ++ x :: tail).getD k 0 == pad) = ((a ++ y :: tail).getD k 0 == pad) := by
  rcases Nat.lt_trichotomy k a.length with h | h | h
  · rw [List.getD_append _ _ _ _ h, List.getD_append _ _ _ _ h]
  · subst h
    rw [List.getD_append_right _ _ _ _ (Nat.le_refl _),
      List.getD_append_right _ _ _ _ (Nat.le_refl _), Nat.sub_self]
    simp [hx, hy]
  · rw [List.getD_append_right _ _ _ _ (Nat.le_of_lt h),
      List.getD_append_right _ _ _ _ (Nat.le_of_lt h)]
    obtain ⟨m, hm⟩ : ∃ m, k - a.length = m + 1 := ⟨k - a.length - 1, by omega⟩
    rw [hm]
    rfl

/-- Reading the seed block `a ++ [x, '=']` and the block `a ++ [y, '=']`, where
`x` and `y` are symbols of the alphabet: both reads fail with the same error,
or `x` and `y` are the 7th symbol and the quanta differ at index 6 only. -/
theorem readQuantum_seventh (enc : Encoding) (hv : enc.Valid) (olen v w : Nat) :
    ∀ (a : List Nat) (j : Nat) (dbuf : List Nat), j + a.length ≤ 6 →
      (∃ e, readQuantum enc olen j (a ++ [enc.sym v, 61]) dbuf = Quantum.corrupt e ∧
        readQuantum enc olen j (a ++ [enc.sym w, 61]) dbuf = Quantum.corrupt e) ∨
      (∃ d : List Nat, readQuantum enc olen j (a ++ [enc.sym v, 61]) dbuf
          = Quantum.read (d.set 6 (v &&& 31)) 7 true [] ∧
        readQuantum enc olen j (a ++ [enc.sym w, 61]) dbuf
          = Quantum.read (d.set 6 (w &&& 31)) 7 true []) := by
  have hp := hv.padByte
  have h61 : enc.decodeMap.getD 61 invalidIndex = 255 :=
    hv.absent 61 (fun h => (hv.mem_std h).2.2.1 rfl)
  have h32 : ∀ u : Nat, ¬ (u &&& 31 = 255) := by
    intro u
    rw [and31]
    omega
  intro a
  induction a with
  | nil =>
    intro j dbuf hj
    simp only [List.nil_append, List.length_nil, Nat.add_zero] at hj ⊢
    have hstep : ∀ u : Nat, readQuantum enc olen j [enc.sym u, 61] dbuf
        = readQuantum enc olen (j + 1) [61] (dbuf.set j (u &&& 31)) := by
      intro u
      rw [readQuantum, if_pos (by omega), if_neg (by rw [hp]; exact fun h => (hv.sym_ne u).1 h.1)]
      simp only [hv.sym_dec u]
      rw [if_neg (h32 u)]
    rw [hstep v, hstep w]
    by_cases h0 : j = 0
    · subst h0
      left
      refine ⟨olen - 0 - 1, ?_, ?_⟩ <;>
      · rw [readQuantum, if_pos (by omega), if_neg (by omega)]
        simp only [h61]
        rfl
    · by_cases h6 : j = 6
      · subst h6
        right
        refine ⟨dbuf, ?_, ?_⟩ <;>
        · rw [readQuantum, if_pos (by omega), if_pos ⟨hp.symm, by omega, by decide⟩,
            if_neg (by decide)]
          rfl
      · left
        refine ⟨olen, ?_, ?_⟩ <;>
        · rw [readQuantum, if_pos (by omega),
            if_pos ⟨hp.symm, by omega, by decide⟩, if_pos (by simp; omega)]
  | cons c a ih =>
    intro j dbuf hj
    simp only [List.length_cons] at hj
    simp only [List.cons_append]
    have hlen : ∀ u : Nat, (a ++ [enc.sym u, 61]).length = a.length + 2 := by
      intro u
      simp
    by_cases hpad : c = enc.padByte ∧ j ≥ 2 ∧ a.length + 2 < 8
    · left
      by_cases hshort : a.length + 2 + j < 8 - 1
      · refine ⟨olen, ?_, ?_⟩ <;>
        · rw [readQuantum, if_pos (by omega), if_pos (by rw [hlen]; exact hpad),
            if_pos (by rw [hlen]; exact hshort)]
      · have hb : badPadding enc.padByte (a ++ [enc.sym v, 61]) j
            = badPadding enc.padByte (a ++ [enc.sym w, 61]) j :=
          badPadding_congr _ _ _ _ (by rw [hlen, hlen])
            (getD_append_cons_pad a [61] _ _ _ (by rw [hp]; exact (hv.sym_ne v).1)
              (by rw [hp]; exact (hv.sym_ne w).1))
        cases hk : badPadding enc.padByte (a ++ [enc.sym w, 61]) j with
        | none =>
          exfalso
          obtain ⟨m, hm⟩ : ∃ m, 7 - j = a.length + (m + 1) := ⟨6 - j - a.length, by omega⟩
          have hall := badPadding_none _ _ _ hk (enc.sym w) (by
            rw [hm, List.take_append, List.take_succ_cons]
            simp)
          rw [hp] at hall
          exact (hv.sym_ne w).1 hall
        | some k =>
          refine ⟨olen - (a.length + 2) + k - 1, ?_, ?_⟩
          · rw [readQuantum, if_pos (by omega), if_pos (by rw [hlen]; exact hpad),
              if_neg (by rw [hlen]; exact hshort), hb, hk, hlen]
          · rw [readQuantum, if_pos (by omega), if_pos (by rw [hlen]; exact hpad),
              if_neg (by rw [hlen]; exact hshort), hk, hlen]
    · by_cases h255 : enc.decodeMap.getD c invalidIndex = 255
      · left
        refine ⟨olen - (a.length + 2) - 1, ?_, ?_⟩ <;>
        · rw [readQuantum, if_pos (by omega), if_neg (by rw [hlen]; exact hpad)]
          simp only [h255, if_true, hlen]
      · have := ih (j + 1) (dbuf.set j (enc.decodeMap.getD c invalidIndex)) (by omega)
        have hstep : ∀ u : Nat, readQuantum enc olen j (c :: (a ++ [enc.sym u, 61])) dbuf
            = readQuantum enc olen (j + 1) (a ++ [enc.sym u, 61])
              (dbuf.set j (enc.decodeMap.getD c invalidIndex)) := by
          intro u
          rw [readQuantum, if_pos (by omega), if_neg (by rw [hlen]; exact hpad)]
          simp only [h255, if_false]
        rw [hstep v, hstep w]
        exact this

theorem getD_set_ne (d : List Nat) (i j a : Nat) (h : i ≠ j) :
    (d.set j a).getD i 0 = d.getD i 0 := by
  rw [List.getD_eq_getElem?_getD, List.getD_eq_getElem?_getD, List.getElem?_set_ne (Ne.symm h)]

theorem getD_set_shift (d : List Nat) (j a b s : Nat) (h : a >>> s = b >>> s) :
    (d.set j a).getD j 0 >>> s = (d.set j b).getD j 0 >>> s := by
  rw [List.getD_eq_getElem?_getD, List.getD_eq_getElem?_getD, List.getElem?_set,
    List.getElem?_set, if_pos rfl, if_pos rfl]
  by_cases hj : j < d.length
  · rw [if_pos hj, if_pos hj]
    exact h
  · rw [if_neg hj, if_neg hj]

/-- Switch arm `case 7` reads only the top two bits of `dbuf[6]`. -/
theorem pack_seventh (dst d : List Nat) (dsti n a b : Nat) (h : a >>> 3 = b >>> 3) :
    pack dst (d.set 6 a) dsti 7 n = pack dst (d.set 6 b) dsti 7 n := by
  show pack7 _ _ _ _ = pack7 _ _ _ _
  simp only [pack7, pack5, pack4, pack2, getD_set_ne d 0 6 _ (by decide),
    getD_set_ne d 1 6 _ (by decide), getD_set_ne d 2 6 _ (by decide),
    getD_set_ne d 3 6 _ (by decide), getD_set_ne d 4 6 _ (by decide),
    getD_set_ne d 5 6 _ (by decide), getD_set_shift d 6 a b 3 h]

/-- The Base decoder gives the same result on two seed blocks that differ in
the 7th symbol only, by two alphabet symbols whose values agree above the low
three bits. -/
theorem Decode_seventh (enc : Encoding) (hv : enc.Valid) (a : List Nat) (v w : Nat)
    (ha : a.length = 6) (h : (v &&& 31) >>> 3 = (w &&& 31) >>> 3) :
    enc.Decode (List.replicate 5 0) (a ++ [enc.sym v, 61])
      = enc.Decode (List.replicate 5 0) (a ++ [enc.sym w, 61]) := by
  have hstrip : ∀ u : Nat, stripNewlines (a ++ [enc.sym u, 61])
      = stripNewlines a ++ [enc.sym u, 61] := by
    intro u
    unfold stripNewlines
    rw [List.filter_append]
    congr 1
    have := hv.sym_ne u
    simp [this.2.1, this.2.2]
  have hle : (stripNewlines a).length ≤ 6 := by
    rw [← ha]
    exact List.length_filter_le _ _
  have hlen : ∀ u : Nat, (stripNewlines a ++ [enc.sym u, 61]).length
      = (stripNewlines a).length + 1 + 1 := by
    intro u
    simp
  unfold Encoding.Decode Encoding.decode
  rw [hstrip v, hstrip w, hlen v, hlen w]
  rcases readQuantum_seventh enc hv ((stripNewlines a).length + 1 + 1) v w (stripNewlines a) 0
    (List.replicate 8 0) (by omega) with ⟨e, h1, h2⟩ | ⟨d, h1, h2⟩
  · rw [decodeLoop_corrupt enc _ _ _ _ _ _ e (by simp) h1,
      decodeLoop_corrupt enc _ _ _ _ _ _ e (by simp) h2]
  · obtain ⟨d2, n2, p1, _⟩ := pack_some (List.replicate 5 0) (d.set 6 (v &&& 31)) 0 7 0 (by simp)
    have p2 : pack (List.replicate 5 0) (d.set 6 (w &&& 31)) 0 7 0 = some (d2, n2) := by
      rw [← pack_seventh _ d 0 0 _ _ h]
      exact p1
    rw [decodeLoop_read enc _ _ _ 0 0 _ _ 7 true [] d2 n2 (by simp) h1 p1,
      decodeLoop_read enc _ _ _ 0 0 _ _ 7 true [] d2 n2 (by simp) h2 p2]

theorem decodeSeed_seventh (a post : List Nat) (i k : Nat) (ha : a.length = 6)
    (hi : i < 32) (hk : k < 32) (hik : i / 8 = k / 8) :
    decodeSeed (a ++ stdEncode.getD i 0 :: post) = decodeSeed (a ++ stdEncode.getD k 0 :: post) := by
  obtain ⟨std, hstd, hvs, henc⟩ := stdEncoding_valid
  have hsym : ∀ u : Nat, u < 32 → stdEncode.getD u 0 = std.sym u := by
    intro u hu
    unfold Encoding.sym
    rw [henc, and31, Nat.mod_eq_of_lt hu]
  have htake : ∀ x : Nat, (a ++ x :: post).take 7 ++ [61] = a ++ [x, 61] := by
    intro x
    rw [List.take_append_eq_append_take, List.take_of_length_le (by omega), ha]
    simp
  have hlen : ∀ x : Nat, 7 ≤ (a ++ x :: post).length := by
    intro x
    rw [List.length_append, List.length_cons]
    omega
  have hd := Decode_seventh std hvs a i k ha (by
    rw [and31, and31, Nat.mod_eq_of_lt hi, Nat.mod_eq_of_lt hk, Nat.shiftRight_eq_div_pow,
      Nat.shiftRight_eq_div_pow]
    exact hik)
  simp only [decodeSeed, hstd, Option.bind_eq_bind, Option.some_bind, seedEnc_eq _ (hlen _),
    htake, hsym i hi, hsym k hk, hd]

theorem decodePayload_drop (g : Gen) (v : Nat) (s t : List Nat) (hl : s.length = t.length)
    (hd : s.drop 7 = t.drop 7) : decodePayload g v s = decodePayload g v t := by
  simp only [decodePayload, sliceFrom, hl, hd]

theorem Decode_seventh_symbol (g : Gen) (a post : List Nat) (i k : Nat) (ha : a.length = 6)
    (hi : i < 32) (hk : k < 32) (hik : i / 8 = k / 8) :
    Decode g (a ++ stdEncode.getD k 0 :: post) = Decode g (a ++ stdEncode.getD i 0 :: post) := by
  have hs := decodeSeed_seventh a post i k ha hi hk hik
  have hlen : ∀ x : Nat, 7 ≤ (a ++ x :: post).length := by
    intro x
    rw [List.length_append, List.length_cons]
    omega
  have hp : ∀ v, decodePayload g v (a ++ stdEncode.getD k 0 :: post)
      = decodePayload g v (a ++ stdEncode.getD i 0 :: post) := by
    intro v
    apply decodePayload_drop
    · simp
    · rw [List.drop_append_eq_append_drop, List.drop_append_eq_append_drop, ha]
      simp
  cases h : decodeSeed (a ++ stdEncode.getD i 0 :: post) with
  | none =>
    rw [Decode_of_seed_panic g _ (hlen _) h, Decode_of_seed_panic g _ (hlen _) (hs ▸ h)]
  | some r =>
    cases r with
    | error e =>
      rw [Decode_of_seed_error g _ e (hlen _) h, Decode_of_seed_error g _ e (hlen _) (hs ▸ h)]
    | ok v =>
      rw [Decode_of_seed g _ v (hlen _) h, Decode_of_seed g _ v (hlen _) (hs ▸ h), hp v]

theorem stdEncode_getD_inj : ∀ i < 32, ∀ k < 32,
    stdEncode.getD i 0 = stdEncode.getD k 0 → i = k := by decide

/-- C17. Decode is not injective on the seed prefix: for every input of at
least 7 symbols whose 7th symbol is the Base Alphabet symbol of index `i`,
replacing that symbol by the Base Alphabet symbol of an index `k` with
`i / 8 = k / 8` (same top two bits) gives exactly the same `Decode` result,
bytes, error or panic alike; and when `k ≠ i` the two texts are distinct. -/
theorem C17_seventh_symbol_low_bits (g : Gen) (src : List Nat) (i k : Nat)
    (hlen : 7 ≤ src.length) (hi : i < 32) (hk : k < 32)
    (h6 : src.getD 6 0 = stdEncode.getD i 0) (hik : i / 8 = k / 8) :
    Decode g (src.set 6 (stdEncode.getD k 0)) = Decode g src ∧
      (i ≠ k → src.set 6 (stdEncode.getD k 0) ≠ src) := by
  have hsrc : src = src.take 6 ++ stdEncode.getD i 0 :: src.drop 7 := by
    rw [← h6, List.getD_eq_getElem _ _ (by omega), ← List.drop_eq_getElem_cons,
      List.take_append_drop]
  have hset : src.set 6 (stdEncode.getD k 0)
      = src.take 6 ++ stdEncode.getD k 0 :: src.drop 7 := by
    rw [List.set_eq_take_append_cons_drop, if_pos (by omega)]
  have ha : (src.take 6).length = 6 := by
    rw [List.length_take]
    omega
  constructor
  · rw [hset]
    conv_rhs => rw [hsrc]
    exact Decode_seventh_symbol g _ _ i k ha hi hk hik
  · intro hne heq
    have := congrArg (fun l => List.getD l 6 0) heq
    simp only at this
    have h7 : 6 < src.length := by omega
    rw [h6, List.getD_eq_getElem?_getD, List.getElem?_set, if_pos rfl, if_pos h7,
      Option.getD_some] at this
    exact hne (stdEncode_getD_inj i hi k hk this.symm)

/-- Witness of C17: "pd6c76qiiiiiii" of the test suite and "pd6c76riiiiiii"
(`q` has index 16, `r` index 17) decode to the same 4 bytes. -/
theorem C17_seventh_symbol_low_bits_witness :
    Decode sampleGen (ascii "pd6c76riiiiiii") = some (Except.ok [231, 57, 206, 115]) ∧
      (Decode sampleGen ((ascii "pd6c76qiiiiiii").set 6 (stdEncode.getD 17 0))
          = Decode sampleGen (ascii "pd6c76qiiiiiii") ∧
        ((16 : Nat) ≠ 17 →
          (ascii "pd6c76qiiiiiii").set 6 (stdEncode.getD 17 0) ≠ ascii "pd6c76qiiiiiii")) :=
  ⟨by decide, C17_seventh_symbol_low_bits sampleGen (ascii "pd6c76qiiiiiii") 16 17
    (by decide) (by decide) (by decide) (by decide) (by decide)⟩

/-! ## The test vectors on the generator of `math/rand` -/

theorem forceInt_eq {α : Type} (x : Int) (k : Int → α) : forceInt x k = k x := by
  unfold forceInt
  split <;> rfl

theorem seedVec_eq_seedVecStrict (cooked : List Nat) :
    ∀ x : Int, seedVec x cooked = seedVecStrict x cooked := by
  induction cooked with
  | nil => intro x; rfl
  | cons c cooked ih =>
    intro x
    simp only [seedVec, seedVecStrict, forceInt_eq, ih]

theorem NewSource_strict (seed : Int) : NewSource seed =
    ⟨0, 607 - 273, seedVecStrict (Nat.iterate seedrand 20
      (if (if Int.tmod seed 2147483647 < 0 then Int.tmod seed 2147483647 + 2147483647
          else Int.tmod seed 2147483647) = 0 then 89482311
        else (if Int.tmod seed 2147483647 < 0 then Int.tmod seed 2147483647 + 2147483647
          else Int.tmod seed 2147483647))) rngCooked⟩ := by
  unfold NewSource
  simp only [seedVec_eq_seedVecStrict]

theorem seededInt31_eval : seededInt31 0 = 2029793274 ∧ seededInt31 1 = 1298498081 := by
  simp only [seededInt31, NewSource_strict]
  decide!

theorem permValues_take (fuel : Nat) : ∀ (count i : Nat) (rng : rngSource) (vs : List Nat),
    Rand.permValues fuel count i rng = some vs →
    ∀ m, m ≤ count → Rand.permValues fuel m i rng = some (vs.take m) := by
  intro count
  induction count with
  | zero =>
    intro i rng vs h m hm
    have : m = 0 := by omega
    subst this
    simp [Rand.permValues]
  | succ count ih =>
    intro i rng vs h m hm
    cases m with
    | zero => simp [Rand.permValues]
    | succ m =>
      simp only [Rand.permValues, Option.bind_eq_bind] at h ⊢
      cases h1 : Rand.Int31nValue fuel rng (i + 1) with
      | none => rw [h1] at h; cases h
      | some p =>
        obtain ⟨v, rng2⟩ := p
        rw [h1] at h
        simp only [Option.some_bind] at h ⊢
        cases h2 : Rand.permValues fuel count (i + 1) rng2 with
        | none => rw [h2] at h; cases h
        | some vs2 =>
          rw [h2] at h
          simp only [Option.some_bind, Option.some.injEq] at h
          subst h
          rw [ih (i + 1) rng2 vs2 h2 m (by omega)]
          rfl

theorem goGen_of_values (seed : Int) (n : Nat) (vs : List Nat)
    (h : Rand.permValues 64 n 0 (NewSource seed) = some vs) :
    ∀ k, k < n → goGen seed k = vs.getD k 0 := by
  intro k hk
  unfold goGen
  rw [permValues_take 64 n 0 _ vs h (k + 1) (by omega)]
  simp only
  rw [List.getD_eq_getElem?_getD, List.getD_eq_getElem?_getD, List.getElem?_take_of_lt (by omega)]

theorem Perm_congr (d1 d2 : Nat → Nat) (n : Nat) (h : ∀ k, k < n → d1 k = d2 k) :
    Rand.Perm d1 n = Rand.Perm d2 n := by
  unfold Rand.Perm
  apply List.foldl_ext
  intro m i hi
  have := h i (List.mem_range.mp hi)
  simp only [Rand.Intn, this]

theorem Encode_congr (g1 g2 : Gen) (seed : Int) (src : List Nat)
    (h : ∀ k, k < 32 → g1 seed k = g2 seed k) : Encode g1 seed src = Encode g2 seed src := by
  have hl : stdEncode.length = 32 := rfl
  simp only [Encode, newSeedEncoding, hl, Perm_congr (g1 seed) (g2 seed) 32 h]

/-- The values that the 32 calls of `Intn` in `Perm(32)` reduce, on the
generator seeded with 2029793274. -/
theorem permValues_first : Rand.permValues 64 32 0 (NewSource 2029793274) = some
    [612334097, 1004152662, 487463794, 1623395342, 1774487440, 1033969138, 793115717,
     781527927, 533806803, 1781765506, 734544434, 476806293, 1472594388, 320206584,
     1319123748, 2118840060, 697141195, 1909125338, 138925298, 1839118431, 539583670,
     1358716070, 1357298667, 1972480798, 231342205, 643222743, 985475234, 628901166,
     1558083293, 1448755789, 2102724245, 926999289] := by
  rw [NewSource_strict]
  decide!

/-- The values that the 32 calls of `Intn` in `Perm(32)` reduce, on the
generator seeded with 1298498081. -/
theorem permValues_second : Rand.permValues 64 32 0 (NewSource 1298498081) = some
    [184753442, 1750906093, 229376247, 1373775121, 1735290601, 115155663, 648386116,
     911869586, 2117162966, 498622955, 818806686, 1831529998, 441737770, 1785169793,
     1686224811, 639098745, 1733924631, 1256747831, 768825532, 432768662, 275958639,
     985767483, 639851066, 1530478283, 1348714469, 197013785, 901111747, 140451745,
     399054306, 618288154, 1318515598, 1719675665] := by
  rw [NewSource_strict]
  decide!


theorem Encode_first (src : List Nat) : Encode goGen 2029793274 src = Encode (fun _ k => List.getD
    [612334097, 1004152662, 487463794, 1623395342, 1774487440, 1033969138, 793115717,
     781527927, 533806803, 1781765506, 734544434, 476806293, 1472594388, 320206584,
     1319123748, 2118840060, 697141195, 1909125338, 138925298, 1839118431, 539583670,
     1358716070, 1357298667, 1972480798, 231342205, 643222743, 985475234, 628901166,
     1558083293, 1448755789, 2102724245, 926999289] k 0) 2029793274 src :=
  Encode_congr _ _ _ _ (goGen_of_values _ 32 _ permValues_first)

theorem Encode_second (src : List Nat) : Encode goGen 1298498081 src = Encode (fun _ k => List.getD
    [184753442, 1750906093, 229376247, 1373775121, 1735290601, 115155663, 648386116,
     911869586, 2117162966, 498622955, 818806686, 1831529998, 441737770, 1785169793,
     1686224811, 639098745, 1733924631, 1256747831, 768825532, 432768662, 275958639,
     985767483, 639851066, 1530478283, 1348714469, 197013785, 901111747, 140451745,
     399054306, 618288154, 1318515598, 1719675665] k 0) 1298498081 src :=
  Encode_congr _ _ _ _ (goGen_of_values _ 32 _ permValues_second)

/-- C12. Frozen wire format: with the process-wide source seeded with 0,
`rand.Int31()` returns 2029793274 and `Encode` of the bytes 00 00 00 00
returns "pd6c76qiiiiiii", of FE 7B E7 D5 returns "pd6c76qh7dtskv", and of the 16
bytes of fe80::aede:48ff:fe00:1122 returns "pd6c76qh3iiiiiiiiiic6xtl4hhoiiafv";
with the source seeded with 1, `rand.Int31()` returns 1298498081 and `Encode`
of FE 7B E7 D5 returns "jvsyeiira2zi3b". -/
theorem C12_frozen_wire_format :
    seededInt31 0 = 2029793274 ∧ seededInt31 1 = 1298498081 ∧
      Encode goGen (seededInt31 0) [0, 0, 0, 0] = some (ascii "pd6c76qiiiiiii") ∧
      Encode goGen (seededInt31 0) [254, 123, 231, 213] = some (ascii "pd6c76qh7dtskv") ∧
      Encode goGen (seededInt31 0)
          [254, 128, 0, 0, 0, 0, 0, 0, 174, 222, 72, 255, 254, 0, 17, 34]
        = some (ascii "pd6c76qh3iiiiiiiiiic6xtl4hhoiiafv") ∧
      Encode goGen (seededInt31 1) [254, 123, 231, 213] = some (ascii "jvsyeiira2zi3b") := by
  obtain ⟨e0, e1⟩ := seededInt31_eval
  refine ⟨e0, e1, ?_, ?_, ?_, ?_⟩
  · rw [e0, Encode_first]
    decide
  · rw [e0, Encode_first]
    decide
  · rw [e0, Encode_first]
    decide
  · rw [e1, Encode_second]
    decide

end Obfu
